import Mathlib

/-!
# Checksum manifest engine (`lib/checksum/driver.go`)

A shallow embedding of the line codec (`escapeName`, `Driver.printSum`,
`Driver.verifyLine`) and of the verification loop (`Driver.checkFiles`) of the
Go checksum driver, followed by theorems about them.

A Go `string` is a sequence of bytes.  It is embedded as a list of natural
numbers, one per byte, each below 256.  The functions below are total on every
list of naturals; a list with an out-of-range entry is treated by the UTF-8
decoder like an invalid byte.
-/

namespace Checksum

/-- A Go string: its bytes in order. -/
abbrev Str := List Nat

/-- The bytes of a string literal (every literal of the driver is ASCII, where
a character is one byte). -/
def lit (s : String) : Str := s.toList.map Char.toNat

/-! ## The Go runtime and standard library functions the driver calls -/

/-- The rune `utf8.RuneError` (U+FFFD). -/
def RuneError : Nat := 0xFFFD

/-- Go `utf8.DecodeRuneInString`: the first rune of `s` and its width in bytes.
An empty string gives `(RuneError, 0)`, an invalid or truncated encoding gives
`(RuneError, 1)`.  The masks and shifts of the Go code are written with `%` and
`*`: `s0 & 0x1F` is `s0 % 32`, `x << 6` is `x * 64`, and the or-ed bit fields
are disjoint.  The lead-byte table `first` and the `acceptRanges` of the second
byte are spelled out as comparisons. -/
def decodeRune (s : Str) : Nat × Nat :=
  match s with
  | [] => (RuneError, 0)
  | s0 :: t =>
    if s0 < 0x80 then (s0, 1)
    else if s0 < 0xC2 ∨ 0xF4 < s0 then (RuneError, 1)
    else
      let lo := if s0 = 0xE0 then 0xA0 else if s0 = 0xF0 then 0x90 else 0x80
      let hi := if s0 = 0xED then 0x9F else if s0 = 0xF4 then 0x8F else 0xBF
      match t with
      | [] => (RuneError, 1)
      | s1 :: t1 =>
        if s0 < 0xE0 then
          if s1 < lo ∨ hi < s1 then (RuneError, 1)
          else ((s0 % 32) * 64 + s1 % 64, 2)
        else
          match t1 with
          | [] => (RuneError, 1)
          | s2 :: t2 =>
            if s0 < 0xF0 then
              if s1 < lo ∨ hi < s1 then (RuneError, 1)
              else if s2 < 0x80 ∨ 0xBF < s2 then (RuneError, 1)
              else ((s0 % 16) * 4096 + (s1 % 64) * 64 + s2 % 64, 3)
            else
              match t2 with
              | [] => (RuneError, 1)
              | s3 :: _ =>
                if s1 < lo ∨ hi < s1 then (RuneError, 1)
                else if s2 < 0x80 ∨ 0xBF < s2 then (RuneError, 1)
                else if s3 < 0x80 ∨ 0xBF < s3 then (RuneError, 1)
                else ((s0 % 8) * 262144 + (s1 % 64) * 4096 + (s2 % 64) * 64 + s3 % 64, 4)

/-- Go `utf8.AppendRune` (what `strings.Builder.WriteRune` writes): the UTF-8
encoding of a rune; surrogates and values above U+10FFFF are written as
U+FFFD. -/
def encodeRune (r : Nat) : Str :=
  if r < 0x80 then [r]
  else if r ≤ 0x7FF then [0xC0 + r / 64, 0x80 + r % 64]
  else if 0x10FFFF < r ∨ (0xD800 ≤ r ∧ r ≤ 0xDFFF) then [0xEF, 0xBF, 0xBD]
  else if r ≤ 0xFFFF then [0xE0 + r / 4096, 0x80 + r / 64 % 64, 0x80 + r % 64]
  else [0xF0 + r / 262144, 0x80 + r / 4096 % 64, 0x80 + r / 64 % 64, 0x80 + r % 64]

/-- The runes a Go `for _, r := range s` loop yields, with `skip` bytes of an
already decoded rune still to pass over.  At each rune boundary the loop decodes
the rune at the current position and advances by its width. -/
def runesAux : Nat → Str → List Nat
  | _, [] => []
  | k + 1, _ :: rest => runesAux k rest
  | 0, b :: rest =>
    let p := decodeRune (b :: rest)
    p.1 :: runesAux (p.2 - 1) rest

/-- The runes of `for _, r := range s`. -/
def runes (s : Str) : List Nat := runesAux 0 s

/-- Go `utf8.ValidString`: no position of the range loop meets an invalid
encoding. -/
def validAux : Nat → Str → Bool
  | _, [] => true
  | k + 1, _ :: rest => validAux k rest
  | 0, b :: rest =>
    let p := decodeRune (b :: rest)
    if p.1 = RuneError ∧ p.2 = 1 then false else validAux (p.2 - 1) rest

/-- Go `utf8.ValidString`. -/
def validString (s : Str) : Bool := validAux 0 s

/-- A lowercase hexadecimal digit, as `%x` and `hex.EncodeToString` print it. -/
def hexDigit (n : Nat) : Nat := if n < 10 then 0x30 + n else 0x61 + (n - 10)

/-- Go `strings.HasPrefix`. -/
def hasPrefix (s p : Str) : Bool := p.isPrefixOf s

/-- Go `strings.TrimRight` with an ASCII cutset: trailing bytes in the cutset
are removed. -/
def trimRight (s cutset : Str) : Str :=
  (s.reverse.dropWhile (fun b => decide (b ∈ cutset))).reverse

/-- Go `strings.Index(s, ")")` for a one-byte needle: the first position of the
byte, or `none` where Go returns -1. -/
def indexByte : Str → Nat → Option Nat
  | [], _ => none
  | b :: rest, c => if b = c then some 0 else (indexByte rest c).map (· + 1)

/-- The slice expression `s[a:b]`; `none` is the run-time panic for bounds out
of range. -/
def slice (s : Str) (a b : Nat) : Option Str :=
  if a ≤ b ∧ b ≤ s.length then some ((s.take b).drop a) else none

/-- The slice expression `s[a:]`; `none` is the run-time panic. -/
def sliceFrom (s : Str) (a : Nat) : Option Str :=
  if a ≤ s.length then some (s.drop a) else none

/-- The slice expression `s[:b]`; `none` is the run-time panic. -/
def sliceTo (s : Str) (b : Nat) : Option Str :=
  if b ≤ s.length then some (s.take b) else none

/-- The index expression `s[i]`; `none` is the run-time panic. -/
def index (s : Str) (i : Nat) : Option Nat := s.get? i

/-- Go `unicode.IsSpace`. -/
def isSpace (r : Nat) : Bool :=
  r = 0x09 ∨ r = 0x0A ∨ r = 0x0B ∨ r = 0x0C ∨ r = 0x0D ∨ r = 0x20 ∨ r = 0x85 ∨ r = 0xA0 ∨
  r = 0x1680 ∨ (0x2000 ≤ r ∧ r ≤ 0x200A) ∨ r = 0x2028 ∨ r = 0x2029 ∨ r = 0x202F ∨
  r = 0x205F ∨ r = 0x3000

/-- Go `utf8.RuneStart`: the byte is not a continuation byte. -/
def runeStart (b : Nat) : Bool := b / 64 % 4 ≠ 2

/-- Go `utf8.DecodeLastRuneInString`: the last rune of `s` and its width.  The
backward search for a rune start visits at most the three bytes before the last
one (`UTFMax = 4`), so the loop is unrolled. -/
def decodeLastRune (s : Str) : Nat × Nat :=
  let e := s.length
  if e = 0 then (RuneError, 0)
  else
    let last := s.getD (e - 1) 0
    if last < 0x80 then (last, 1)
    else
      let lim := e - 4
      let start :=
        if 2 ≤ e ∧ lim ≤ e - 2 ∧ runeStart (s.getD (e - 2) 0) then e - 2
        else if 3 ≤ e ∧ lim ≤ e - 3 ∧ runeStart (s.getD (e - 3) 0) then e - 3
        else if 4 ≤ e ∧ lim ≤ e - 4 ∧ runeStart (s.getD (e - 4) 0) then e - 4
        else lim - 1
      let p := decodeRune (s.drop start)
      if start + p.2 ≠ e then (RuneError, 1) else p

/-- Leading white space removal of `strings.TrimSpace` (`TrimLeftFunc` with
`unicode.IsSpace`), with `skip` bytes of a white-space rune still to drop. -/
def trimLeftSpaceAux : Nat → Str → Str
  | _, [] => []
  | k + 1, _ :: rest => trimLeftSpaceAux k rest
  | 0, b :: rest =>
    let p := decodeRune (b :: rest)
    if isSpace p.1 then trimLeftSpaceAux (p.2 - 1) rest else b :: rest

/-- Trailing white space removal of `strings.TrimSpace` (`TrimRightFunc` with
`unicode.IsSpace`) on the reversed string. -/
def trimRightSpaceAux : Nat → Str → Str
  | _, [] => []
  | k + 1, _ :: rest => trimRightSpaceAux k rest
  | 0, b :: rest =>
    let p := decodeLastRune (b :: rest).reverse
    if isSpace p.1 then trimRightSpaceAux (p.2 - 1) rest else b :: rest

/-- Go `strings.TrimSpace`: leading and trailing Unicode white space removed. -/
def trimSpace (s : Str) : Str :=
  (trimRightSpaceAux 0 (trimLeftSpaceAux 0 s).reverse).reverse

/-- Go `%d` of a non-negative integer. -/
def decimalNat (n : Nat) : Str := (Nat.toDigits 10 n).map Char.toNat

/-- Go `%d` of an `int`. -/
def decimal (n : Int) : Str :=
  if n < 0 then 0x2D :: decimalNat n.natAbs else decimalNat n.natAbs

/-- Go `hex.EncodeToString`: two lowercase hexadecimal digits per byte. -/
def hexEncode (bs : Str) : Str := bs.flatMap (fun b => [hexDigit (b / 16 % 16), hexDigit (b % 16)])

/-! ## The driver -/

/-- The `Driver` of `lib/checksum/driver.go`.  `Size` is `d.New().Size()`, the
digest width in bytes, and `Hash data` is `h.Sum(nil)` after the data has been
copied into a reset `d.New()`; the flag fields are the values the flag pointers
refer to. -/
structure Driver where
  Name : Str
  Size : Nat
  Hash : Str → Str
  Binary : Bool
  Text : Bool
  Check : Bool
  Tag : Bool
  Zero : Bool
  IgnoreMissing : Bool
  Quiet : Bool
  Status : Bool
  Strict : Bool
  Warn : Bool

/-- What `escapeName` writes for one rune of the name. -/
def escapeRune (r : Nat) : Str :=
  if r = 0x0A then lit "\\n"
  else if r = 0x0D then lit "\\r"
  else if r = 0x5C then lit "\\\\"
  else if r < 32 ∨ r = 127 then lit "\\x" ++ [hexDigit (r / 16 % 16), hexDigit (r % 16)]
  else encodeRune r

/-- The function `escapeName`: the escapes of the runes of the name, in order. -/
def escapeName (name : Str) : Str := (runes name).flatMap escapeRune

/-- The function `computeSum` on a stream that is read without error: the
lowercase hexadecimal digest.  On a stream whose read fails `computeSum` returns
the empty string with the error. -/
def computeSum (d : Driver) (data : Str) : Str := hexEncode (d.Hash data)

/-- The method `Driver.printSum`: the bytes it writes to standard output. -/
def Driver.printSum (d : Driver) (sum name : Str) : Str :=
  let out := if !d.Zero && !d.Tag then escapeName name else name
  let pre := if !d.Zero && !d.Tag && out != name then lit "\\" else []
  if d.Tag then
    pre ++ (d.Name ++ lit " (" ++ out ++ lit ") = " ++ sum) ++
      (if d.Zero then [0] else [0x0A])
  else
    pre ++ (if d.Binary then sum ++ lit " *" ++ out else sum ++ lit "  " ++ out) ++
      (if d.Zero then [0] else [0x0A])

/-- The error every malformed line gives:
`"%s: %d: improperly formatted %s checksum line"`. -/
def malformedMsg (d : Driver) (fname : Str) (lineno : Int) : Str :=
  fname ++ lit ": " ++ decimal lineno ++ lit ": improperly formatted " ++ d.Name ++
    lit " checksum line"

/-- The characters `verifyLine` accepts in a GNU digest. -/
def hexChars : Str := lit "0123456789abcdefABCDEF"

/-- The method `Driver.verifyLine`.  The outer `Option` is `none` for a run-time
panic (index or slice out of range); `Except.error msg` is the returned `error`
and `Except.ok (hashStr, name)` the returned pair. -/
def Driver.verifyLine (d : Driver) (line fname : Str) (lineno : Int) :
    Option (Except Str (Str × Str)) := do
  let line := trimRight line (lit "\r\n\x00")
  if hasPrefix line d.Name then
    let rest := trimSpace (← sliceFrom line d.Name.length)
    match indexByte rest 0x29 with
    | some idx =>
      let namePart ←
        if hasPrefix rest (lit "(") then slice rest 1 idx
        else if hasPrefix rest (lit " (") then slice rest 2 idx
        else some []
      let post := trimSpace (← sliceFrom rest (idx + 1))
      if hasPrefix post (lit "=") then
        let hashStr := trimSpace (← sliceFrom post 1)
        if namePart ≠ [] ∧ hashStr.length ≥ d.Size * 2 then
          return .ok (hashStr, namePart)
        else return .error (malformedMsg d fname lineno)
      else return .error (malformedMsg d fname lineno)
    | none => return .error (malformedMsg d fname lineno)
  else
    let min := d.Size * 2 + 3
    if line.length < min then return .error (malformedMsg d fname lineno)
    else
      let hashStr ← sliceTo line (d.Size * 2)
      let pos := d.Size * 2
      if (← index line pos) ≠ 0x20 then return .error (malformedMsg d fname lineno)
      else
        let pos := pos + 1
        let mode ← index line pos
        if mode ≠ 0x20 ∧ mode ≠ 0x2A then return .error (malformedMsg d fname lineno)
        else
          let pos := pos + 1
          let pos := if pos < line.length ∧ line.getD pos 0 = 0x20 then pos + 1 else pos
          let name ← sliceFrom line pos
          if name = [] then return .error (malformedMsg d fname lineno)
          else if (runes hashStr).all (fun r => decide (r ∈ hexChars)) then
            return .ok (hashStr, name)
          else return .error (malformedMsg d fname lineno)

/-! ## The environment of `checkFiles` -/

/-- The result of `os.Open`, with how the opened file reads.  `opened data` is a
file whose content `data` is read to its end, where `Read` reports `io.EOF`.
`unreadable data` is a file that opens but whose reads give the bytes `data` and
then fail with an error other than `io.EOF`, at that read and at every later
one: a directory (with no bytes), a failing device.  `failed` is the error of
`os.Open`, with `os.IsNotExist(err)` and the text `%v` prints for it.  The file
system does not change during a run. -/
inductive OpenResult where
  | opened (data : Str)
  | unreadable (data : Str)
  | failed (notExist : Bool) (msg : Str)

/-- The platform `checkFiles` runs on: `os.Open` and `strings.ToLower` (the
Unicode case mapping of the Go standard library). -/
structure World where
  openFile : Str → OpenResult
  toLower : Str → Str

/-- The results of the successive `reader.ReadString('\n')` calls on the bytes
of a stream, up to and including the first that finds the stream at its end (the
flag); `acc` holds the bytes of the current line read so far, in reverse. -/
def readStringsAux (acc : Str) : Str → List (Str × Bool)
  | [] => [(acc.reverse, true)]
  | b :: rest =>
    if b = 0x0A then (acc.reverse ++ [0x0A], false) :: readStringsAux [] rest
    else readStringsAux (b :: acc) rest

/-- The results of the successive `ReadString` calls on the bytes of a
stream. -/
def readStrings (content : Str) : List (Str × Bool) := readStringsAux [] content

/-- The results of the first `n` calls of `reader.ReadString('\n')` on an
opened file, each with the flag `errr == io.EOF`.  The lines of the content come
first.  On a readable file the call that reaches the end reports `io.EOF`, and
so does every later call, with the empty string.  On an unreadable file the
call that reaches the end of the bytes reports the read error, which is not
`io.EOF`, and so does every later call, with the empty string. -/
def readCalls (data : Str) (readable : Bool) (n : Nat) : List (Str × Bool) :=
  ((readStrings data).map (fun (r : Str × Bool) => (r.1, r.2 && readable)) ++
    List.replicate n ([], readable)).take n

/-- The variables of `checkFiles` that live across manifest files, and the bytes
written so far to standard output and standard error. -/
structure RunState where
  code : Nat
  total : Nat
  malformed : Nat
  mismatches : Nat
  stdout : Str
  stderr : Str

/-- The state inside the line loop: the run state and the per-file variables
`lineno`, `valid`, `verified`. -/
structure FileState where
  run : RunState
  lineno : Nat
  valid : Nat
  verified : Nat

/-- What a loop that need not end gives within a bound on its iterations: the
result it ends with, a run-time panic, or `unfinished` when the bound is reached
before the loop ends. -/
inductive Run (α : Type) where
  | done (a : α)
  | panic
  | unfinished

/-- The result of a run under a function. -/
def Run.map {α β : Type} (g : α → β) : Run α → Run β
  | .done a => .done (g a)
  | .panic => .panic
  | .unfinished => .unfinished

/-- The digest `computeSum` hands to `checkFiles` for the target, whose error
`checkFiles` discards: the digest of a file read to its end, the empty string of
the error return for a file whose read fails; `none` when `os.Open` fails. -/
def Driver.targetSum (d : Driver) : OpenResult → Option Str
  | .opened data => some (computeSum d data)
  | .unreadable _ => some []
  | .failed _ _ => none

/-- The end of an iteration of the line loop for a target that opened:
`verified++`, the comparison of the digest `got` with the expected one and the
test of `errr == io.EOF`. -/
def Driver.compareSum (d : Driver) (path expect got : Str) (eof : Bool) (st : FileState) :
    FileState × Bool :=
  let st := { st with verified := st.verified + 1 }
  let run :=
    if got ≠ expect then
      let run := { st.run with mismatches := st.run.mismatches + 1 }
      let run := if !d.Status then
        { run with stdout := run.stdout ++ (path ++ lit ": FAILED\n") } else run
      { run with code := 1 }
    else if !d.Quiet && !d.Status then
      { st.run with stdout := st.run.stdout ++ (path ++ lit ": OK\n") }
    else st.run
  ({ st with run := run }, eof)

/-- One iteration of the line loop of `checkFiles` on the `ReadString` result
`(line, errr == io.EOF)`.  The flag of the result is `true` when the iteration
leaves the loop with `break`; `none` is a run-time panic inside `verifyLine`.
For a target whose read fails `computeSum` returns the empty string. -/
def Driver.lineStep (d : Driver) (w : World) (prog fname line : Str) (eof : Bool)
    (st : FileState) : Option (FileState × Bool) :=
  if line = [] ∧ eof then some (st, true)
  else if trimRight line (lit "\r\n\x00") = [] then
    if eof then some (st, true) else some (st, false)
  else
    let st := { st with lineno := st.lineno + 1 }
    match d.verifyLine line fname st.lineno with
    | none => none
    | some (.error verr) =>
      let run := { st.run with malformed := st.run.malformed + 1 }
      let run := if d.Strict then { run with code := 1 } else run
      let run := if d.Warn then
        { run with stderr := run.stderr ++ (prog ++ lit ": " ++ verr ++ lit "\n") } else run
      some ({ st with run := run }, false)
    | some (.ok (expect, path)) =>
      let st := { st with valid := st.valid + 1 }
      match w.openFile path with
      | .failed notExist _ =>
        if notExist ∧ d.IgnoreMissing then some (st, false)
        else some ({ st with run := { st.run with code := 1 } }, false)
      | .opened data => some (d.compareSum path expect (computeSum d data) eof st)
      | .unreadable _ => some (d.compareSum path expect [] eof st)

/-- The states of the counters inside one iteration of the line loop, right
after each assignment to a counter: after `lineno++`, then after `malformed++`
for a malformed line, or after `valid++`, `verified++` and `mismatches++` as far
as the iteration gets.  An iteration on a blank line assigns nothing. -/
def Driver.linePoints (d : Driver) (w : World) (fname line : Str) (eof : Bool)
    (st : FileState) : List FileState :=
  if line = [] ∧ eof then []
  else if trimRight line (lit "\r\n\x00") = [] then []
  else
    let st1 := { st with lineno := st.lineno + 1 }
    match d.verifyLine line fname st1.lineno with
    | none => [st1]
    | some (.error _) =>
      [st1, { st1 with run := { st1.run with malformed := st1.run.malformed + 1 } }]
    | some (.ok (expect, path)) =>
      let st2 := { st1 with valid := st1.valid + 1 }
      match d.targetSum (w.openFile path) with
      | none => [st1, st2]
      | some got =>
        let st3 := { st2 with verified := st2.verified + 1 }
        if got ≠ expect then
          [st1, st2, st3, { st3 with run := { st3.run with mismatches := st3.run.mismatches + 1 } }]
        else [st1, st2, st3]

/-- The iterations of the line loop of `checkFiles` on the results of
successive `ReadString` calls, one iteration per result, until an iteration
leaves the loop with `break`.  The flag of the result tells whether the loop was
left: it is `false` when the results are used up with the loop still running. -/
def Driver.lineIter (d : Driver) (w : World) (prog fname : Str) :
    List (Str × Bool) → FileState → Option (FileState × Bool)
  | [], st => some (st, false)
  | (line, eof) :: more, st =>
    match d.lineStep w prog fname line eof st with
    | none => none
    | some (st1, true) => some (st1, true)
    | some (st1, false) => d.lineIter w prog fname more st1

/-- The line loop of `checkFiles` on an opened manifest, within `fuel`
iterations. -/
def Driver.lineLoop (d : Driver) (w : World) (prog fname data : Str) (readable : Bool)
    (fuel : Nat) (st : FileState) : Run FileState :=
  match d.lineIter w prog fname (readCalls data readable fuel) st with
  | none => .panic
  | some (st1, true) => .done st1
  | some (_, false) => .unfinished

/-- The statements of the body of the loop over the manifest files that follow
the line loop. -/
def Driver.fileEnd (d : Driver) (prog fname : Str) (fs : FileState) : RunState :=
  let run := fs.run
  let run := if d.Check ∧ d.IgnoreMissing ∧ fs.verified = 0 then
    { run with
      stderr := run.stderr ++ (prog ++ lit ": " ++ fname ++ lit ": no file was verified\n"),
      code := 1 } else run
  let run := { run with total := run.total + fs.valid }
  if fs.valid = 0 then
    let run := { run with stderr := run.stderr ++
      (prog ++ lit ": " ++ fname ++ lit ": no properly formatted checksum lines found\n") }
    if d.Check then { run with code := 1 } else run
  else run

/-- The body of the loop over the manifest files of `checkFiles`, its line loop
within `fuel` iterations. -/
def Driver.fileStep (d : Driver) (w : World) (prog : Str) (fuel : Nat) (st : RunState)
    (fname : Str) : Run RunState :=
  match w.openFile fname with
  | .failed notExist msg =>
    if notExist ∧ d.IgnoreMissing then .done st
    else
      let st := { st with code := 1 }
      if d.Warn then
        .done { st with stderr := st.stderr ++
          (prog ++ lit ": " ++ fname ++ lit ": " ++ msg ++ lit "\n") }
      else .done st
  | .opened content =>
    (d.lineLoop w prog fname content true fuel ⟨st, 0, 0, 0⟩).map (d.fileEnd prog fname)
  | .unreadable content =>
    (d.lineLoop w prog fname content false fuel ⟨st, 0, 0, 0⟩).map (d.fileEnd prog fname)

/-- The loop over the manifest files of `checkFiles`, each line loop within
`fuel` iterations. -/
def Driver.fileLoop (d : Driver) (w : World) (prog : Str) (fuel : Nat) :
    List Str → RunState → Run RunState
  | [], st => .done st
  | fname :: more, st =>
    match d.fileStep w prog fuel st fname with
    | .done st1 => d.fileLoop w prog fuel more st1
    | .panic => .panic
    | .unfinished => .unfinished

/-- The summary warnings `checkFiles` writes after the last manifest file. -/
def Driver.summary (d : Driver) (w : World) (st : RunState) : RunState :=
  let prog := w.toLower d.Name ++ lit "sum"
  if !d.Status then
    let st :=
      if st.malformed > 0 ∧ (d.Warn ∨ d.Strict ∨ st.total > 0) then
        if st.malformed = 1 then
          { st with stderr := st.stderr ++
            (prog ++ lit ": WARNING: 1 line is improperly formatted\n") }
        else
          { st with stderr := st.stderr ++
            (prog ++ lit ": WARNING: " ++ decimalNat st.malformed ++
              lit " lines are improperly formatted\n") }
      else st
    if st.mismatches > 0 then
      if st.mismatches = 1 then
        { st with stderr := st.stderr ++
          (prog ++ lit ": WARNING: 1 computed checksum did NOT match\n") }
      else
        { st with stderr := st.stderr ++
          (prog ++ lit ": WARNING: " ++ decimalNat st.mismatches ++
            lit " computed checksums did NOT match\n") }
    else st
  else st

/-- The method `Driver.checkFiles`, each line loop within `fuel` iterations,
with everything it leaves behind when it returns: the final variables and the
bytes written to the two output streams. -/
def Driver.checkFilesRun (d : Driver) (w : World) (fuel : Nat) (files : List Str) :
    Run RunState :=
  (d.fileLoop w (w.toLower d.Name ++ lit "sum") fuel files ⟨0, 0, 0, 0, [], []⟩).map (d.summary w)

/-- The method `Driver.checkFiles`, each line loop within `fuel` iterations:
the exit code it returns. -/
def Driver.checkFiles (d : Driver) (w : World) (fuel : Nat) (files : List Str) : Run Nat :=
  (d.checkFilesRun w fuel files).map (·.code)

/-! ## Reference definitions the theorems compare the code with -/

/-- The escape of one byte as the specification words it: `\n`, `\r` and `\\`
for newline, carriage return and backslash, `\xHH` for any other byte below 32
or equal to 127, and the byte itself otherwise. -/
def escapeByte (b : Nat) : Str :=
  if b = 0x0A then lit "\\n"
  else if b = 0x0D then lit "\\r"
  else if b = 0x5C then lit "\\\\"
  else if b < 32 ∨ b = 127 then lit "\\x" ++ [hexDigit (b / 16 % 16), hexDigit (b % 16)]
  else [b]

/-- The escaping of a name as the specification words it: byte by byte. -/
def escapeSpec (name : Str) : Str := name.flatMap escapeByte

/-- The byte is one of `0-9a-fA-F`. -/
def isHexByte (b : Nat) : Bool :=
  (0x30 ≤ b ∧ b ≤ 0x39) ∨ (0x61 ≤ b ∧ b ≤ 0x66) ∨ (0x41 ≤ b ∧ b ≤ 0x46)

/-- Where the name starts in a GNU line: after the digest, the space and the
mode marker, and after one further space when there is one. -/
def namePos (d : Driver) (L : Str) : Nat :=
  if L.getD (d.Size * 2 + 2) 0 = 0x20 then d.Size * 2 + 3 else d.Size * 2 + 2

/-- The condition under which the GNU branch of `verifyLine` accepts the
trimmed line `L`. -/
def gnuAccepts (d : Driver) (L : Str) : Prop :=
  d.Size * 2 + 3 ≤ L.length ∧ (∀ b ∈ L.take (d.Size * 2), isHexByte b = true) ∧
    L.getD (d.Size * 2) 0 = 0x20 ∧
    (L.getD (d.Size * 2 + 1) 0 = 0x20 ∨ L.getD (d.Size * 2 + 1) 0 = 0x2A) ∧
    L.drop (namePos d L) ≠ []

instance (d : Driver) (L : Str) : Decidable (gnuAccepts d L) := by
  unfold gnuAccepts
  infer_instance

/-- The Tag branch of `verifyLine` on the trimmed line `L`, with the slice
expressions replaced by the total `take` and `drop` (the theorems show the
bounds hold, so the branch never panics). -/
def tagDecode (d : Driver) (L fname : Str) (lineno : Int) : Except Str (Str × Str) :=
  let rest := trimSpace (L.drop d.Name.length)
  match indexByte rest 0x29 with
  | none => .error (malformedMsg d fname lineno)
  | some idx =>
    let namePart :=
      if hasPrefix rest (lit "(") then (rest.take idx).drop 1
      else if hasPrefix rest (lit " (") then (rest.take idx).drop 2
      else []
    let post := trimSpace (rest.drop (idx + 1))
    if hasPrefix post (lit "=") then
      let hashStr := trimSpace (post.drop 1)
      if namePart ≠ [] ∧ hashStr.length ≥ d.Size * 2 then .ok (hashStr, namePart)
      else .error (malformedMsg d fname lineno)
    else .error (malformedMsg d fname lineno)

/-- A driver configured as `cmd/md5sum` configures it (name `MD5`, 16-byte
digests, all flags at their defaults), used for concrete runs.  The hash is a
stand-in that gives every input the MD5 digest of the empty input. -/
def exampleDriver : Driver where
  Name := lit "MD5"
  Size := 16
  Hash := fun _ => [0xd4, 0x1d, 0x8c, 0xd9, 0x8f, 0x00, 0xb2, 0x04, 0xe9, 0x80, 0x09, 0x98,
    0xec, 0xf8, 0x42, 0x7e]
  Binary := false
  Text := true
  Check := false
  Tag := false
  Zero := false
  IgnoreMissing := false
  Quiet := false
  Status := false
  Strict := false
  Warn := false

/-- A small file system for concrete runs: the manifest `sums` with one GNU line
for `empty.txt`, the empty file `empty.txt`, and nothing else; `strings.ToLower`
restricted to ASCII letters. -/
def exampleWorld : World where
  openFile := fun p =>
    if p = lit "sums" then .opened (lit "d41d8cd98f00b204e9800998ecf8427e  empty.txt\n")
    else if p = lit "empty.txt" then .opened []
    else .failed true (lit "open " ++ p ++ lit ": no such file or directory")
  toLower := fun s => s.map (fun b => if 0x41 ≤ b ∧ b ≤ 0x5A then b + 32 else b)

/-! ## The events the exit code of `checkFiles` reports -/

/-- The line is blank: empty once trailing CR, LF and NUL are stripped. -/
def isBlank (l : Str) : Bool := decide (trimRight l (lit "\r\n\x00") = [])

/-- Lines paired with their line numbers, the first one numbered `k + 1`. -/
def numberFrom (k : Nat) : List Str → List (Nat × Str)
  | [] => []
  | l :: ls => (k + 1, l) :: numberFrom (k + 1) ls

/-- The non-blank lines of a manifest file, each with its 1-based number among
the non-blank lines (the `lineno` of `checkFiles`). -/
def manifestLines (content : Str) : List (Nat × Str) :=
  numberFrom 0 (((readStrings content).map Prod.fst).filter (fun l => !isBlank l))

/-- A manifest failed to open and was not (missing with `ignoreMissing` set). -/
def ManifestOpenFailure (d : Driver) (w : World) (files : List Str) : Prop :=
  ∃ f ∈ files, ∃ notExist msg, w.openFile f = .failed notExist msg ∧
    ¬ (notExist = true ∧ d.IgnoreMissing = true)

/-- Some line of an opened manifest is malformed. -/
def MalformedLine (d : Driver) (w : World) (files : List Str) : Prop :=
  ∃ f ∈ files, ∃ c, w.openFile f = .opened c ∧ ∃ n l, (n, l) ∈ manifestLines c ∧
    ∃ msg, d.verifyLine l f n = some (.error msg)

/-- The target of a validly parsed line failed to open and was not (missing
with `ignoreMissing` set). -/
def TargetOpenFailure (d : Driver) (w : World) (files : List Str) : Prop :=
  ∃ f ∈ files, ∃ c, w.openFile f = .opened c ∧ ∃ n l, (n, l) ∈ manifestLines c ∧
    ∃ expect path notExist msg, d.verifyLine l f n = some (.ok (expect, path)) ∧
      w.openFile path = .failed notExist msg ∧ ¬ (notExist = true ∧ d.IgnoreMissing = true)

/-- The computed digest of a verified target differs from the expected one. -/
def DigestMismatch (d : Driver) (w : World) (files : List Str) : Prop :=
  ∃ f ∈ files, ∃ c, w.openFile f = .opened c ∧ ∃ n l, (n, l) ∈ manifestLines c ∧
    ∃ expect path got, d.verifyLine l f n = some (.ok (expect, path)) ∧
      d.targetSum (w.openFile path) = some got ∧ got ≠ expect

/-- An opened manifest has no valid line. -/
def NoValidLine (d : Driver) (w : World) (files : List Str) : Prop :=
  ∃ f ∈ files, ∃ c, w.openFile f = .opened c ∧ ∀ n l, (n, l) ∈ manifestLines c →
    ∀ expect path, d.verifyLine l f n ≠ some (.ok (expect, path))

/-- An opened manifest has no verified target: no valid line of it names a
file that opens. -/
def NoVerifiedTarget (d : Driver) (w : World) (files : List Str) : Prop :=
  ∃ f ∈ files, ∃ c, w.openFile f = .opened c ∧ ∀ n l, (n, l) ∈ manifestLines c →
    ∀ expect path, d.verifyLine l f n = some (.ok (expect, path)) →
      d.targetSum (w.openFile path) = none

/-- No manifest of the list is a file that opens and whose read fails. -/
def World.readable (w : World) (files : List Str) : Bool :=
  files.all (fun f =>
    match w.openFile f with
    | .unreadable _ => false
    | _ => true)

/-- A number of iterations that suffices for the line loop of every readable
manifest of the list: for each one, one more than the number of `ReadString`
results up to the end of the file. -/
def World.readBound (w : World) (files : List Str) : Nat :=
  (files.map (fun f =>
    match w.openFile f with
    | .opened c => (readStrings c).length + 1
    | _ => 0)).sum

/-! ## Line outcomes and what a run leaves behind -/

/-- What `checkFiles` makes of one non-blank manifest line (the verification
outcome of the specification): the line is malformed, its target is missing and
skipped under `ignoreMissing`, its target fails to open, or its target is
verified and the digests differ or agree. -/
inductive LineOutcome where
  | malformed (msg : Str)
  | skipped
  | openFailed
  | mismatched (path : Str)
  | matched (path : Str)

/-- The outcome of a line from the result of `verifyLine`, as the line loop of
`checkFiles` decides it. -/
def Driver.classify (d : Driver) (w : World) (r : Except Str (Str × Str)) : LineOutcome :=
  match r with
  | .error msg => .malformed msg
  | .ok (expect, path) =>
    match w.openFile path with
    | .failed notExist _ => if notExist ∧ d.IgnoreMissing then .skipped else .openFailed
    | .opened data => if computeSum d data ≠ expect then .mismatched path else .matched path
    | .unreadable _ => if ([] : Str) ≠ expect then .mismatched path else .matched path

/-- What the line loop of `checkFiles` does to its state for a line with the
given outcome. -/
def Driver.applyOutcome (d : Driver) (prog : Str) (st : FileState) (o : LineOutcome) :
    FileState :=
  match o with
  | .malformed msg =>
    { st with
      lineno := st.lineno + 1,
      run := { st.run with
        malformed := st.run.malformed + 1,
        code := if d.Strict then 1 else st.run.code,
        stderr := if d.Warn then st.run.stderr ++ (prog ++ lit ": " ++ msg ++ lit "\n")
          else st.run.stderr } }
  | .skipped => { st with lineno := st.lineno + 1, valid := st.valid + 1 }
  | .openFailed =>
    { st with lineno := st.lineno + 1, valid := st.valid + 1, run := { st.run with code := 1 } }
  | .mismatched path =>
    { st with
      lineno := st.lineno + 1, valid := st.valid + 1, verified := st.verified + 1,
      run := { st.run with
        mismatches := st.run.mismatches + 1,
        stdout := if d.Status then st.run.stdout else st.run.stdout ++ (path ++ lit ": FAILED\n"),
        code := 1 } }
  | .matched path =>
    { st with
      lineno := st.lineno + 1, valid := st.valid + 1, verified := st.verified + 1,
      run := { st.run with
        stdout := if d.Quiet ∨ d.Status then st.run.stdout
          else st.run.stdout ++ (path ++ lit ": OK\n") } }

/-- The outcome of the numbered line `nl` of the manifest `f`. -/
def Driver.outcomeOf (d : Driver) (w : World) (f : Str) (nl : Nat × Str) : LineOutcome :=
  match d.verifyLine nl.2 f nl.1 with
  | some r => d.classify w r
  | none => .malformed []

/-- The outcomes of the non-blank lines of a manifest file, in order. -/
def Driver.fileOutcomes (d : Driver) (w : World) (f c : Str) : List LineOutcome :=
  (manifestLines c).map (d.outcomeOf w f)

/-- The outcome is a malformed line. -/
def LineOutcome.isMalformed : LineOutcome → Bool
  | .malformed _ => true
  | _ => false

/-- The outcome counts as a valid line. -/
def LineOutcome.isValid : LineOutcome → Bool
  | .malformed _ => false
  | _ => true

/-- The outcome counts as a verified target. -/
def LineOutcome.isVerified : LineOutcome → Bool
  | .mismatched _ => true
  | .matched _ => true
  | _ => false

/-- The outcome is a digest mismatch. -/
def LineOutcome.isMismatch : LineOutcome → Bool
  | .mismatched _ => true
  | _ => false

/-- The outcome raises the failure flag. -/
def Driver.outcomeFails (d : Driver) : LineOutcome → Bool
  | .malformed _ => d.Strict
  | .openFailed => true
  | .mismatched _ => true
  | _ => false

/-- What a line with the given outcome writes to standard output. -/
def Driver.outText (d : Driver) : LineOutcome → Str
  | .mismatched path => if d.Status then [] else path ++ lit ": FAILED\n"
  | .matched path => if d.Quiet ∨ d.Status then [] else path ++ lit ": OK\n"
  | _ => []

/-- What a line with the given outcome writes to standard error. -/
def Driver.errText (d : Driver) (prog : Str) : LineOutcome → Str
  | .malformed msg => if d.Warn then prog ++ lit ": " ++ msg ++ lit "\n" else []
  | _ => []

/-- The state of the line loop after the lines `ls` (blank ones included) have
been read in the state `st`: the outcomes of the non-blank lines, numbered on
from `st.lineno`, applied in order. -/
def Driver.afterLines (d : Driver) (w : World) (prog f : Str) (ls : List Str) (st : FileState) :
    FileState :=
  ((numberFrom st.lineno (ls.filter (fun l => !isBlank l))).map (d.outcomeOf w f)).foldl
    (d.applyOutcome prog) st

/-- What processing the manifest `f` writes to standard output; for a manifest
whose read fails, what is written for the lines read before the failure. -/
def Driver.fileOut (d : Driver) (w : World) (f : Str) : Str :=
  match w.openFile f with
  | .opened c => (d.fileOutcomes w f c).flatMap d.outText
  | .unreadable c => (d.fileOutcomes w f c).flatMap d.outText
  | .failed _ _ => []

/-- What processing the manifest `f` writes to standard error: the open error
under `warn`, or the warnings of its malformed lines under `warn` followed by
the "no file was verified" and "no properly formatted checksum lines found"
diagnostics when they apply; for a manifest whose read fails, the warnings of
the lines read before the failure. -/
def Driver.fileErr (d : Driver) (w : World) (prog f : Str) : Str :=
  match w.openFile f with
  | .unreadable c => (d.fileOutcomes w f c).flatMap (d.errText prog)
  | .failed notExist msg =>
    if notExist ∧ d.IgnoreMissing then []
    else if d.Warn then prog ++ lit ": " ++ f ++ lit ": " ++ msg ++ lit "\n" else []
  | .opened c =>
    (d.fileOutcomes w f c).flatMap (d.errText prog) ++
    (if d.Check ∧ d.IgnoreMissing ∧ (d.fileOutcomes w f c).countP LineOutcome.isVerified = 0 then
      prog ++ lit ": " ++ f ++ lit ": no file was verified\n" else []) ++
    (if (d.fileOutcomes w f c).countP LineOutcome.isValid = 0 then
      prog ++ lit ": " ++ f ++ lit ": no properly formatted checksum lines found\n" else [])

/-- The number of lines of the manifest `f` whose outcome satisfies `p`; 0 for a
manifest that does not open. -/
def Driver.fileCount (d : Driver) (w : World) (p : LineOutcome → Bool) (f : Str) : Nat :=
  match w.openFile f with
  | .opened c => (d.fileOutcomes w f c).countP p
  | .unreadable c => (d.fileOutcomes w f c).countP p
  | .failed _ _ => 0

/-- The number of lines, over all manifest files of the run, whose outcome
satisfies `p`. -/
def Driver.runCount (d : Driver) (w : World) (p : LineOutcome → Bool) (files : List Str) : Nat :=
  (files.map (d.fileCount w p)).sum

/-- The summary warning about improperly formatted lines, as the specification
words it: written unless `status` is set, when there is a malformed line and
`warn` or `strict` is set or there is a valid line; singular wording for one
malformed line, plural wording with the count otherwise. -/
def Driver.malformedSummary (d : Driver) (prog : Str) (malformed total : Nat) : Str :=
  if d.Status = false ∧ malformed > 0 ∧ (d.Warn = true ∨ d.Strict = true ∨ total > 0) then
    if malformed = 1 then prog ++ lit ": WARNING: 1 line is improperly formatted\n"
    else prog ++ lit ": WARNING: " ++ decimalNat malformed ++
      lit " lines are improperly formatted\n"
  else []

/-- The summary warning about mismatches: written unless `status` is set when
there is a mismatch. -/
def Driver.mismatchSummary (d : Driver) (prog : Str) (mismatches : Nat) : Str :=
  if d.Status = false ∧ mismatches > 0 then
    if mismatches = 1 then prog ++ lit ": WARNING: 1 computed checksum did NOT match\n"
    else prog ++ lit ": WARNING: " ++ decimalNat mismatches ++
      lit " computed checksums did NOT match\n"
  else []

/-- Processing the manifest `f` raises the failure flag, decided from the
outcomes of its lines: it does not open and is not ignored as missing, or a
line fails, or it is opened in check mode and has no verified target under
`ignoreMissing` or no valid line; for a manifest whose read fails, a line read
before the failure fails. -/
def Driver.fileFailsB (d : Driver) (w : World) (f : Str) : Bool :=
  match w.openFile f with
  | .failed notExist _ => !(notExist && d.IgnoreMissing)
  | .unreadable c => (d.fileOutcomes w f c).any d.outcomeFails
  | .opened c =>
    (d.fileOutcomes w f c).any d.outcomeFails ||
    (d.Check && d.IgnoreMissing &&
      decide ((d.fileOutcomes w f c).countP LineOutcome.isVerified = 0)) ||
    (d.Check && decide ((d.fileOutcomes w f c).countP LineOutcome.isValid = 0))


/-! ## Reference definitions for the reporting claims -/

/-- The verdict line of a manifest line as the specification words it:
`<name>: OK` when the target opens and its computed digest equals the expected
one, `<name>: FAILED` when it opens and the digests differ, nothing for a line
that does not parse or whose target does not open.  The computed digest of a
target whose read fails is the empty string. -/
def Driver.verdictLine (d : Driver) (w : World) (f : Str) (nl : Nat × Str) : Str :=
  match d.verifyLine nl.2 f nl.1 with
  | some (.ok (expect, path)) =>
    match w.openFile path with
    | .opened data =>
      if computeSum d data = expect then path ++ lit ": OK\n" else path ++ lit ": FAILED\n"
    | .unreadable _ =>
      if ([] : Str) = expect then path ++ lit ": OK\n" else path ++ lit ": FAILED\n"
    | .failed _ _ => []
  | _ => []

/-- One verdict line per non-blank line of the manifest `f`, in manifest
order. -/
def Driver.report (d : Driver) (w : World) (f : Str) : Str :=
  match w.openFile f with
  | .opened c => (manifestLines c).flatMap (d.verdictLine w f)
  | .unreadable c => (manifestLines c).flatMap (d.verdictLine w f)
  | .failed _ _ => []

/-- The line is well formed and names a target that does not exist. -/
def Driver.missingTarget (d : Driver) (w : World) (l : Str) : Bool :=
  match d.verifyLine l [] 0 with
  | some (.ok (_, path)) =>
    match w.openFile path with
    | .failed notExist _ => notExist
    | _ => false
  | _ => false

/-- The loop invariant of the counters while the manifest file is processed,
`st0` being the run state when the file was opened: the non-blank lines read are
the valid lines plus the malformed lines of this file, the verified targets are
at most the valid lines, and the mismatches of this file are at most its
verified targets. -/
def CounterInv (st0 : RunState) (fs : FileState) : Prop :=
  st0.malformed ≤ fs.run.malformed ∧ st0.mismatches ≤ fs.run.mismatches ∧
  fs.lineno = fs.valid + (fs.run.malformed - st0.malformed) ∧
  fs.verified ≤ fs.valid ∧
  fs.run.mismatches - st0.mismatches ≤ fs.verified

/-- The number of non-blank lines among the results of the first `n` calls of
`ReadString` on an opened file. -/
def linesRead (data : Str) (readable : Bool) (n : Nat) : Nat :=
  (((readCalls data readable n).map Prod.fst).filter (fun l => !isBlank l)).length

/-- What holds of the counters at a point inside an iteration of the line loop,
`st0` being the run state when the file was opened and `n` the number of
non-blank lines read, the line of this iteration included: `lineno` is `n`, the
valid lines plus the malformed lines of this file are `n` or, as long as the
line of this iteration is not yet counted, `n - 1`; the verified targets are at
most the valid lines and the mismatches of this file at most its verified
targets. -/
def PointInv (st0 : RunState) (n : Nat) (p : FileState) : Prop :=
  st0.malformed ≤ p.run.malformed ∧ st0.mismatches ≤ p.run.mismatches ∧
  p.lineno = n ∧
  (n = p.valid + (p.run.malformed - st0.malformed) ∨
    n = p.valid + (p.run.malformed - st0.malformed) + 1) ∧
  p.verified ≤ p.valid ∧
  p.run.mismatches - st0.mismatches ≤ p.verified

/-- A second file system for concrete runs.  Manifests: `two` (a correct and an
incorrect digest for `empty.txt`), `miss` (a line for `empty.txt` and a line for
the missing `nosuch`), `kept` (`miss` without the line for `nosuch`), `gone`
(only the line for `nosuch`), `blank` (blank lines only), `upper` (the correct
digest in upper case), `bad` (one malformed line).  The file `empty.txt` is
empty, `dir` is a directory, which opens and whose read fails, and nothing else
exists. -/
def exampleWorld2 : World where
  openFile := fun p =>
    if p = lit "two" then .opened (lit
      "d41d8cd98f00b204e9800998ecf8427e  empty.txt\n00000000000000000000000000000000  empty.txt\n")
    else if p = lit "miss" then .opened (lit
      "d41d8cd98f00b204e9800998ecf8427e  empty.txt\nd41d8cd98f00b204e9800998ecf8427e  nosuch\n")
    else if p = lit "kept" then .opened (lit "d41d8cd98f00b204e9800998ecf8427e  empty.txt\n")
    else if p = lit "gone" then .opened (lit "d41d8cd98f00b204e9800998ecf8427e  nosuch\n")
    else if p = lit "blank" then .opened (lit "\n\r\n\x00\n\r")
    else if p = lit "upper" then .opened (lit "D41D8CD98F00B204E9800998ECF8427E  empty.txt\n")
    else if p = lit "bad" then .opened (lit "not a checksum line\n")
    else if p = lit "empty.txt" then .opened []
    else if p = lit "dir" then .unreadable []
    else .failed true (lit "open " ++ p ++ lit ": no such file or directory")
  toLower := fun s => s.map (fun b => if 0x41 ≤ b ∧ b ≤ 0x5A then b + 32 else b)

/-- The function `verifyLine` of the legacy `md5sum/main.go`.  The outer `Option`
is `none` for a run-time panic (index or slice out of range). -/
def legacyVerifyLine (line filename : Str) (lineno : Int) : Option (Except Str (Str × Str)) := do
  let line := trimRight line (lit "\r\n\x00")
  if hasPrefix line (lit "MD5") then
    let rest := trimSpace (← sliceFrom line 3)
    match indexByte rest 0x29 with
    | some idx =>
      let namePart ← slice rest 1 idx
      let after := trimSpace (← sliceFrom rest (idx + 1))
      if hasPrefix after (lit "=") then
        let sumPart := trimSpace (← sliceFrom after 1)
        if namePart ≠ [] ∧ sumPart.length ≥ 32 then
          return .ok (sumPart, namePart)
        else return .error (filename ++ lit ": " ++ decimal lineno ++
          lit ": improperly formatted MD5 checksum line")
      else return .error (filename ++ lit ": " ++ decimal lineno ++
        lit ": improperly formatted MD5 checksum line")
    | none => return .error (filename ++ lit ": " ++ decimal lineno ++
        lit ": improperly formatted MD5 checksum line")
  else
    if line.length < 34 then
      return .error (filename ++ lit ": " ++ decimal lineno ++
        lit ": improperly formatted MD5 checksum line")
    else
      let sum ← sliceTo line 32
      let pos := 32
      if (← index line pos) ≠ 0x20 then
        return .error (filename ++ lit ": " ++ decimal lineno ++
          lit ": improperly formatted MD5 checksum line")
      else
        let pos := pos + 1
        let mode ← index line pos
        if mode ≠ 0x20 ∧ mode ≠ 0x2A then
          return .error (filename ++ lit ": " ++ decimal lineno ++
            lit ": improperly formatted MD5 checksum line")
        else
          let pos := pos + 1
          let pos := if pos < line.length ∧ line.getD pos 0 = 0x20 then pos + 1 else pos
          let name ← sliceFrom line pos
          if name = [] then
            return .error (filename ++ lit ": " ++ decimal lineno ++
              lit ": improperly formatted MD5 checksum line")
          else if (runes sum).all (fun r =>
              decide ((0x30 ≤ r ∧ r ≤ 0x39) ∨ (0x61 ≤ r ∧ r ≤ 0x66) ∨ (0x41 ≤ r ∧ r ≤ 0x46))) then
            return .ok (sum, name)
          else return .error (filename ++ lit ": " ++ decimal lineno ++
            lit ": improperly formatted MD5 checksum line")

/-! ## UTF-8 decoding and encoding -/

theorem decodeRune_ascii (b : Nat) (t : Str) (h : b < 0x80) : decodeRune (b :: t) = (b, 1) := by
  simp [decodeRune, h]

theorem encodeRune_two (s0 s1 : Nat) (h0 : 0xC2 ≤ s0) (h0' : s0 < 0xE0) (h1 : 0x80 ≤ s1)
    (h1' : s1 ≤ 0xBF) : encodeRune ((s0 % 32) * 64 + s1 % 64) = [s0, s1] := by
  unfold encodeRune
  rw [if_neg (by omega), if_pos (by omega)]
  congr 1
  · omega
  · congr 1; omega

theorem encodeRune_three (s0 s1 s2 : Nat) (h0 : 0xE0 ≤ s0) (h0' : s0 < 0xF0)
    (h1 : (if s0 = 0xE0 then 0xA0 else 0x80) ≤ s1) (h1' : s1 ≤ (if s0 = 0xED then 0x9F else 0xBF))
    (h2 : 0x80 ≤ s2) (h2' : s2 ≤ 0xBF) :
    encodeRune ((s0 % 16) * 4096 + (s1 % 64) * 64 + s2 % 64) = [s0, s1, s2] := by
  unfold encodeRune
  split_ifs at h1 h1' <;>
  · rw [if_neg (by omega), if_neg (by omega), if_neg (by omega), if_pos (by omega)]
    congr 1
    · omega
    · congr 1
      · omega
      · congr 1; omega

theorem encodeRune_four (s0 s1 s2 s3 : Nat) (h0 : 0xF0 ≤ s0) (h0' : s0 ≤ 0xF4)
    (h1 : (if s0 = 0xF0 then 0x90 else 0x80) ≤ s1) (h1' : s1 ≤ (if s0 = 0xF4 then 0x8F else 0xBF))
    (h2 : 0x80 ≤ s2) (h2' : s2 ≤ 0xBF) (h3 : 0x80 ≤ s3) (h3' : s3 ≤ 0xBF) :
    encodeRune ((s0 % 8) * 262144 + (s1 % 64) * 4096 + (s2 % 64) * 64 + s3 % 64)
      = [s0, s1, s2, s3] := by
  unfold encodeRune
  split_ifs at h1 h1' <;>
  · rw [if_neg (by omega), if_neg (by omega), if_neg (by omega), if_neg (by omega)]
    congr 1
    · omega
    · congr 1
      · omega
      · congr 1
        · omega
        · congr 1; omega

/-- The three shapes of a decoding step: an ASCII byte, an invalid encoding, or a
multi-byte rune that `encodeRune` writes back as the bytes it was read from. -/
theorem decodeRune_step (b : Nat) (t : Str) (r k : Nat) (hp : decodeRune (b :: t) = (r, k)) :
    (b < 0x80 ∧ r = b ∧ k = 1) ∨ (0x80 ≤ b ∧ r = RuneError ∧ k = 1) ∨
    (0x80 ≤ b ∧ 0x80 ≤ r ∧ 2 ≤ k ∧ encodeRune r = (b :: t).take k ∧
      ∀ x ∈ (b :: t).take k, 0x80 ≤ x) := by
  by_cases h0 : b < 0x80
  · rw [decodeRune_ascii b t h0] at hp
    obtain ⟨rfl, rfl⟩ := Prod.mk.inj hp
    exact Or.inl ⟨h0, rfl, rfl⟩
  right
  have hb : 0x80 ≤ b := by omega
  by_cases hx : b < 0xC2 ∨ 0xF4 < b
  · simp only [decodeRune, h0, hx, if_true, if_false] at hp
    obtain ⟨rfl, rfl⟩ := Prod.mk.inj hp
    exact Or.inl ⟨hb, rfl, rfl⟩
  rcases t with _ | ⟨s1, t1⟩
  · simp only [decodeRune, h0, hx, if_false] at hp
    obtain ⟨rfl, rfl⟩ := Prod.mk.inj hp
    exact Or.inl ⟨hb, rfl, rfl⟩
  by_cases h2 : b < 0xE0
  · simp only [decodeRune, h0, hx, h2, if_true, if_false] at hp
    have e0 : ¬ b = 0xE0 := by omega
    have e1 : ¬ b = 0xF0 := by omega
    have e2 : ¬ b = 0xED := by omega
    have e3 : ¬ b = 0xF4 := by omega
    simp only [e0, e1, e2, e3, if_false] at hp
    split_ifs at hp with hs
    · obtain ⟨rfl, rfl⟩ := Prod.mk.inj hp
      exact Or.inl ⟨hb, rfl, rfl⟩
    · obtain ⟨rfl, rfl⟩ := Prod.mk.inj hp
      right
      refine ⟨hb, by omega, le_refl _, ?_, ?_⟩
      · rw [encodeRune_two b s1 (by omega) h2 (by omega) (by omega)]; rfl
      · intro x hx'
        simp only [List.take_succ_cons, List.take_zero, List.mem_cons, List.mem_nil_iff,
          or_false] at hx'
        rcases hx' with rfl | rfl <;> omega
  rcases t1 with _ | ⟨s2, t2⟩
  · simp only [decodeRune, h0, hx, h2, if_false] at hp
    obtain ⟨rfl, rfl⟩ := Prod.mk.inj hp
    exact Or.inl ⟨hb, rfl, rfl⟩
  by_cases h3 : b < 0xF0
  · simp only [decodeRune, h0, hx, h2, h3, if_true, if_false] at hp
    have e1 : ¬ b = 0xF0 := by omega
    have e3 : ¬ b = 0xF4 := by omega
    simp only [e1, e3, if_false] at hp
    split_ifs at hp with ha hb' hc hd he hf hg hh
    all_goals obtain ⟨rfl, rfl⟩ := Prod.mk.inj hp
    all_goals first
      | exact Or.inl ⟨hb, rfl, rfl⟩
      | (right
         refine ⟨hb, by omega, by omega, ?_, ?_⟩
         · rw [encodeRune_three b s1 s2 (by omega) h3 (by split_ifs; omega)
             (by split_ifs; omega) (by omega) (by omega)]; rfl
         · intro x hx'
           simp only [List.take_succ_cons, List.take_zero, List.mem_cons, List.mem_nil_iff,
             or_false] at hx'
           rcases hx' with rfl | rfl | rfl <;> omega)
  rcases t2 with _ | ⟨s3, t3⟩
  · simp only [decodeRune, h0, hx, h2, h3, if_false] at hp
    obtain ⟨rfl, rfl⟩ := Prod.mk.inj hp
    exact Or.inl ⟨hb, rfl, rfl⟩
  simp only [decodeRune, h0, hx, h2, h3, if_false] at hp
  have e0 : ¬ b = 0xE0 := by omega
  have e2 : ¬ b = 0xED := by omega
  simp only [e0, e2, if_false] at hp
  split_ifs at hp
  all_goals obtain ⟨rfl, rfl⟩ := Prod.mk.inj hp
  all_goals first
    | exact Or.inl ⟨hb, rfl, rfl⟩
    | (right
       refine ⟨hb, by omega, by omega, ?_, ?_⟩
       · rw [encodeRune_four b s1 s2 s3 (by omega) (by omega) (by split_ifs; omega)
           (by split_ifs; omega) (by omega) (by omega) (by omega) (by omega)]; rfl
       · intro x hx'
         simp only [List.take_succ_cons, List.take_zero, List.mem_cons, List.mem_nil_iff,
           or_false] at hx'
         rcases hx' with rfl | rfl | rfl | rfl <;> omega)

theorem hexChars_iff (r : Nat) : decide (r ∈ hexChars) = isHexByte r := by
  by_cases h : r < 0x80
  · interval_cases r <;> decide
  · have : isHexByte r = false := by simp [isHexByte]; omega
    rw [this]
    simp [hexChars, lit]
    omega

/-- The decoding step lemma stated on the decoder's own result. -/
theorem decodeRune_step' (b : Nat) (t : Str) :
    (b < 0x80 ∧ (decodeRune (b :: t)).1 = b ∧ (decodeRune (b :: t)).2 = 1) ∨
    (0x80 ≤ b ∧ (decodeRune (b :: t)).1 = RuneError ∧ (decodeRune (b :: t)).2 = 1) ∨
    (0x80 ≤ b ∧ 0x80 ≤ (decodeRune (b :: t)).1 ∧ 2 ≤ (decodeRune (b :: t)).2 ∧
      encodeRune (decodeRune (b :: t)).1 = (b :: t).take (decodeRune (b :: t)).2 ∧
      ∀ x ∈ (b :: t).take (decodeRune (b :: t)).2, 0x80 ≤ x) :=
  decodeRune_step b t (decodeRune (b :: t)).1 (decodeRune (b :: t)).2 rfl

theorem runesAux_skip (k : Nat) (s : Str) : runesAux k s = runesAux 0 (s.drop k) := by
  induction s generalizing k with
  | nil => cases k <;> simp [runesAux]
  | cons b rest ih =>
    cases k with
    | zero => simp
    | succ k => simp only [runesAux, List.drop_succ_cons]; exact ih k

theorem validAux_skip (k : Nat) (s : Str) : validAux k s = validAux 0 (s.drop k) := by
  induction s generalizing k with
  | nil => cases k <;> simp [validAux]
  | cons b rest ih =>
    cases k with
    | zero => simp
    | succ k => simp only [validAux, List.drop_succ_cons]; exact ih k

theorem runes_ascii_cons (b : Nat) (t : Str) (h : b < 0x80) : runes (b :: t) = b :: runes t := by
  simp [runes, runesAux, decodeRune_ascii b t h]

theorem isHexByte_lt (b : Nat) (h : isHexByte b = true) : b < 0x80 := by
  simp [isHexByte] at h; omega

/-- The digest test of `verifyLine`, a loop over runes, accepts exactly the
strings all of whose bytes are hexadecimal digits. -/
theorem runes_all_hex (s : Str) :
    (runes s).all (fun r => decide (r ∈ hexChars)) = s.all isHexByte := by
  induction s with
  | nil => rfl
  | cons b rest ih =>
    by_cases h : b < 0x80
    · rw [runes_ascii_cons b rest h, List.all_cons, List.all_cons, ih, hexChars_iff]
    · have hb : isHexByte b = false := by
        cases hh : isHexByte b
        · rfl
        · exact absurd (isHexByte_lt b hh) h
      have hr : isHexByte (decodeRune (b :: rest)).1 = false := by
        cases hh : isHexByte (decodeRune (b :: rest)).1
        · rfl
        · exfalso
          have hlt := isHexByte_lt _ hh
          rcases decodeRune_step' b rest with ⟨h1, _⟩ | ⟨_, h2, _⟩ | ⟨_, h3, _⟩
          · exact h h1
          · rw [h2] at hlt; simp [RuneError] at hlt
          · omega
      simp only [runes, runesAux, List.all_cons, hexChars_iff, hr, hb, Bool.false_and]

theorem escapeRune_ascii (r : Nat) (h : r < 0x80) : escapeRune r = escapeByte r := by
  simp [escapeRune, escapeByte, encodeRune, h]

theorem escapeRune_high (r : Nat) (h : 0x80 ≤ r) : escapeRune r = encodeRune r := by
  unfold escapeRune
  rw [if_neg (by omega), if_neg (by omega), if_neg (by omega), if_neg (by omega)]

theorem escapeByte_high (b : Nat) (h : 0x80 ≤ b) : escapeByte b = [b] := by
  unfold escapeByte
  rw [if_neg (by omega), if_neg (by omega), if_neg (by omega), if_neg (by omega)]

theorem flatMap_escapeByte_high (s : Str) (h : ∀ x ∈ s, 0x80 ≤ x) :
    s.flatMap escapeByte = s := by
  induction s with
  | nil => rfl
  | cons b rest ih =>
    rw [List.flatMap_cons, escapeByte_high b (h b (List.mem_cons_self _ _)),
      ih (fun x hx => h x (List.mem_cons_of_mem _ hx))]
    rfl

/-- On valid UTF-8 the rune loop of `escapeName` writes what the byte-wise
escaping writes. -/
theorem escape_validAux (s : Str) :
    ∀ k, validAux k s = true →
      (runesAux k s).flatMap escapeRune = (s.drop k).flatMap escapeByte := by
  induction s with
  | nil => intro k _; cases k <;> simp [runesAux]
  | cons b rest ih =>
    intro k hv
    cases k with
    | succ k =>
      simp only [runesAux, validAux, List.drop_succ_cons] at hv ⊢
      exact ih k hv
    | zero =>
      simp only [runesAux, validAux, List.drop_zero] at hv ⊢
      rcases decodeRune_step' b rest with ⟨h1, h2, h3⟩ | ⟨_, h2, h3⟩ | ⟨_, h2, h3, h4, h5⟩
      · rw [h2, h3] at hv ⊢
        simp only [Nat.sub_self] at hv ⊢
        have := ih 0 (by simp at hv; exact hv.2)
        rw [List.flatMap_cons, List.flatMap_cons, this, escapeRune_ascii b h1]
        simp
      · simp [h2, h3] at hv
      · have hv' : validAux ((decodeRune (b :: rest)).2 - 1) rest = true := by
          by_cases hc : (decodeRune (b :: rest)).1 = RuneError ∧ (decodeRune (b :: rest)).2 = 1
          · omega
          · simpa [hc] using hv
        have := ih _ hv'
        rw [List.flatMap_cons, this, escapeRune_high _ h2, h4]
        have hsplit : (b :: rest) = (b :: rest).take (decodeRune (b :: rest)).2 ++
            rest.drop ((decodeRune (b :: rest)).2 - 1) := by
          obtain ⟨m, hm⟩ : ∃ m, (decodeRune (b :: rest)).2 = m + 1 :=
            ⟨(decodeRune (b :: rest)).2 - 1, by omega⟩
          rw [hm]; simp
        conv_rhs => rw [hsplit, List.flatMap_append, flatMap_escapeByte_high _ h5]

theorem escapeName_valid (name : Str) (hv : validString name = true) :
    escapeName name = escapeSpec name := by
  have := escape_validAux name 0 hv
  simpa [escapeName, escapeSpec, runes] using this

theorem escapeByte_eq (b : Nat) : escapeByte b =
    if b = 0x0A then [0x5C, 0x6E]
    else if b = 0x0D then [0x5C, 0x72]
    else if b = 0x5C then [0x5C, 0x5C]
    else if b < 32 ∨ b = 127 then [0x5C, 0x78, hexDigit (b / 16 % 16), hexDigit (b % 16)]
    else [b] := rfl

theorem escapeByte_ne_nil (x : Nat) : escapeByte x ≠ [] := by
  rw [escapeByte_eq]; split_ifs <;> simp

/-- The byte escapes form a prefix code. -/
theorem escapeByte_prefix_free (x y : Nat) (s t : Str)
    (h : escapeByte x ++ s = escapeByte y ++ t) : x = y ∧ s = t := by
  rw [escapeByte_eq, escapeByte_eq] at h
  unfold hexDigit at h
  split_ifs at h <;>
    simp only [List.cons_append, List.nil_append, List.cons.injEq] at h <;>
    first
      | (obtain ⟨h1, h2⟩ := h; exact ⟨by omega, h2⟩)
      | (obtain ⟨h1, h2, h3⟩ := h; exact ⟨by omega, h3⟩)
      | (obtain ⟨h1, h2, h3, h4, h5⟩ := h; exact ⟨by omega, h5⟩)
      | (exfalso; omega)

/-- The byte-wise escaping of the specification is injective. -/
theorem escapeSpec_injective (a b : Str) (h : escapeSpec a = escapeSpec b) : a = b := by
  induction a generalizing b with
  | nil =>
    cases b with
    | nil => rfl
    | cons y t =>
      exfalso
      simp only [escapeSpec, List.flatMap_nil, List.flatMap_cons] at h
      exact escapeByte_ne_nil y (List.append_eq_nil.mp h.symm).1
  | cons x s ih =>
    cases b with
    | nil =>
      exfalso
      simp only [escapeSpec, List.flatMap_nil, List.flatMap_cons] at h
      exact escapeByte_ne_nil x (List.append_eq_nil.mp h).1
    | cons y t =>
      simp only [escapeSpec, List.flatMap_cons] at h
      obtain ⟨rfl, h2⟩ := escapeByte_prefix_free x y _ _ h
      rw [ih t h2]

/-- On valid UTF-8 names `escapeName` is injective. -/
theorem escapeName_injective_of_valid (a b : Str) (ha : validString a = true)
    (hb : validString b = true) (h : escapeName a = escapeName b) : a = b := by
  rw [escapeName_valid a ha, escapeName_valid b hb] at h
  exact escapeSpec_injective a b h

theorem cutset_eq : lit "\r\n\x00" = [0x0D, 0x0A, 0x00] := rfl

theorem trimRight_append_cut (s t cut : Str) (h : ∀ b ∈ t, b ∈ cut) :
    trimRight (s ++ t) cut = trimRight s cut := by
  unfold trimRight
  rw [List.reverse_append]
  congr 1
  have key : ∀ (u : Str), (∀ b ∈ u, b ∈ cut) →
      (u ++ s.reverse).dropWhile (fun b => decide (b ∈ cut)) =
        s.reverse.dropWhile (fun b => decide (b ∈ cut)) := by
    intro u hu
    induction u with
    | nil => rfl
    | cons b u ih =>
      rw [List.cons_append, List.dropWhile_cons_of_pos (by simpa using hu b (by simp))]
      exact ih (fun x hx => hu x (List.mem_cons_of_mem _ hx))
  exact key t.reverse (fun b hb => h b (List.mem_reverse.mp hb))

theorem trimRight_concat_keep (s : Str) (b : Nat) (cut : Str) (h : b ∉ cut) :
    trimRight (s ++ [b]) cut = s ++ [b] := by
  unfold trimRight
  rw [List.reverse_append, List.reverse_singleton, List.singleton_append,
    List.dropWhile_cons_of_neg (by simpa using h)]
  simp

theorem trimRight_nil (cut : Str) : trimRight [] cut = [] := rfl

/-- A string that is empty or ends outside the cutset is left alone, whatever
cutset bytes follow it. -/
theorem trimRight_keep (s t cut : Str) (hs : ∀ b, s.getLast? = some b → b ∉ cut)
    (ht : ∀ b ∈ t, b ∈ cut) : trimRight (s ++ t) cut = s := by
  rw [trimRight_append_cut s t cut ht]
  rcases List.eq_nil_or_concat s with rfl | ⟨s', b, rfl⟩
  · rfl
  · rw [List.concat_eq_append] at hs ⊢
    exact trimRight_concat_keep s' b cut (hs b (by simp))

/-- The trimmed line is a prefix of the line. -/
theorem trimRight_prefix (s cut : Str) : ∃ t, s = trimRight s cut ++ t := by
  unfold trimRight
  refine ⟨(s.reverse.takeWhile (fun b => decide (b ∈ cut))).reverse, ?_⟩
  rw [← List.reverse_append, List.takeWhile_append_dropWhile, List.reverse_reverse]

theorem hasPrefix_append (p s : Str) : hasPrefix (p ++ s) p = true := by
  simp [hasPrefix]

theorem hasPrefix_of_trimRight (s cut p : Str) (h : hasPrefix (trimRight s cut) p = true) :
    hasPrefix s p = true := by
  obtain ⟨t, ht⟩ := trimRight_prefix s cut
  simp only [hasPrefix, List.isPrefixOf_iff_prefix] at h ⊢
  rw [ht]
  exact h.trans (List.prefix_append _ _)

theorem decodeLastRune_ascii (r : Str) (b : Nat) (h : b < 0x80) :
    decodeLastRune (b :: r).reverse = (b, 1) := by
  unfold decodeLastRune
  simp [h]

theorem trimLeftSpaceAux_ascii (b : Nat) (r : Str) (h : b < 0x80) :
    trimLeftSpaceAux 0 (b :: r) = if isSpace b then trimLeftSpaceAux 0 r else b :: r := by
  simp [trimLeftSpaceAux, decodeRune_ascii b r h]

theorem trimRightSpaceAux_ascii (b : Nat) (r : Str) (h : b < 0x80) :
    trimRightSpaceAux 0 (b :: r) = if isSpace b then trimRightSpaceAux 0 r else b :: r := by
  simp only [trimRightSpaceAux, decodeLastRune_ascii r b h, Nat.sub_self]

theorem indexByte_append (s t : Str) (c : Nat) (h : c ∉ s) :
    indexByte (s ++ c :: t) c = some s.length := by
  induction s with
  | nil => simp [indexByte]
  | cons b r ih =>
    have hb : b ≠ c := fun e => h (by simp [e])
    simp [indexByte, hb, ih (fun hc => h (List.mem_cons_of_mem _ hc))]

theorem isHexByte_not_space (b : Nat) (h : isHexByte b = true) : isSpace b = false := by
  simp [isHexByte] at h
  simp [isSpace]
  omega

/-- White space trimming of a string that is empty or starts and ends with a
hexadecimal digit, behind one leading space. -/
theorem trimSpace_space_hex (D : Str) (hD : ∀ b ∈ D, isHexByte b = true) :
    trimSpace (0x20 :: D) = D := by
  unfold trimSpace
  rw [trimLeftSpaceAux_ascii 0x20 D (by decide)]
  simp only [show isSpace 0x20 = true by decide, if_true]
  cases D with
  | nil => rfl
  | cons b r =>
    have hb := hD b (List.mem_cons_self _ _)
    rw [trimLeftSpaceAux_ascii b r (isHexByte_lt b hb), isHexByte_not_space b hb]
    simp only [Bool.false_eq_true, if_false]
    rcases List.eq_nil_or_concat (b :: r) with h | ⟨s', c, h⟩
    · simp at h
    · rw [h, List.concat_eq_append, List.reverse_append, List.reverse_singleton,
        List.singleton_append]
      have hc : isHexByte c = true := hD c (by rw [h]; simp)
      rw [trimRightSpaceAux_ascii c _ (isHexByte_lt c hc), isHexByte_not_space c hc]
      simp

/-- White space trimming of `" = D"` for a hexadecimal `D`. -/
theorem trimSpace_eq_hex (D : Str) (hD : ∀ b ∈ D, isHexByte b = true) :
    trimSpace (0x20 :: 0x3D :: 0x20 :: D) = 0x3D :: (if D = [] then [] else 0x20 :: D) := by
  unfold trimSpace
  rw [trimLeftSpaceAux_ascii 0x20 _ (by decide)]
  simp only [show isSpace 0x20 = true by decide, if_true]
  rw [trimLeftSpaceAux_ascii 0x3D _ (by decide)]
  simp only [show isSpace 0x3D = false by decide, Bool.false_eq_true, if_false]
  rcases List.eq_nil_or_concat D with rfl | ⟨s', c, rfl⟩
  · rfl
  · rw [List.concat_eq_append]
    have hc : isHexByte c = true := hD c (by simp)
    have e : (0x3D :: 0x20 :: (s' ++ [c])).reverse = c :: (0x3D :: 0x20 :: s').reverse := by simp
    rw [e, trimRightSpaceAux_ascii c _ (isHexByte_lt c hc), isHexByte_not_space c hc]
    simp

/-- White space trimming of `" (name) = D"` for a hexadecimal `D`. -/
theorem trimSpace_tag_rest (name D : Str) (hD : ∀ b ∈ D, isHexByte b = true) :
    trimSpace (lit " (" ++ name ++ lit ") = " ++ D) =
      0x28 :: (name ++ 0x29 :: 0x20 :: 0x3D :: (if D = [] then [] else 0x20 :: D)) := by
  have e0 : lit " (" ++ name ++ lit ") = " ++ D =
      0x20 :: 0x28 :: (name ++ 0x29 :: 0x20 :: 0x3D :: 0x20 :: D) := by
    simp [lit]
  rw [e0]
  unfold trimSpace
  rw [trimLeftSpaceAux_ascii 0x20 _ (by decide)]
  simp only [show isSpace 0x20 = true by decide, if_true]
  rw [trimLeftSpaceAux_ascii 0x28 _ (by decide)]
  simp only [show isSpace 0x28 = false by decide, Bool.false_eq_true, if_false]
  rcases List.eq_nil_or_concat D with rfl | ⟨s', c, rfl⟩
  · have e : (0x28 :: (name ++ [0x29, 0x20, 0x3D, 0x20])).reverse =
        0x20 :: 0x3D :: (0x28 :: (name ++ [0x29, 0x20])).reverse := by simp
    rw [e, trimRightSpaceAux_ascii 0x20 _ (by decide)]
    simp only [show isSpace 0x20 = true by decide, if_true]
    rw [trimRightSpaceAux_ascii 0x3D _ (by decide)]
    simp [show isSpace 0x3D = false by decide]
  · rw [List.concat_eq_append]
    have hc : isHexByte c = true := hD c (by simp)
    have e : (0x28 :: (name ++ 0x29 :: 0x20 :: 0x3D :: 0x20 :: (s' ++ [c]))).reverse =
        c :: (0x28 :: (name ++ 0x29 :: 0x20 :: 0x3D :: 0x20 :: s')).reverse := by simp
    rw [e, trimRightSpaceAux_ascii c _ (isHexByte_lt c hc), isHexByte_not_space c hc]
    simp

theorem sliceFrom_append (p s : Str) : sliceFrom (p ++ s) p.length = some s := by
  simp [sliceFrom]

theorem slice_mid (a c : Nat) (name T : Str) :
    slice (a :: (name ++ c :: T)) 1 (name.length + 1) = some name := by
  simp [slice]

theorem sliceFrom_mid (a c : Nat) (name T : Str) :
    sliceFrom (a :: (name ++ c :: T)) (name.length + 1 + 1) = some T := by
  have : a :: (name ++ c :: T) = (a :: (name ++ [c])) ++ T := by simp
  rw [this]
  have hl : name.length + 1 + 1 = (a :: (name ++ [c])).length := by simp
  rw [hl, sliceFrom_append]

/-- The Tag branch of `verifyLine` on a line that trims to `ALG (name) = D`. -/
theorem verifyLine_tag_core (d : Driver) (line name D fname : Str) (lineno : Int)
    (hline : trimRight line (lit "\r\n\x00") = d.Name ++ (lit " (" ++ name ++ lit ") = " ++ D))
    (hne : name ≠ []) (hparen : 0x29 ∉ name) (hlen : D.length = d.Size * 2)
    (hhex : ∀ b ∈ D, isHexByte b = true) :
    d.verifyLine line fname lineno = some (.ok (D, name)) := by
  unfold Driver.verifyLine
  simp only [hline, hasPrefix_append, if_true, sliceFrom_append, trimSpace_tag_rest name D hhex,
    Option.bind_eq_bind, Option.some_bind, Option.pure_def, bind_pure_comp]
  have hidx : indexByte (0x28 :: (name ++ 0x29 :: 0x20 :: 0x3D :: (if D = [] then [] else 0x20 :: D)))
      0x29 = some (name.length + 1) := by
    have := indexByte_append (0x28 :: name) (0x20 :: 0x3D :: (if D = [] then [] else 0x20 :: D))
      0x29 (by simp [hparen])
    simpa using this
  rw [hidx]
  have hp : hasPrefix (0x28 :: (name ++ 0x29 :: 0x20 :: 0x3D :: (if D = [] then [] else 0x20 :: D)))
      (lit "(") = true := by simp [hasPrefix, lit]
  simp only [hp, if_true, slice_mid, sliceFrom_mid, Option.some_bind]
  by_cases hD : D = []
  · subst hD
    have h0 : d.Size * 2 = 0 := by simpa using hlen.symm
    have e1 : trimSpace [0x20, 0x3D] = [0x3D] := by decide
    have e2 : hasPrefix [0x3D] (lit "=") = true := by decide
    have e3 : sliceFrom [0x3D] 1 = some [] := by decide
    have e4 : trimSpace [] = [] := by decide
    simp [e1, e2, e3, e4, hne, h0]
  · have e1 : trimSpace (0x20 :: 0x3D :: 0x20 :: D) = 0x3D :: 0x20 :: D := by
      rw [trimSpace_eq_hex D hhex]; simp [hD]
    have e2 : hasPrefix (0x3D :: 0x20 :: D) (lit "=") = true := by simp [hasPrefix, lit]
    have e3 : sliceFrom (0x3D :: 0x20 :: D) 1 = some (0x20 :: D) := by simp [sliceFrom]
    simp [hD, e1, e2, e3, trimSpace_space_hex D hhex, hne, hlen]

/-- The line `ALG (name) = D` with an optional terminator trims to itself. -/
theorem trimRight_tag_line (A name D term : Str) (hhex : ∀ b ∈ D, isHexByte b = true)
    (hterm : ∀ b ∈ term, b ∈ lit "\r\n\x00") :
    trimRight (A ++ lit " (" ++ name ++ lit ") = " ++ D ++ term) (lit "\r\n\x00") =
      A ++ (lit " (" ++ name ++ lit ") = " ++ D) := by
  have e : A ++ lit " (" ++ name ++ lit ") = " ++ D = A ++ (lit " (" ++ name ++ lit ") = " ++ D) := by
    simp
  rw [e]
  apply trimRight_keep _ _ _ _ hterm
  intro b hb
  rcases List.eq_nil_or_concat D with rfl | ⟨s', c, rfl⟩
  · have : b = 0x20 := by
      have e2 : A ++ (lit " (" ++ name ++ lit ") = " ++ []) =
          (A ++ (lit " (" ++ name ++ lit ") =")) ++ [0x20] := by simp [lit]
      rw [e2, List.getLast?_append] at hb
      simpa using hb.symm
    subst this; decide
  · rw [List.concat_eq_append] at hb
    have hc : isHexByte c = true := hhex c (by simp)
    have : b = c := by
      have e2 : A ++ (lit " (" ++ name ++ lit ") = " ++ (s' ++ [c])) =
          (A ++ (lit " (" ++ name ++ lit ") = " ++ s')) ++ [c] := by simp
      rw [e2, List.getLast?_append] at hb
      simpa using hb.symm
    subst this
    simp [isHexByte] at hc
    simp [cutset_eq]
    omega

theorem index_lt (L : Str) (i : Nat) (h : i < L.length) : index L i = some (L.getD i 0) := by
  simp [index, List.getD, List.get?_eq_getElem?, List.getElem?_eq_getElem h]

theorem getD_ne_of_ge (L : Str) (i c : Nat) (h : L.length ≤ i) (hc : c ≠ 0) : L.getD i 0 ≠ c := by
  simp [List.getD, List.getElem?_eq_none h]
  exact fun e => hc e.symm

/-- The GNU branch of `verifyLine`, in closed form. -/
theorem verifyLine_gnu (d : Driver) (line fname : Str) (lineno : Int)
    (hpre : hasPrefix (trimRight line (lit "\r\n\x00")) d.Name = false) :
    (gnuAccepts d (trimRight line (lit "\r\n\x00")) →
      d.verifyLine line fname lineno =
        some (.ok ((trimRight line (lit "\r\n\x00")).take (d.Size * 2),
          (trimRight line (lit "\r\n\x00")).drop (namePos d (trimRight line (lit "\r\n\x00")))))) ∧
    (¬ gnuAccepts d (trimRight line (lit "\r\n\x00")) →
      d.verifyLine line fname lineno = some (.error (malformedMsg d fname lineno))) := by
  generalize hL : trimRight line (lit "\r\n\x00") = L at hpre
  unfold Driver.verifyLine
  simp only [hL, hpre, Bool.false_eq_true, if_false, Option.bind_eq_bind, Option.pure_def]
  by_cases hlen : L.length < d.Size * 2 + 3
  · simp only [hlen, if_true]
    refine ⟨fun h => absurd h.1 (by omega), fun _ => trivial⟩
  · simp only [hlen, if_false]
    have h1 : sliceTo L (d.Size * 2) = some (L.take (d.Size * 2)) := by
      simp [sliceTo]; omega
    have h2 : index L (d.Size * 2) = some (L.getD (d.Size * 2) 0) := index_lt L _ (by omega)
    have h3 : index L (d.Size * 2 + 1) = some (L.getD (d.Size * 2 + 1) 0) :=
      index_lt L _ (by omega)
    simp only [h1, h2, h3, Option.some_bind]
    by_cases c1 : L.getD (d.Size * 2) 0 = 0x20
    · by_cases c2 : L.getD (d.Size * 2 + 1) 0 = 0x20 ∨ L.getD (d.Size * 2 + 1) 0 = 0x2A
      · have c2' : ¬ (L.getD (d.Size * 2 + 1) 0 ≠ 0x20 ∧ L.getD (d.Size * 2 + 1) 0 ≠ 0x2A) := by
          tauto
        have hpos : (if d.Size * 2 + 1 + 1 < L.length ∧ L.getD (d.Size * 2 + 1 + 1) 0 = 0x20
            then d.Size * 2 + 1 + 1 + 1 else d.Size * 2 + 1 + 1) = namePos d L := by
          unfold namePos
          have e : d.Size * 2 + 1 + 1 = d.Size * 2 + 2 := rfl
          rw [e]
          by_cases c3 : L.getD (d.Size * 2 + 2) 0 = 0x20
          · have : d.Size * 2 + 2 < L.length := by
              by_contra hge
              exact getD_ne_of_ge L _ 0x20 (by omega) (by decide) c3
            rw [if_pos ⟨this, c3⟩, if_pos c3]
          · rw [if_neg (fun h => c3 h.2), if_neg c3]
        have hpl : namePos d L ≤ L.length := by unfold namePos; split_ifs <;> omega
        have h4 : sliceFrom L (namePos d L) = some (L.drop (namePos d L)) := by
          simp [sliceFrom, hpl]
        simp only [c1, c2', ne_eq, not_true_eq_false, if_false, hpos, h4, Option.some_bind]
        by_cases c4 : L.drop (namePos d L) = []
        · simp only [c4, if_true]
          exact ⟨fun h => absurd c4 h.2.2.2.2, fun _ => trivial⟩
        · simp only [c4, if_false, runes_all_hex]
          by_cases c5 : (L.take (d.Size * 2)).all isHexByte = true
          · simp only [c5, if_true]
            refine ⟨fun _ => trivial, fun h => absurd ⟨by omega, ?_, c1, c2, c4⟩ h⟩
            simpa using c5
          · simp only [c5, Bool.false_eq_true, if_false]
            refine ⟨fun h => absurd ?_ c5, fun _ => trivial⟩
            simpa using h.2.1
      · have c2' : L.getD (d.Size * 2 + 1) 0 ≠ 0x20 ∧ L.getD (d.Size * 2 + 1) 0 ≠ 0x2A := by
          tauto
        simp only [c1, ne_eq, not_true_eq_false, if_false, c2', not_false_eq_true, and_self, if_true]
        exact ⟨fun h => absurd h.2.2.2.1 c2, fun _ => trivial⟩
    · simp only [c1, ne_eq, not_false_eq_true, if_true]
      exact ⟨fun h => absurd h.2.2.1 c1, fun _ => trivial⟩

theorem indexByte_lt (s : Str) (c i : Nat) (h : indexByte s c = some i) : i < s.length := by
  induction s generalizing i with
  | nil => simp [indexByte] at h
  | cons b r ih =>
    simp only [indexByte] at h
    split_ifs at h with hb
    · simp at h; subst h; simp
    · cases hr : indexByte r c with
      | none => simp [hr] at h
      | some j =>
        simp [hr] at h
        subst h
        simp [ih j hr]

theorem indexByte_pos (b c i : Nat) (r : Str) (hb : b ≠ c) (h : indexByte (b :: r) c = some i) :
    ∃ j, i = j + 1 ∧ indexByte r c = some j := by
  simp only [indexByte, hb, if_false] at h
  cases hr : indexByte r c with
  | none => simp [hr] at h
  | some j => simp [hr] at h; exact ⟨j, h.symm, rfl⟩

theorem hasPrefix_length (s p : Str) (h : hasPrefix s p = true) : p.length ≤ s.length := by
  simp only [hasPrefix, List.isPrefixOf_iff_prefix] at h
  exact h.length_le

/-- The Tag branch of `verifyLine` never panics and computes `tagDecode`. -/
theorem verifyLine_tag (d : Driver) (line fname : Str) (lineno : Int)
    (hpre : hasPrefix (trimRight line (lit "\r\n\x00")) d.Name = true) :
    d.verifyLine line fname lineno =
      some (tagDecode d (trimRight line (lit "\r\n\x00")) fname lineno) := by
  generalize hL : trimRight line (lit "\r\n\x00") = L at hpre
  unfold Driver.verifyLine tagDecode
  have h0 : sliceFrom L d.Name.length = some (L.drop d.Name.length) := by
    simp [sliceFrom, hasPrefix_length L d.Name hpre]
  simp only [hL, hpre, if_true, h0, Option.bind_eq_bind, Option.some_bind, Option.pure_def]
  generalize trimSpace (L.drop d.Name.length) = rest
  cases hidx : indexByte rest 0x29 with
  | none => rfl
  | some idx =>
    simp only []
    have hlt := indexByte_lt rest 0x29 idx hidx
    have h1 : sliceFrom rest (idx + 1) = some (rest.drop (idx + 1)) := by
      simp [sliceFrom]; omega
    have hpost : ∀ post : Str, hasPrefix post (lit "=") = true →
        sliceFrom post 1 = some (post.drop 1) := by
      intro post hp
      have := hasPrefix_length post _ hp
      have h1 : 1 ≤ post.length := by simpa [lit] using this
      simp only [sliceFrom, h1, if_true]
    have tail : ∀ y : Str,
        ((sliceFrom rest (idx + 1)).bind fun l =>
          if hasPrefix (trimSpace l) (lit "=") = true then
            (sliceFrom (trimSpace l) 1).bind fun l2 =>
              if y ≠ [] ∧ List.length (trimSpace l2) ≥ d.Size * 2 then
                some (Except.ok (trimSpace l2, y))
              else some (Except.error (malformedMsg d fname lineno))
          else some (Except.error (malformedMsg d fname lineno))) =
        some (if hasPrefix (trimSpace (rest.drop (idx + 1))) (lit "=") = true then
          if y ≠ [] ∧ List.length (trimSpace ((trimSpace (rest.drop (idx + 1))).drop 1)) ≥
              d.Size * 2 then
            Except.ok (trimSpace ((trimSpace (rest.drop (idx + 1))).drop 1), y)
          else Except.error (malformedMsg d fname lineno)
        else Except.error (malformedMsg d fname lineno)) := by
      intro y
      simp only [h1, Option.some_bind]
      by_cases p3 : hasPrefix (trimSpace (rest.drop (idx + 1))) (lit "=") = true
      · simp only [p3, if_true, hpost _ p3, Option.some_bind]
        split_ifs <;> rfl
      · simp only [p3, Bool.false_eq_true, if_false]
    by_cases p1 : hasPrefix rest (lit "(") = true
    · simp only [p1, if_true]
      rcases rest with _ | ⟨b, r⟩
      · simp [hasPrefix, lit] at p1
      · have hb : 0x28 = b := by simpa [hasPrefix, lit] using p1
        obtain ⟨j, hj, _⟩ := indexByte_pos b 0x29 idx r (by omega) hidx
        have hs : slice (b :: r) 1 idx = some (((b :: r).take idx).drop 1) := by
          simp only [slice, List.length_cons] at hlt ⊢
          rw [if_pos ⟨by omega, by omega⟩]
        rw [hs, Option.some_bind]
        exact tail _
    · simp only [p1, Bool.false_eq_true, if_false]
      by_cases p2 : hasPrefix rest (lit " (") = true
      · simp only [p2, if_true]
        rcases rest with _ | ⟨b, _ | ⟨b', r⟩⟩
        · simp [hasPrefix, lit] at p2
        · simp [hasPrefix, lit] at p2
        · have hb : 0x20 = b ∧ 0x28 = b' := by simpa [hasPrefix, lit] using p2
          obtain ⟨j, hj, hj'⟩ := indexByte_pos b 0x29 idx _ (by omega) hidx
          obtain ⟨j', hj2, _⟩ := indexByte_pos b' 0x29 j r (by omega) hj'
          have hs : slice (b :: b' :: r) 2 idx = some (((b :: b' :: r).take idx).drop 2) := by
            simp only [slice, List.length_cons] at hlt ⊢
            rw [if_pos ⟨by omega, by omega⟩]
          rw [hs, Option.some_bind]
          exact tail _
      · simp only [p2, Bool.false_eq_true, if_false]
        exact tail _

/-- The method `verifyLine` never panics. -/
theorem verifyLine_total (d : Driver) (line fname : Str) (lineno : Int) :
    ∃ r, d.verifyLine line fname lineno = some r := by
  by_cases hpre : hasPrefix (trimRight line (lit "\r\n\x00")) d.Name = true
  · exact ⟨_, verifyLine_tag d line fname lineno hpre⟩
  · have hpre' : hasPrefix (trimRight line (lit "\r\n\x00")) d.Name = false := by
      simpa using hpre
    by_cases hacc : gnuAccepts d (trimRight line (lit "\r\n\x00"))
    · exact ⟨_, (verifyLine_gnu d line fname lineno hpre').1 hacc⟩
    · exact ⟨_, (verifyLine_gnu d line fname lineno hpre').2 hacc⟩

/-- What the Tag branch guarantees of an accepted line. -/
theorem tagDecode_ok (d : Driver) (L fname : Str) (lineno : Int) (h n : Str)
    (hok : tagDecode d L fname lineno = .ok (h, n)) : n ≠ [] ∧ d.Size * 2 ≤ h.length := by
  unfold tagDecode at hok
  simp only [] at hok
  cases hidx : indexByte (trimSpace (L.drop d.Name.length)) 0x29 with
  | none => simp [hidx] at hok
  | some idx =>
    simp only [hidx] at hok
    split_ifs at hok <;> cases hok <;> assumption

theorem escapeByte_plain (b : Nat) (h : 32 ≤ b ∧ b ≠ 127) (hb : b ≠ 0x5C) : escapeByte b = [b] := by
  rw [escapeByte_eq]
  rw [if_neg (by omega), if_neg (by omega), if_neg hb, if_neg (by omega)]

theorem escapeSpec_plain (name : Str) (hctl : ∀ b ∈ name, 32 ≤ b ∧ b ≠ 127)
    (hbs : 0x5C ∉ name) : escapeSpec name = name := by
  induction name with
  | nil => rfl
  | cons b r ih =>
    simp only [escapeSpec, List.flatMap_cons]
    rw [escapeByte_plain b (hctl b (List.mem_cons_self _ _)) (fun e => hbs (by simp [e]))]
    have := ih (fun x hx => hctl x (List.mem_cons_of_mem _ hx))
      (fun hx => hbs (List.mem_cons_of_mem _ hx))
    simp only [escapeSpec] at this
    rw [this]; rfl

/-- A valid UTF-8 name without control bytes and without a backslash is not
changed by `escapeName`. -/
theorem escapeName_plain (name : Str) (hvalid : validString name = true)
    (hctl : ∀ b ∈ name, 32 ≤ b ∧ b ≠ 127) (hbs : 0x5C ∉ name) : escapeName name = name := by
  rw [escapeName_valid name hvalid, escapeSpec_plain name hctl hbs]

theorem getD_append_left (a b : Str) (i : Nat) (h : i < a.length) :
    (a ++ b).getD i 0 = a.getD i 0 := by
  simp [List.getD, List.getElem?_append_left h]

theorem getD_append_right (a b : Str) (i : Nat) : (a ++ b).getD (a.length + i) 0 = b.getD i 0 := by
  simp [List.getD, List.getElem?_append_right]

/-- The GNU text line `digest  name` is accepted and splits into its two
fields when the name is non-empty and does not start with a space. -/
theorem gnu_line_accepts (d : Driver) (digest name : Str)
    (hlen : digest.length = d.Size * 2) (hhex : ∀ b ∈ digest, isHexByte b = true)
    (hne : name ≠ []) (hsp : name.head? ≠ some 0x20) :
    gnuAccepts d (digest ++ lit "  " ++ name) ∧
      (digest ++ lit "  " ++ name).take (d.Size * 2) = digest ∧
      (digest ++ lit "  " ++ name).drop (namePos d (digest ++ lit "  " ++ name)) = name := by
  have e : digest ++ lit "  " ++ name = digest ++ (0x20 :: 0x20 :: name) := by simp [lit]
  have g0 : (digest ++ (0x20 :: 0x20 :: name)).getD (d.Size * 2) 0 = 0x20 := by
    have := getD_append_right digest (0x20 :: 0x20 :: name) 0
    rw [hlen] at this; simpa using this
  have g1 : (digest ++ (0x20 :: 0x20 :: name)).getD (d.Size * 2 + 1) 0 = 0x20 := by
    have := getD_append_right digest (0x20 :: 0x20 :: name) 1
    rw [hlen] at this; simpa using this
  have g2 : (digest ++ (0x20 :: 0x20 :: name)).getD (d.Size * 2 + 2) 0 ≠ 0x20 := by
    have := getD_append_right digest (0x20 :: 0x20 :: name) 2
    rw [hlen] at this
    rw [this]
    cases name with
    | nil => exact absurd rfl hne
    | cons b r =>
      simp only [List.head?_cons, ne_eq, Option.some.injEq] at hsp
      simpa [List.getD] using hsp
  have hpos : namePos d (digest ++ (0x20 :: 0x20 :: name)) = d.Size * 2 + 2 := by
    unfold namePos; rw [if_neg g2]
  have htake : (digest ++ (0x20 :: 0x20 :: name)).take (d.Size * 2) = digest := by
    rw [← hlen]; simp
  have hdrop : (digest ++ (0x20 :: 0x20 :: name)).drop (d.Size * 2 + 2) = name := by
    rw [← hlen]
    have : digest ++ (0x20 :: 0x20 :: name) = (digest ++ [0x20, 0x20]) ++ name := by simp
    rw [this]
    have hl : digest.length + 2 = (digest ++ [0x20, 0x20]).length := by simp
    rw [hl, List.drop_left]
  rw [e, hpos, htake, hdrop]
  refine ⟨⟨?_, ?_, g0, Or.inl g1, ?_⟩, rfl, rfl⟩
  · have : 0 < name.length := List.length_pos.mpr hne
    simp only [List.length_append, List.length_cons]
    omega
  · rw [htake]; exact hhex
  · rw [hpos, hdrop]; exact hne

theorem hexDigit_ne_newline (n : Nat) : hexDigit n ≠ 0x0A := by
  unfold hexDigit; split_ifs <;> omega

theorem newline_not_mem_encodeRune (r : Nat) (h : r ≠ 0x0A) : 0x0A ∉ encodeRune r := by
  unfold encodeRune
  split_ifs <;> simp <;> omega

theorem newline_not_mem_escapeRune (r : Nat) : 0x0A ∉ escapeRune r := by
  unfold escapeRune
  split_ifs with h1 h2 h3 h4
  · decide
  · decide
  · decide
  · simp only [List.mem_append, List.mem_cons, List.mem_nil_iff, or_false, not_or]
    exact ⟨by decide, (hexDigit_ne_newline _).symm, (hexDigit_ne_newline _).symm⟩
  · exact newline_not_mem_encodeRune r h1

/-- The output of `escapeName` never contains a newline byte. -/
theorem newline_not_mem_escapeName (name : Str) : 0x0A ∉ escapeName name := by
  simp only [escapeName, List.mem_flatMap, not_exists, not_and]
  exact fun r _ => newline_not_mem_escapeRune r

theorem isHexByte_ne (b c : Nat) (h : isHexByte b = true) (hc : isHexByte c = false) : b ≠ c := by
  rintro rfl; rw [h] at hc; cases hc

/-- One iteration of the line loop on a blank line changes nothing and leaves
the loop exactly at `io.EOF`. -/
theorem lineStep_blank (d : Driver) (w : World) (prog f l : Str) (eof : Bool) (st : FileState)
    (hb : isBlank l = true) : d.lineStep w prog f l eof st = some (st, eof) := by
  have h2 : trimRight l (lit "\r\n\x00") = [] := by simpa [isBlank] using hb
  unfold Driver.lineStep
  by_cases h1 : l = [] ∧ eof = true
  · rw [if_pos h1, h1.2]
  · rw [if_neg h1, if_pos h2]
    cases eof <;> rfl

/-- One iteration of the line loop on a non-blank line applies the outcome of
the line, and leaves the loop exactly at `io.EOF` after a verified target. -/
theorem lineStep_outcome (d : Driver) (w : World) (prog f l : Str) (eof : Bool) (st : FileState)
    (hb : isBlank l = false) :
    d.lineStep w prog f l eof st =
      some (d.applyOutcome prog st (d.outcomeOf w f (st.lineno + 1, l)),
        eof && (d.outcomeOf w f (st.lineno + 1, l)).isVerified) := by
  have h2 : ¬ trimRight l (lit "\r\n\x00") = [] := by simpa [isBlank] using hb
  have h1 : ¬ (l = [] ∧ eof = true) := by
    rintro ⟨rfl, _⟩
    exact h2 rfl
  obtain ⟨r, hr⟩ := verifyLine_total d l f ((st.lineno + 1 : Nat) : Int)
  unfold Driver.lineStep Driver.outcomeOf
  rw [if_neg h1, if_neg h2]
  simp only [hr]
  rcases r with msg | ⟨expect, path⟩
  · cases hs : d.Strict <;> cases hw : d.Warn <;>
      simp [Driver.classify, Driver.applyOutcome, LineOutcome.isVerified, hs, hw]
  · cases ho : w.openFile path with
    | failed ne msg =>
      by_cases hc : ne = true ∧ d.IgnoreMissing = true
      · simp [Driver.classify, Driver.applyOutcome, LineOutcome.isVerified, ho, hc]
      · simp [Driver.classify, Driver.applyOutcome, LineOutcome.isVerified, ho, hc]
    | opened data =>
      by_cases hm : computeSum d data = expect
      · cases hq : d.Quiet <;> cases hs : d.Status <;>
          simp [Driver.classify, Driver.applyOutcome, Driver.compareSum, LineOutcome.isVerified,
            ho, hm, hq, hs]
      · cases hs : d.Status <;>
          simp [Driver.classify, Driver.applyOutcome, Driver.compareSum, LineOutcome.isVerified,
            ho, hm, hs]
    | unreadable data =>
      by_cases hm : ([] : Str) = expect
      · cases hq : d.Quiet <;> cases hs : d.Status <;>
          simp [Driver.classify, Driver.applyOutcome, Driver.compareSum, LineOutcome.isVerified,
            ho, hm, hq, hs]
      · cases hs : d.Status <;>
          simp [Driver.classify, Driver.applyOutcome, Driver.compareSum, LineOutcome.isVerified,
            ho, hm, hs]

theorem readStringsAux_shape (acc s : Str) :
    ∃ (init : List Str) (last : Str),
      readStringsAux acc s = init.map (fun l => (l, false)) ++ [(last, true)] := by
  induction s generalizing acc with
  | nil => exact ⟨[], acc.reverse, rfl⟩
  | cons b rest ih =>
    unfold readStringsAux
    split_ifs with hb
    · obtain ⟨init, last, h⟩ := ih []
      exact ⟨(acc.reverse ++ [0x0A]) :: init, last, by rw [h]; rfl⟩
    · exact ih (b :: acc)

theorem summary_code (d : Driver) (w : World) (st : RunState) :
    (d.summary w st).code = st.code := by
  unfold Driver.summary
  simp only []
  split_ifs <;> rfl

theorem applyOutcome_lineno (d : Driver) (prog : Str) (st : FileState) (o : LineOutcome) :
    (d.applyOutcome prog st o).lineno = st.lineno + 1 := by
  cases o <;> rfl

theorem afterLines_nil (d : Driver) (w : World) (prog f : Str) (st : FileState) :
    d.afterLines w prog f [] st = st := rfl

theorem afterLines_cons_blank (d : Driver) (w : World) (prog f l : Str) (ls : List Str)
    (st : FileState) (hb : isBlank l = true) :
    d.afterLines w prog f (l :: ls) st = d.afterLines w prog f ls st := by
  simp [Driver.afterLines, List.filter, hb]

theorem afterLines_cons (d : Driver) (w : World) (prog f l : Str) (ls : List Str)
    (st : FileState) (hb : isBlank l = false) :
    d.afterLines w prog f (l :: ls) st =
      d.afterLines w prog f ls (d.applyOutcome prog st (d.outcomeOf w f (st.lineno + 1, l))) := by
  simp [Driver.afterLines, List.filter, hb, numberFrom, applyOutcome_lineno]

theorem afterLines_append (d : Driver) (w : World) (prog f : Str) (ls ms : List Str)
    (st : FileState) :
    d.afterLines w prog f (ls ++ ms) st =
      d.afterLines w prog f ms (d.afterLines w prog f ls st) := by
  induction ls generalizing st with
  | nil => rfl
  | cons l ls ih =>
    cases hb : isBlank l
    · rw [List.cons_append, afterLines_cons _ _ _ _ _ _ _ hb, afterLines_cons _ _ _ _ _ _ _ hb, ih]
    · rw [List.cons_append, afterLines_cons_blank _ _ _ _ _ _ _ hb,
        afterLines_cons_blank _ _ _ _ _ _ _ hb, ih]

/-- Blank lines leave the state as it is. -/
theorem afterLines_blank (d : Driver) (w : World) (prog f : Str) (ls : List Str)
    (st : FileState) (hb : ∀ l ∈ ls, isBlank l = true) : d.afterLines w prog f ls st = st := by
  induction ls with
  | nil => rfl
  | cons l ls ih =>
    rw [afterLines_cons_blank _ _ _ _ _ _ _ (hb l (List.mem_cons_self _ _))]
    exact ih (fun x hx => hb x (List.mem_cons_of_mem _ hx))

/-- One iteration of the line loop, blank line or not, in terms of `afterLines`:
it never panics, leaves the loop only at `io.EOF`, and on a blank line exactly
at `io.EOF`. -/
theorem lineStep_afterLines (d : Driver) (w : World) (prog f l : Str) (eof : Bool)
    (st : FileState) :
    ∃ b, d.lineStep w prog f l eof st = some (d.afterLines w prog f [l] st, b) ∧
      (b = true → eof = true) ∧ (isBlank l = true → b = eof) := by
  cases hb : isBlank l
  · rw [afterLines_cons d w prog f l [] st hb, afterLines_nil,
      lineStep_outcome d w prog f l eof st hb]
    refine ⟨_, rfl, ?_, fun h => by cases h⟩
    intro h
    cases eof
    · simp at h
    · rfl
  · rw [afterLines_cons_blank d w prog f l [] st hb, afterLines_nil,
      lineStep_blank d w prog f l eof st hb]
    exact ⟨eof, rfl, fun h => h, fun _ => rfl⟩

/-- The iterations on results none of which reports `io.EOF` are followed by
the iterations on the results after them. -/
theorem lineIter_lines (d : Driver) (w : World) (prog f : Str) (init : List Str)
    (rest : List (Str × Bool)) (st : FileState) :
    d.lineIter w prog f (init.map (fun l => (l, false)) ++ rest) st =
      d.lineIter w prog f rest (d.afterLines w prog f init st) := by
  induction init generalizing st with
  | nil => rfl
  | cons l init ih =>
    obtain ⟨b, h0, hb, _⟩ := lineStep_afterLines d w prog f l false st
    have : b = false := by
      cases b
      · rfl
      · exact absurd (hb rfl) (by decide)
    subst this
    have e1 : (l :: init).map (fun l => ((l, false) : Str × Bool)) ++ rest =
        (l, false) :: (init.map (fun l => (l, false)) ++ rest) := rfl
    have e2 : d.afterLines w prog f (l :: init) st =
        d.afterLines w prog f init (d.afterLines w prog f [l] st) :=
      afterLines_append d w prog f [l] init st
    rw [e1, e2, ← ih]
    simp only [Driver.lineIter, h0]

/-- The iterations on results none of which reports `io.EOF` do not leave the
loop. -/
theorem lineIter_running (d : Driver) (w : World) (prog f : Str) (init : List Str)
    (st : FileState) :
    d.lineIter w prog f (init.map (fun l => (l, false))) st =
      some (d.afterLines w prog f init st, false) := by
  have := lineIter_lines d w prog f init [] st
  rw [List.append_nil] at this
  rw [this]
  rfl

/-- The iterations from the result that reports `io.EOF` on: the loop is left
at that result or at the next one. -/
theorem lineIter_eof (d : Driver) (w : World) (prog f last : Str) (m : Nat) (st : FileState) :
    ∃ b, d.lineIter w prog f ((last, true) :: List.replicate m ([], true)) st =
        some (d.afterLines w prog f [last] st, b) ∧ (0 < m → b = true) := by
  obtain ⟨b, h0, _, _⟩ := lineStep_afterLines d w prog f last true st
  cases b
  · cases m with
    | zero =>
      exact ⟨false, by simp only [Driver.lineIter, h0, List.replicate], fun h => by omega⟩
    | succ k =>
      refine ⟨true, ?_, fun _ => rfl⟩
      have hs : d.lineStep w prog f [] true (d.afterLines w prog f [last] st) =
          some (d.afterLines w prog f [last] st, true) :=
        lineStep_blank d w prog f [] true _ (by decide)
      simp only [Driver.lineIter, h0, List.replicate, hs]
  · exact ⟨true, by simp only [Driver.lineIter, h0], fun _ => rfl⟩

/-- The results of the first `n` calls of `ReadString`, from the lines `init`
that end in a newline and the last line `last` of the content. -/
theorem readCalls_shape (c : Str) (readable : Bool) (init : List Str) (last : Str)
    (hrs : readStrings c = init.map (fun l => (l, false)) ++ [(last, true)]) (n : Nat) :
    (n ≤ init.length → readCalls c readable n = (init.take n).map (fun l => (l, false))) ∧
    (∀ m, n = init.length + 1 + m →
      readCalls c readable n =
        init.map (fun l => (l, false)) ++ (last, readable) :: List.replicate m ([], readable)) := by
  have hmap : (readStrings c).map (fun (r : Str × Bool) => (r.1, r.2 && readable)) =
      init.map (fun l => (l, false)) ++ [(last, readable)] := by
    rw [hrs]
    simp [Function.comp_def]
  unfold readCalls
  rw [hmap]
  constructor
  · intro hn
    rw [List.append_assoc, List.take_append_of_le_length (by simpa using hn), List.map_take]
  · intro m hm
    subst hm
    have e : init.length + 1 + m =
        (init.map (fun l => ((l, false) : Str × Bool)) ++ [(last, readable)]).length + m := by
      simp
    rw [e, List.take_append, List.take_replicate]
    have hmin : min m ((init.map (fun l => ((l, false) : Str × Bool)) ++
        [(last, readable)]).length + m) = m := by omega
    rw [hmin]
    simp
/-- The iterations of the line loop on the first `n` results of `ReadString` on
an opened file never panic and end in the state `afterLines` of the lines read;
the loop is left only on a readable file once its last line is read, and it is
left on a readable file after one more result. -/
theorem lineIter_readCalls (d : Driver) (w : World) (prog f c : Str) (readable : Bool)
    (n : Nat) (st : FileState) :
    ∃ b, d.lineIter w prog f (readCalls c readable n) st =
        some (d.afterLines w prog f ((readCalls c readable n).map Prod.fst) st, b) ∧
      (b = true → readable = true ∧ (readStrings c).length ≤ n) ∧
      (readable = true → (readStrings c).length + 1 ≤ n → b = true) := by
  obtain ⟨init, last, hshape⟩ := readStringsAux_shape [] c
  have hrs : readStrings c = init.map (fun l => (l, false)) ++ [(last, true)] := hshape
  have hlen : (readStrings c).length = init.length + 1 := by rw [hrs]; simp
  obtain ⟨h1, h2⟩ := readCalls_shape c readable init last hrs n
  by_cases hn : n ≤ init.length
  · rw [h1 hn, lineIter_running]
    refine ⟨false, ?_, (fun h => by cases h), (fun _ h => by omega)⟩
    simp [Function.comp_def]
  · obtain ⟨m, hm⟩ : ∃ m, n = init.length + 1 + m := ⟨n - (init.length + 1), by omega⟩
    rw [h2 m hm]
    cases readable
    · have e : init.map (fun l => ((l, false) : Str × Bool)) ++
          (last, false) :: List.replicate m ([], false) =
          (init ++ last :: List.replicate m []).map (fun l => (l, false)) := by
        simp
      rw [e, lineIter_running]
      refine ⟨false, ?_, (fun h => by cases h), (fun h => by cases h)⟩
      simp [Function.comp_def]
    · rw [lineIter_lines]
      obtain ⟨b, hb, hpos⟩ := lineIter_eof d w prog f last m (d.afterLines w prog f init st)
      rw [hb]
      refine ⟨b, ?_, (fun _ => ⟨rfl, by omega⟩), (fun _ h => hpos (by omega))⟩
      have e : (init.map (fun l => ((l, false) : Str × Bool)) ++
          (last, true) :: List.replicate m ([], true)).map Prod.fst =
          init ++ ([last] ++ List.replicate m []) := by
        simp [Function.comp_def]
      rw [e, afterLines_append, afterLines_append,
        afterLines_blank d w prog f (List.replicate m []) _
          (fun l hl => by rw [List.eq_of_mem_replicate hl]; decide)]

/-- Once the last line is read, the lines read are the lines of the file and
blank lines. -/
theorem afterLines_readCalls (d : Driver) (w : World) (prog f c : Str) (readable : Bool)
    (n : Nat) (st : FileState) (hn : (readStrings c).length ≤ n) :
    d.afterLines w prog f ((readCalls c readable n).map Prod.fst) st =
      d.afterLines w prog f ((readStrings c).map Prod.fst) st := by
  obtain ⟨init, last, hshape⟩ := readStringsAux_shape [] c
  have hrs : readStrings c = init.map (fun l => (l, false)) ++ [(last, true)] := hshape
  have hlen : (readStrings c).length = init.length + 1 := by rw [hrs]; simp
  obtain ⟨m, hm⟩ : ∃ m, n = init.length + 1 + m := ⟨n - (init.length + 1), by omega⟩
  rw [(readCalls_shape c readable init last hrs n).2 m hm, hrs]
  have e1 : (init.map (fun l => ((l, false) : Str × Bool)) ++
      (last, readable) :: List.replicate m ([], readable)).map Prod.fst =
      (init ++ [last]) ++ List.replicate m [] := by
    simp [Function.comp_def]
  have e2 : (init.map (fun l => ((l, false) : Str × Bool)) ++ [(last, true)]).map Prod.fst =
      init ++ [last] := by
    simp [Function.comp_def]
  rw [e1, e2, afterLines_append,
    afterLines_blank d w prog f (List.replicate m []) _
      (fun l hl => by rw [List.eq_of_mem_replicate hl]; decide)]

/-- The state after the lines of a manifest file, from the state in which the
file is opened: the outcomes of its non-blank lines applied in order. -/
theorem afterLines_file (d : Driver) (w : World) (prog f c : Str) (st : RunState) :
    d.afterLines w prog f ((readStrings c).map Prod.fst) ⟨st, 0, 0, 0⟩ =
      (d.fileOutcomes w f c).foldl (d.applyOutcome prog) ⟨st, 0, 0, 0⟩ := rfl

/-- The line loop on a manifest whose read fails does not end, whatever the
bound on its iterations. -/
theorem lineLoop_unreadable (d : Driver) (w : World) (prog f c : Str) (fuel : Nat)
    (st : FileState) : d.lineLoop w prog f c false fuel st = .unfinished := by
  obtain ⟨b, hb, hfalse, _⟩ := lineIter_readCalls d w prog f c false fuel st
  unfold Driver.lineLoop
  rw [hb]
  cases b
  · rfl
  · exact absurd (hfalse rfl).1 (by decide)

/-- The line loop on a readable manifest never panics: within a bound on its
iterations it ends in the state after the lines of the file, or is not yet
finished. -/
theorem lineLoop_readable (d : Driver) (w : World) (prog f c : Str) (fuel : Nat)
    (st : FileState) :
    d.lineLoop w prog f c true fuel st =
        .done (d.afterLines w prog f ((readStrings c).map Prod.fst) st) ∨
      d.lineLoop w prog f c true fuel st = .unfinished := by
  obtain ⟨b, hb, htrue, _⟩ := lineIter_readCalls d w prog f c true fuel st
  unfold Driver.lineLoop
  rw [hb]
  cases b
  · exact Or.inr rfl
  · left
    simp only []
    rw [afterLines_readCalls d w prog f c true fuel st (htrue rfl).2]

/-- The line loop on a readable manifest ends within one iteration more than
the file has `ReadString` results. -/
theorem lineLoop_enough (d : Driver) (w : World) (prog f c : Str) (fuel : Nat)
    (st : FileState) (hfuel : (readStrings c).length + 1 ≤ fuel) :
    d.lineLoop w prog f c true fuel st =
      .done (d.afterLines w prog f ((readStrings c).map Prod.fst) st) := by
  obtain ⟨b, hb, _, hend⟩ := lineIter_readCalls d w prog f c true fuel st
  have : b = true := hend rfl hfuel
  subst this
  unfold Driver.lineLoop
  rw [hb]
  simp only []
  rw [afterLines_readCalls d w prog f c true fuel st (by omega)]
/-- The fields of the state after one outcome. -/
theorem applyOutcome_fields (d : Driver) (prog : Str) (st : FileState) (o : LineOutcome) :
    (d.applyOutcome prog st o).lineno = st.lineno + 1 ∧
    (d.applyOutcome prog st o).valid = st.valid + (if o.isValid then 1 else 0) ∧
    (d.applyOutcome prog st o).verified = st.verified + (if o.isVerified then 1 else 0) ∧
    (d.applyOutcome prog st o).run.malformed =
      st.run.malformed + (if o.isMalformed then 1 else 0) ∧
    (d.applyOutcome prog st o).run.mismatches =
      st.run.mismatches + (if o.isMismatch then 1 else 0) ∧
    (d.applyOutcome prog st o).run.total = st.run.total ∧
    (d.applyOutcome prog st o).run.code = (if d.outcomeFails o then 1 else st.run.code) ∧
    (d.applyOutcome prog st o).run.stdout = st.run.stdout ++ d.outText o ∧
    (d.applyOutcome prog st o).run.stderr = st.run.stderr ++ d.errText prog o := by
  cases o with
  | malformed msg =>
    cases hs : d.Strict <;> cases hw : d.Warn <;>
      simp [Driver.applyOutcome, LineOutcome.isValid, LineOutcome.isVerified,
        LineOutcome.isMalformed, LineOutcome.isMismatch, Driver.outcomeFails, Driver.outText,
        Driver.errText, hs, hw]
  | skipped =>
    simp [Driver.applyOutcome, LineOutcome.isValid, LineOutcome.isVerified,
      LineOutcome.isMalformed, LineOutcome.isMismatch, Driver.outcomeFails, Driver.outText,
      Driver.errText]
  | openFailed =>
    simp [Driver.applyOutcome, LineOutcome.isValid, LineOutcome.isVerified,
      LineOutcome.isMalformed, LineOutcome.isMismatch, Driver.outcomeFails, Driver.outText,
      Driver.errText]
  | mismatched path =>
    cases hs : d.Status <;>
      simp [Driver.applyOutcome, LineOutcome.isValid, LineOutcome.isVerified,
        LineOutcome.isMalformed, LineOutcome.isMismatch, Driver.outcomeFails, Driver.outText,
        Driver.errText, hs]
  | matched path =>
    cases hq : d.Quiet <;> cases hs : d.Status <;>
      simp [Driver.applyOutcome, LineOutcome.isValid, LineOutcome.isVerified,
        LineOutcome.isMalformed, LineOutcome.isMismatch, Driver.outcomeFails, Driver.outText,
        Driver.errText, hq, hs]

/-- The fields of the state after a list of outcomes: the counters move by the
number of outcomes of each kind, the exit code becomes 1 when an outcome fails,
and the two streams grow by the texts of the outcomes. -/
theorem applyOutcomes_fields (d : Driver) (prog : Str) (os : List LineOutcome) (st : FileState) :
    (os.foldl (d.applyOutcome prog) st).lineno = st.lineno + os.length ∧
    (os.foldl (d.applyOutcome prog) st).valid = st.valid + os.countP LineOutcome.isValid ∧
    (os.foldl (d.applyOutcome prog) st).verified =
      st.verified + os.countP LineOutcome.isVerified ∧
    (os.foldl (d.applyOutcome prog) st).run.malformed =
      st.run.malformed + os.countP LineOutcome.isMalformed ∧
    (os.foldl (d.applyOutcome prog) st).run.mismatches =
      st.run.mismatches + os.countP LineOutcome.isMismatch ∧
    (os.foldl (d.applyOutcome prog) st).run.total = st.run.total ∧
    (os.foldl (d.applyOutcome prog) st).run.code =
      (if os.any d.outcomeFails then 1 else st.run.code) ∧
    (os.foldl (d.applyOutcome prog) st).run.stdout = st.run.stdout ++ os.flatMap d.outText ∧
    (os.foldl (d.applyOutcome prog) st).run.stderr =
      st.run.stderr ++ os.flatMap (d.errText prog) := by
  induction os generalizing st with
  | nil => simp
  | cons o os ih =>
    obtain ⟨a1, a2, a3, a4, a5, a6, a7, a8, a9⟩ := applyOutcome_fields d prog st o
    obtain ⟨b1, b2, b3, b4, b5, b6, b7, b8, b9⟩ := ih (d.applyOutcome prog st o)
    simp only [List.foldl_cons, List.length_cons, List.countP_cons, List.any_cons,
      List.flatMap_cons]
    refine ⟨?_, ?_, ?_, ?_, ?_, ?_, ?_, ?_, ?_⟩
    · rw [b1, a1]; omega
    · rw [b2, a2]; omega
    · rw [b3, a3]; omega
    · rw [b4, a4]; omega
    · rw [b5, a5]; omega
    · rw [b6, a6]
    · rw [b7, a7]
      by_cases h1 : d.outcomeFails o = true <;> by_cases h2 : os.any d.outcomeFails = true <;>
        simp [h1, h2]
    · rw [b8, a8, List.append_assoc]
    · rw [b9, a9, List.append_assoc]

/-- The state in which the body of the loop over the manifest files ends on an
opened manifest, field by field: what it adds to the two streams and to the
counters, and the exit code. -/
theorem fileEnd_fields (d : Driver) (w : World) (prog : Str) (st : RunState) (f c : Str)
    (ho : w.openFile f = .opened c) :
    (d.fileEnd prog f ((d.fileOutcomes w f c).foldl (d.applyOutcome prog) ⟨st, 0, 0, 0⟩)).stdout =
      st.stdout ++ d.fileOut w f ∧
    (d.fileEnd prog f ((d.fileOutcomes w f c).foldl (d.applyOutcome prog) ⟨st, 0, 0, 0⟩)).stderr =
      st.stderr ++ d.fileErr w prog f ∧
    (d.fileEnd prog f
        ((d.fileOutcomes w f c).foldl (d.applyOutcome prog) ⟨st, 0, 0, 0⟩)).malformed =
      st.malformed + d.fileCount w LineOutcome.isMalformed f ∧
    (d.fileEnd prog f ((d.fileOutcomes w f c).foldl (d.applyOutcome prog) ⟨st, 0, 0, 0⟩)).total =
      st.total + d.fileCount w LineOutcome.isValid f ∧
    (d.fileEnd prog f
        ((d.fileOutcomes w f c).foldl (d.applyOutcome prog) ⟨st, 0, 0, 0⟩)).mismatches =
      st.mismatches + d.fileCount w LineOutcome.isMismatch f ∧
    (d.fileEnd prog f ((d.fileOutcomes w f c).foldl (d.applyOutcome prog) ⟨st, 0, 0, 0⟩)).code =
      (if d.fileFailsB w f then 1 else st.code) := by
  unfold Driver.fileEnd Driver.fileOut Driver.fileErr Driver.fileCount Driver.fileFailsB
  rw [ho]
  simp only []
  obtain ⟨_, b2, b3, b4, b5, b6, b7, b8, b9⟩ :=
    applyOutcomes_fields d prog (d.fileOutcomes w f c) ⟨st, 0, 0, 0⟩
  simp only [Nat.zero_add] at b2 b3
  simp only [b2, b3]
  by_cases hv : d.Check = true ∧ d.IgnoreMissing = true ∧
      (d.fileOutcomes w f c).countP LineOutcome.isVerified = 0
  · rw [if_pos hv, if_pos hv]
    by_cases hz : (d.fileOutcomes w f c).countP LineOutcome.isValid = 0
    · rw [if_pos hz, if_pos hz, if_pos hv.1]
      refine ⟨b8, ?_, b4, ?_, b5, ?_⟩
      · simp only [b9, List.append_assoc]
      · simp only [b6, b2]
      · simp [hv.1, hv.2.1, hv.2.2]
    · rw [if_neg hz, if_neg hz]
      refine ⟨b8, ?_, b4, ?_, b5, ?_⟩
      · simp only [b9, List.append_assoc, List.append_nil]
      · simp only [b6, b2]
      · simp [hv.1, hv.2.1, hv.2.2]
  · rw [if_neg hv, if_neg hv]
    have hv' : (d.Check && d.IgnoreMissing &&
        decide ((d.fileOutcomes w f c).countP LineOutcome.isVerified = 0)) = false := by
      cases hc : d.Check <;> cases hi : d.IgnoreMissing <;> simp_all
    by_cases hz : (d.fileOutcomes w f c).countP LineOutcome.isValid = 0
    · rw [if_pos hz, if_pos hz]
      by_cases hck : d.Check = true
      · rw [if_pos hck]
        refine ⟨b8, ?_, b4, ?_, b5, ?_⟩
        · simp only [b9, List.append_assoc, List.nil_append]
        · simp only [b6, b2]
        · simp [hck, hz]
      · rw [if_neg hck]
        refine ⟨b8, ?_, b4, ?_, b5, ?_⟩
        · simp only [b9, List.append_assoc, List.nil_append]
        · simp only [b6, b2]
        · have hck' : d.Check = false := by simpa using hck
          simp only [b7, hv', hck', Bool.false_and, Bool.or_false]
    · rw [if_neg hz, if_neg hz]
      refine ⟨b8, ?_, b4, ?_, b5, ?_⟩
      · simp only [b9, List.append_assoc, List.append_nil]
      · simp only [b6, b2]
      · simp only [b7, hv', hz, decide_False, Bool.and_false, Bool.or_false]

/-- The body of the loop over the manifest files on a manifest that fails to
open. -/
theorem fileStep_failed (d : Driver) (w : World) (prog : Str) (fuel : Nat) (st : RunState)
    (f : Str) (ne : Bool) (msg : Str) (ho : w.openFile f = .failed ne msg) :
    ∃ st1, d.fileStep w prog fuel st f = .done st1 ∧
      st1.stdout = st.stdout ++ d.fileOut w f ∧
      st1.stderr = st.stderr ++ d.fileErr w prog f ∧
      st1.malformed = st.malformed + d.fileCount w LineOutcome.isMalformed f ∧
      st1.total = st.total + d.fileCount w LineOutcome.isValid f ∧
      st1.mismatches = st.mismatches + d.fileCount w LineOutcome.isMismatch f ∧
      st1.code = (if d.fileFailsB w f then 1 else st.code) := by
  unfold Driver.fileStep Driver.fileOut Driver.fileErr Driver.fileCount Driver.fileFailsB
  rw [ho]
  simp only []
  by_cases hc : ne = true ∧ d.IgnoreMissing = true
  · rw [if_pos hc, if_pos hc]
    exact ⟨st, rfl, by simp, by simp, rfl, rfl, rfl, by simp [hc.1, hc.2]⟩
  · rw [if_neg hc, if_neg hc]
    have hb : (!(ne && d.IgnoreMissing)) = true := by
      cases ne <;> cases hi : d.IgnoreMissing <;> simp_all
    cases hw : d.Warn
    · exact ⟨_, rfl, by simp, by simp, rfl, rfl, rfl, by simp [hb]⟩
    · exact ⟨_, rfl, by simp, by simp, rfl, rfl, rfl, by simp [hb]⟩

/-- The body of the loop over the manifest files never panics.  On a manifest
that fails to open it ends; on a readable manifest it ends, in a state that
does not depend on the bound, once the bound on the iterations of the line loop
exceeds the number of `ReadString` results of the file, and is not finished
before; on a manifest whose read fails it is never finished. -/
theorem fileStep_cases (d : Driver) (w : World) (prog : Str) (st : RunState) (f : Str) :
    (w.readable [f] = false ∧ ∀ fuel, d.fileStep w prog fuel st f = .unfinished) ∨
    (w.readable [f] = true ∧ ∃ st1,
      (∀ fuel, d.fileStep w prog fuel st f = .done st1 ∨
        d.fileStep w prog fuel st f = .unfinished) ∧
      (∀ fuel, w.readBound [f] ≤ fuel → d.fileStep w prog fuel st f = .done st1) ∧
      st1.stdout = st.stdout ++ d.fileOut w f ∧
      st1.stderr = st.stderr ++ d.fileErr w prog f ∧
      st1.malformed = st.malformed + d.fileCount w LineOutcome.isMalformed f ∧
      st1.total = st.total + d.fileCount w LineOutcome.isValid f ∧
      st1.mismatches = st.mismatches + d.fileCount w LineOutcome.isMismatch f ∧
      st1.code = (if d.fileFailsB w f then 1 else st.code)) := by
  cases ho : w.openFile f with
  | failed ne msg =>
    right
    obtain ⟨st1, h1, hf⟩ := fileStep_failed d w prog 0 st f ne msg ho
    have e : ∀ fuel, d.fileStep w prog fuel st f = d.fileStep w prog 0 st f :=
      fun fuel => by simp only [Driver.fileStep, ho]
    exact ⟨by simp [World.readable, ho], st1, (fun fuel => Or.inl (by rw [e fuel]; exact h1)),
      (fun fuel _ => by rw [e fuel]; exact h1), hf⟩
  | opened c =>
    right
    have hstep : ∀ fuel, d.fileStep w prog fuel st f =
        (d.lineLoop w prog f c true fuel ⟨st, 0, 0, 0⟩).map (d.fileEnd prog f) := by
      intro fuel
      simp only [Driver.fileStep, ho]
    refine ⟨by simp [World.readable, ho],
      d.fileEnd prog f ((d.fileOutcomes w f c).foldl (d.applyOutcome prog) ⟨st, 0, 0, 0⟩),
      fun fuel => ?_, fun fuel hfuel => ?_, fileEnd_fields d w prog st f c ho⟩
    · rw [hstep]
      rcases lineLoop_readable d w prog f c fuel ⟨st, 0, 0, 0⟩ with h | h
      · left; rw [h, afterLines_file]; rfl
      · right; rw [h]; rfl
    · rw [hstep, lineLoop_enough d w prog f c fuel ⟨st, 0, 0, 0⟩
        (by simpa [World.readBound, ho] using hfuel), afterLines_file]
      rfl
  | unreadable c =>
    left
    refine ⟨by simp [World.readable, ho], fun fuel => ?_⟩
    simp only [Driver.fileStep, ho, lineLoop_unreadable]
    rfl
theorem readable_cons (w : World) (f : Str) (more : List Str) :
    w.readable (f :: more) = (w.readable [f] && w.readable more) := by
  simp [World.readable]

theorem readBound_cons (w : World) (f : Str) (more : List Str) :
    w.readBound (f :: more) = w.readBound [f] + w.readBound more := by
  simp [World.readBound]

/-- The loop over the manifest files never panics.  When a manifest of the list
is a file whose read fails, the loop is never finished.  Otherwise it ends, in
a state that does not depend on the bound, once the bound on the iterations of
the line loops is `readBound`, and is not finished before; the state it ends in
is given field by field. -/
theorem fileLoop_cases (d : Driver) (w : World) (prog : Str) (files : List Str) (st : RunState) :
    (w.readable files = false ∧ ∀ fuel, d.fileLoop w prog fuel files st = .unfinished) ∨
    (w.readable files = true ∧ ∃ st1,
      (∀ fuel, d.fileLoop w prog fuel files st = .done st1 ∨
        d.fileLoop w prog fuel files st = .unfinished) ∧
      (∀ fuel, w.readBound files ≤ fuel → d.fileLoop w prog fuel files st = .done st1) ∧
      st1.stdout = st.stdout ++ files.flatMap (d.fileOut w) ∧
      st1.stderr = st.stderr ++ files.flatMap (d.fileErr w prog) ∧
      st1.malformed = st.malformed + d.runCount w LineOutcome.isMalformed files ∧
      st1.total = st.total + d.runCount w LineOutcome.isValid files ∧
      st1.mismatches = st.mismatches + d.runCount w LineOutcome.isMismatch files ∧
      st1.code = (if files.any (d.fileFailsB w) then 1 else st.code)) := by
  induction files generalizing st with
  | nil =>
    right
    exact ⟨rfl, st, fun _ => Or.inl rfl, fun _ _ => rfl, by simp, by simp,
      by simp [Driver.runCount], by simp [Driver.runCount], by simp [Driver.runCount], by simp⟩
  | cons f more ih =>
    rcases fileStep_cases d w prog st f with ⟨hr, hun⟩ | ⟨hr, s1, h1, e1, a1, a2, a3, a4, a5, a6⟩
    · left
      refine ⟨by rw [readable_cons, hr]; rfl, fun fuel => ?_⟩
      simp only [Driver.fileLoop, hun fuel]
    · rcases ih s1 with ⟨hr2, hun2⟩ | ⟨hr2, s2, h2, e2, b1, b2, b3, b4, b5, b6⟩
      · left
        refine ⟨by rw [readable_cons, hr, hr2]; rfl, fun fuel => ?_⟩
        rcases h1 fuel with h | h
        · simp only [Driver.fileLoop, h, hun2 fuel]
        · simp only [Driver.fileLoop, h]
      · right
        refine ⟨by rw [readable_cons, hr, hr2]; rfl, s2, fun fuel => ?_, fun fuel hfuel => ?_,
          ?_, ?_, ?_, ?_, ?_, ?_⟩
        · rcases h1 fuel with h | h
          · simp only [Driver.fileLoop, h]
            exact h2 fuel
          · right
            simp only [Driver.fileLoop, h]
        · rw [readBound_cons] at hfuel
          simp only [Driver.fileLoop, e1 fuel (by omega)]
          exact e2 fuel (by omega)
        · rw [b1, a1, List.flatMap_cons, List.append_assoc]
        · rw [b2, a2, List.flatMap_cons, List.append_assoc]
        · rw [b3, a3]; simp only [Driver.runCount, List.map_cons, List.sum_cons]; omega
        · rw [b4, a4]; simp only [Driver.runCount, List.map_cons, List.sum_cons]; omega
        · rw [b5, a5]; simp only [Driver.runCount, List.map_cons, List.sum_cons]; omega
        · rw [b6, a6]
          by_cases a : d.fileFailsB w f = true <;>
            by_cases b : more.any (d.fileFailsB w) = true <;> simp [a, b]

/-- The summary phase, field by field: it writes the two summary warnings to
standard error and changes nothing else. -/
theorem summary_fields (d : Driver) (w : World) (st : RunState) :
    (d.summary w st).stdout = st.stdout ∧
    (d.summary w st).stderr = st.stderr ++
      d.malformedSummary (w.toLower d.Name ++ lit "sum") st.malformed st.total ++
      d.mismatchSummary (w.toLower d.Name ++ lit "sum") st.mismatches ∧
    (d.summary w st).malformed = st.malformed ∧ (d.summary w st).total = st.total ∧
    (d.summary w st).mismatches = st.mismatches := by
  unfold Driver.summary Driver.malformedSummary Driver.mismatchSummary
  cases hs : d.Status
  · simp only [Bool.not_false, if_true, true_and]
    by_cases h1 : st.malformed > 0 ∧ (d.Warn = true ∨ d.Strict = true ∨ st.total > 0)
    · by_cases h2 : st.malformed = 1 <;> by_cases h3 : st.mismatches > 0 <;>
        by_cases h4 : st.mismatches = 1 <;> simp [h1, h2, h3, h4]
    · by_cases h3 : st.mismatches > 0 <;> by_cases h4 : st.mismatches = 1 <;>
        simp [h1, h3, h4]
  · simp

/-- A run of `checkFiles` never panics.  When a manifest of the list is a file
whose read fails, the run never returns.  Otherwise it returns, with the same
result whatever the bound, once the bound on the iterations of the line loops is
`readBound`.  What it leaves when it returns: standard output is what the
manifests write in order; standard error is what the manifests write followed
by the two summary warnings; the counters are the numbers of malformed lines,
valid lines and mismatches over all manifests; the exit code is 1 when a
manifest fails and 0 otherwise. -/
theorem run_cases (d : Driver) (w : World) (files : List Str) :
    (w.readable files = false ∧ ∀ fuel, d.checkFilesRun w fuel files = .unfinished) ∨
    (w.readable files = true ∧ ∃ st,
      (∀ fuel, d.checkFilesRun w fuel files = .done st ∨
        d.checkFilesRun w fuel files = .unfinished) ∧
      (∀ fuel, w.readBound files ≤ fuel → d.checkFilesRun w fuel files = .done st) ∧
      st.stdout = files.flatMap (d.fileOut w) ∧
      st.stderr = files.flatMap (d.fileErr w (w.toLower d.Name ++ lit "sum")) ++
        d.malformedSummary (w.toLower d.Name ++ lit "sum")
          (d.runCount w LineOutcome.isMalformed files) (d.runCount w LineOutcome.isValid files) ++
        d.mismatchSummary (w.toLower d.Name ++ lit "sum")
          (d.runCount w LineOutcome.isMismatch files) ∧
      st.malformed = d.runCount w LineOutcome.isMalformed files ∧
      st.total = d.runCount w LineOutcome.isValid files ∧
      st.mismatches = d.runCount w LineOutcome.isMismatch files ∧
      st.code = (if files.any (d.fileFailsB w) then 1 else 0)) := by
  rcases fileLoop_cases d w (w.toLower d.Name ++ lit "sum") files ⟨0, 0, 0, 0, [], []⟩ with
    ⟨hr, hun⟩ | ⟨hr, s0, h0, e0, a1, a2, a3, a4, a5, a6⟩
  · left
    exact ⟨hr, fun fuel => by simp only [Driver.checkFilesRun, hun fuel]; rfl⟩
  · right
    obtain ⟨c1, c2, c3, c4, c5⟩ := summary_fields d w s0
    simp only [Nat.zero_add, List.nil_append] at a1 a2 a3 a4 a5
    refine ⟨hr, d.summary w s0, fun fuel => ?_, fun fuel hfuel => ?_, ?_, ?_, ?_, ?_, ?_, ?_⟩
    · rcases h0 fuel with h | h
      · left; simp only [Driver.checkFilesRun, h]; rfl
      · right; simp only [Driver.checkFilesRun, h]; rfl
    · simp only [Driver.checkFilesRun, e0 fuel hfuel]; rfl
    · rw [c1, a1]
    · rw [c2, a2, a3, a4, a5]
    · rw [c3, a3]
    · rw [c4, a4]
    · rw [c5, a5]
    · rw [summary_code, a6]

/-- A run of `checkFiles` that returns: no manifest is a file whose read fails,
and the result is the one of `run_cases`. -/
theorem run_done (d : Driver) (w : World) (fuel : Nat) (files : List Str) (st : RunState)
    (h : d.checkFilesRun w fuel files = .done st) :
    w.readable files = true ∧
    st.stdout = files.flatMap (d.fileOut w) ∧
    st.stderr = files.flatMap (d.fileErr w (w.toLower d.Name ++ lit "sum")) ++
      d.malformedSummary (w.toLower d.Name ++ lit "sum")
        (d.runCount w LineOutcome.isMalformed files) (d.runCount w LineOutcome.isValid files) ++
      d.mismatchSummary (w.toLower d.Name ++ lit "sum")
        (d.runCount w LineOutcome.isMismatch files) ∧
    st.malformed = d.runCount w LineOutcome.isMalformed files ∧
    st.total = d.runCount w LineOutcome.isValid files ∧
    st.mismatches = d.runCount w LineOutcome.isMismatch files ∧
    st.code = (if files.any (d.fileFailsB w) then 1 else 0) := by
  rcases run_cases d w files with ⟨_, hun⟩ | ⟨hr, s, h0, _, hf⟩
  · rw [hun fuel] at h; cases h
  · rcases h0 fuel with h1 | h1
    · rw [h1] at h
      cases h
      exact ⟨hr, hf⟩
    · rw [h1] at h; cases h

/-- A run of `checkFiles` over manifests none of which is a file whose read
fails returns when the bound on the iterations of the line loops is
`readBound`. -/
theorem run_returns (d : Driver) (w : World) (files : List Str) (hr : w.readable files = true) :
    ∃ st, d.checkFilesRun w (w.readBound files) files = .done st := by
  rcases run_cases d w files with ⟨hr', _⟩ | ⟨_, s, _, e0, _⟩
  · rw [hr] at hr'; cases hr'
  · exact ⟨s, e0 _ (le_refl _)⟩

/-- A run of `checkFiles` over manifests one of which is a file whose read
fails never returns. -/
theorem run_unreadable (d : Driver) (w : World) (files : List Str)
    (hr : w.readable files = false) (fuel : Nat) :
    d.checkFilesRun w fuel files = .unfinished := by
  rcases run_cases d w files with ⟨_, hun⟩ | ⟨hr', _⟩
  · exact hun fuel
  · rw [hr] at hr'; cases hr'
/-- The Tag branch either accepts with a pair that does not depend on the file
name and line number, or gives the malformed-line error. -/
theorem tagDecode_shape (d : Driver) (L : Str) :
    ∃ o : Option (Str × Str), ∀ (f : Str) (n : Int),
      tagDecode d L f n =
        match o with
        | some x => .ok x
        | none => .error (malformedMsg d f n) := by
  unfold tagDecode
  simp only []
  cases hidx : indexByte (trimSpace (L.drop d.Name.length)) 0x29 with
  | none => exact ⟨none, fun _ _ => rfl⟩
  | some idx =>
    simp only []
    by_cases h1 : hasPrefix (trimSpace (List.drop (idx + 1)
        (trimSpace (L.drop d.Name.length)))) (lit "=") = true
    · simp only [h1, if_true]
      split_ifs <;> first
        | exact ⟨some _, fun _ _ => rfl⟩
        | exact ⟨none, fun _ _ => rfl⟩
    · simp only [h1, Bool.false_eq_true, if_false]
      exact ⟨none, fun _ _ => rfl⟩

/-- The method `verifyLine` never panics; it either accepts with a pair that
does not depend on the file name and line number, or gives the one
malformed-line error. -/
theorem verifyLine_parse (d : Driver) (l : Str) :
    ∃ o : Option (Str × Str), ∀ (f : Str) (n : Int),
      d.verifyLine l f n =
        some (match o with
          | some x => .ok x
          | none => .error (malformedMsg d f n)) := by
  by_cases hpre : hasPrefix (trimRight l (lit "\r\n\x00")) d.Name = true
  · obtain ⟨o, ho⟩ := tagDecode_shape d (trimRight l (lit "\r\n\x00"))
    exact ⟨o, fun f n => by rw [verifyLine_tag d l f n hpre, ho f n]⟩
  · have hpre' : hasPrefix (trimRight l (lit "\r\n\x00")) d.Name = false := by
      simpa using hpre
    by_cases hacc : gnuAccepts d (trimRight l (lit "\r\n\x00"))
    · exact ⟨some _, fun f n => (verifyLine_gnu d l f n hpre').1 hacc⟩
    · exact ⟨none, fun f n => (verifyLine_gnu d l f n hpre').2 hacc⟩

/-- An accepted line is accepted with the same pair under every file name and
line number. -/
theorem verifyLine_ok_indep (d : Driver) (l f f' : Str) (n n' : Int) (x : Str × Str)
    (h : d.verifyLine l f n = some (.ok x)) : d.verifyLine l f' n' = some (.ok x) := by
  obtain ⟨o, ho⟩ := verifyLine_parse d l
  rw [ho f n] at h
  rw [ho f' n']
  cases o with
  | none => simp at h
  | some y => simpa using h

theorem hexDigit_lower (n : Nat) (h : n < 16) :
    (0x30 ≤ hexDigit n ∧ hexDigit n ≤ 0x39) ∨ (0x61 ≤ hexDigit n ∧ hexDigit n ≤ 0x66) := by
  unfold hexDigit
  split_ifs <;> omega

/-- The digest `computeSum` returns has no upper-case hexadecimal letter. -/
theorem computeSum_no_upper (d : Driver) (data : Str) :
    ∀ b ∈ computeSum d data, ¬ (0x41 ≤ b ∧ b ≤ 0x46) := by
  intro b hb
  simp only [computeSum, hexEncode, List.mem_flatMap, List.mem_cons, List.mem_nil_iff,
    or_false] at hb
  obtain ⟨x, _, rfl | rfl⟩ := hb
  · have := hexDigit_lower (x / 16 % 16) (Nat.mod_lt _ (by decide))
    omega
  · have := hexDigit_lower (x % 16) (Nat.mod_lt _ (by decide))
    omega

/-- A blank line is a malformed line for `verifyLine`. -/
theorem verifyLine_blank (d : Driver) (l f : Str) (n : Int) (hb : isBlank l = true) :
    d.verifyLine l f n = some (.error (malformedMsg d f n)) := by
  have hL : trimRight l (lit "\r\n\x00") = [] := by simpa [isBlank] using hb
  by_cases hpre : hasPrefix (trimRight l (lit "\r\n\x00")) d.Name = true
  · rw [verifyLine_tag d l f n hpre, hL]
    have : tagDecode d [] f n = .error (malformedMsg d f n) := by
      unfold tagDecode
      have e : trimSpace (List.drop d.Name.length []) = [] := by simp; rfl
      simp only [e]
      rfl
    rw [this]
  · have hpre' : hasPrefix (trimRight l (lit "\r\n\x00")) d.Name = false := by
      simpa using hpre
    refine (verifyLine_gnu d l f n hpre').2 (fun hacc => ?_)
    have := hacc.1
    rw [hL] at this
    simp at this

/-- An accepted line is not blank. -/
theorem not_blank_of_ok (d : Driver) (l f : Str) (n : Int) (x : Str × Str)
    (h : d.verifyLine l f n = some (.ok x)) : isBlank l = false := by
  cases hb : isBlank l
  · rfl
  · rw [verifyLine_blank d l f n hb] at h
    simp at h

/-- The outcome of a line in terms of the result of `verifyLine`. -/
theorem outcomeOf_eq (d : Driver) (w : World) (f : Str) (n : Nat) (l : Str)
    (r : Except Str (Str × Str)) (h : d.verifyLine l f n = some r) :
    d.outcomeOf w f (n, l) = d.classify w r := by
  simp [Driver.outcomeOf, h]


/-- The outcome of a line is `malformed` exactly when `verifyLine` rejects it. -/
theorem isMalformed_outcomeOf (d : Driver) (w : World) (f : Str) (n : Nat) (l : Str) :
    (d.outcomeOf w f (n, l)).isMalformed = true ↔ ∃ msg, d.verifyLine l f n = some (.error msg) := by
  obtain ⟨r, hr⟩ := verifyLine_total d l f n
  rw [outcomeOf_eq d w f n l r hr, hr]
  rcases r with msg | ⟨e, p⟩
  · simp [Driver.classify, LineOutcome.isMalformed]
  · cases ho : w.openFile p with
    | failed ne m =>
      by_cases hc : ne = true ∧ d.IgnoreMissing = true <;>
        simp [Driver.classify, ho, hc, LineOutcome.isMalformed]
    | opened data =>
      by_cases hm : computeSum d data = e <;>
        simp [Driver.classify, ho, hm, LineOutcome.isMalformed]
    | unreadable data =>
      by_cases hm : ([] : Str) = e <;>
        simp [Driver.classify, ho, hm, LineOutcome.isMalformed]

/-- The outcome of a line counts as valid exactly when `verifyLine` accepts
it. -/
theorem isValid_outcomeOf (d : Driver) (w : World) (f : Str) (n : Nat) (l : Str) :
    (d.outcomeOf w f (n, l)).isValid = true ↔
      ∃ e p, d.verifyLine l f n = some (.ok (e, p)) := by
  obtain ⟨r, hr⟩ := verifyLine_total d l f n
  rw [outcomeOf_eq d w f n l r hr, hr]
  rcases r with msg | ⟨e, p⟩
  · simp [Driver.classify, LineOutcome.isValid]
  · cases ho : w.openFile p with
    | failed ne m =>
      by_cases hc : ne = true ∧ d.IgnoreMissing = true <;>
        simp [Driver.classify, ho, hc, LineOutcome.isValid]
    | opened data =>
      by_cases hm : computeSum d data = e <;>
        simp [Driver.classify, ho, hm, LineOutcome.isValid]
    | unreadable data =>
      by_cases hm : ([] : Str) = e <;>
        simp [Driver.classify, ho, hm, LineOutcome.isValid]

/-- The outcome of a line is a mismatch exactly when `verifyLine` accepts it,
the target opens and the computed digest differs from the expected one. -/
theorem isMismatch_outcomeOf (d : Driver) (w : World) (f : Str) (n : Nat) (l : Str) :
    (d.outcomeOf w f (n, l)).isMismatch = true ↔
      ∃ e p got, d.verifyLine l f n = some (.ok (e, p)) ∧
        d.targetSum (w.openFile p) = some got ∧ got ≠ e := by
  obtain ⟨r, hr⟩ := verifyLine_total d l f n
  rw [outcomeOf_eq d w f n l r hr, hr]
  rcases r with msg | ⟨e, p⟩
  · simp [Driver.classify, LineOutcome.isMismatch]
  · cases ho : w.openFile p with
    | failed ne m =>
      by_cases hc : ne = true ∧ d.IgnoreMissing = true <;>
        simp [Driver.classify, ho, hc, LineOutcome.isMismatch, Driver.targetSum]
    | opened data =>
      by_cases hm : computeSum d data = e
      · simp [Driver.classify, ho, hm, LineOutcome.isMismatch, Driver.targetSum]
      · simp only [Driver.classify, ho, hm, ne_eq, not_false_eq_true, if_true,
          LineOutcome.isMismatch, true_iff]
        exact ⟨e, p, _, rfl, by rw [ho]; rfl, hm⟩
    | unreadable data =>
      by_cases hm : ([] : Str) = e
      · simp [Driver.classify, ho, hm, LineOutcome.isMismatch, Driver.targetSum]
      · simp only [Driver.classify, ho, hm, ne_eq, not_false_eq_true, if_true,
          LineOutcome.isMismatch, true_iff]
        exact ⟨e, p, _, rfl, by rw [ho]; rfl, hm⟩

/-- The outcome of a line counts as verified exactly when `verifyLine` accepts
the line and the target opens. -/
theorem isVerified_outcomeOf (d : Driver) (w : World) (f : Str) (n : Nat) (l : Str) :
    (d.outcomeOf w f (n, l)).isVerified = true ↔
      ∃ e p got, d.verifyLine l f n = some (.ok (e, p)) ∧
        d.targetSum (w.openFile p) = some got := by
  obtain ⟨r, hr⟩ := verifyLine_total d l f n
  rw [outcomeOf_eq d w f n l r hr, hr]
  rcases r with msg | ⟨e, p⟩
  · simp [Driver.classify, LineOutcome.isVerified]
  · cases ho : w.openFile p with
    | failed ne m =>
      by_cases hc : ne = true ∧ d.IgnoreMissing = true <;>
        simp [Driver.classify, ho, hc, LineOutcome.isVerified, Driver.targetSum]
    | opened data =>
      by_cases hm : computeSum d data = e <;>
        simp only [Driver.classify, ho, hm, ne_eq, not_true_eq_false, not_false_eq_true,
          if_true, if_false, LineOutcome.isVerified, true_iff] <;>
        exact ⟨e, p, _, rfl, by rw [ho]; rfl⟩
    | unreadable data =>
      by_cases hm : ([] : Str) = e <;>
        simp only [Driver.classify, ho, hm, ne_eq, not_true_eq_false, not_false_eq_true,
          if_true, if_false, LineOutcome.isVerified, true_iff] <;>
        exact ⟨e, p, _, rfl, by rw [ho]; rfl⟩

/-- The outcome of a line is `openFailed` exactly when `verifyLine` accepts the
line and the target fails to open and is not skipped as missing. -/
theorem openFailed_outcomeOf (d : Driver) (w : World) (f : Str) (n : Nat) (l : Str) :
    d.outcomeOf w f (n, l) = .openFailed ↔
      ∃ e p ne msg, d.verifyLine l f n = some (.ok (e, p)) ∧
        w.openFile p = .failed ne msg ∧ ¬ (ne = true ∧ d.IgnoreMissing = true) := by
  obtain ⟨r, hr⟩ := verifyLine_total d l f n
  rw [outcomeOf_eq d w f n l r hr, hr]
  rcases r with msg | ⟨e, p⟩
  · simp [Driver.classify]
  · cases ho : w.openFile p with
    | failed ne m =>
      by_cases hc : ne = true ∧ d.IgnoreMissing = true
      · simp [Driver.classify, ho, hc]
      · simp only [Driver.classify, ho, hc, if_false, true_iff]
        exact ⟨e, p, ne, m, rfl, ho, hc⟩
    | opened data =>
      by_cases hm : computeSum d data = e <;> simp [Driver.classify, ho, hm]
    | unreadable data =>
      by_cases hm : ([] : Str) = e <;> simp [Driver.classify, ho, hm]

/-- An outcome raises the failure flag when it is a malformed line under
`strict`, a target that fails to open, or a mismatch. -/
theorem outcomeFails_iff (d : Driver) (o : LineOutcome) :
    d.outcomeFails o = true ↔
      (d.Strict = true ∧ o.isMalformed = true) ∨ o = .openFailed ∨ o.isMismatch = true := by
  cases o <;> simp [Driver.outcomeFails, LineOutcome.isMalformed, LineOutcome.isMismatch]

theorem countP_outcomes_zero (d : Driver) (w : World) (f c : Str) (p : LineOutcome → Bool) :
    (d.fileOutcomes w f c).countP p = 0 ↔
      ∀ n l, (n, l) ∈ manifestLines c → p (d.outcomeOf w f (n, l)) ≠ true := by
  rw [List.countP_eq_zero]
  simp only [Driver.fileOutcomes, List.mem_map]
  constructor
  · intro h n l hnl
    exact h _ ⟨(n, l), hnl, rfl⟩
  · rintro h o ⟨⟨n, l⟩, hnl, rfl⟩
    exact h n l hnl
/-- A manifest one of whose lines has a failing outcome fails. -/
theorem fileFailsB_of_line (d : Driver) (w : World) (f c : Str) (nl : Nat × Str)
    (ho : w.openFile f = .opened c) (hm : nl ∈ manifestLines c)
    (hf : d.outcomeFails (d.outcomeOf w f nl) = true) : d.fileFailsB w f = true := by
  unfold Driver.fileFailsB
  rw [ho]
  have : (d.fileOutcomes w f c).any d.outcomeFails = true := by
    rw [List.any_eq_true]
    exact ⟨_, List.mem_map_of_mem _ hm, hf⟩
  simp [this]

/-- The exit code `checkFiles` returns is the exit code of the state it
returns with. -/
theorem checkFiles_done (d : Driver) (w : World) (fuel : Nat) (files : List Str) (code : Nat) :
    d.checkFiles w fuel files = .done code ↔
      ∃ st, d.checkFilesRun w fuel files = .done st ∧ st.code = code := by
  unfold Driver.checkFiles
  cases h : d.checkFilesRun w fuel files with
  | done st =>
    simp only [Run.map, Run.done.injEq]
    constructor
    · intro e; exact ⟨st, rfl, e⟩
    · rintro ⟨st', e, hc⟩; cases e; exact hc
  | panic => simp [Run.map]
  | unfinished => simp [Run.map]

/-- The exit code of a run that returns: 1 when a manifest fails, 0
otherwise. -/
theorem checkFiles_code (d : Driver) (w : World) (fuel : Nat) (files : List Str) (code : Nat)
    (h : d.checkFiles w fuel files = .done code) :
    code = (if files.any (d.fileFailsB w) then 1 else 0) := by
  obtain ⟨st, hst, hc⟩ := (checkFiles_done d w fuel files code).1 h
  rw [← hc]
  exact (run_done d w fuel files st hst).2.2.2.2.2.2

/-- A run over readable manifests returns its exit code when the bound on the
iterations of the line loops is `readBound`. -/
theorem checkFiles_returns (d : Driver) (w : World) (files : List Str)
    (hr : w.readable files = true) :
    d.checkFiles w (w.readBound files) files =
      .done (if files.any (d.fileFailsB w) then 1 else 0) := by
  obtain ⟨st, hst⟩ := run_returns d w files hr
  have hc := (run_done d w _ files st hst).2.2.2.2.2.2
  rw [← hc]
  exact (checkFiles_done d w _ files st.code).2 ⟨st, hst, rfl⟩

/-- A run over manifests one of which fails returns 1 when it returns, and it
returns when the manifests are readable. -/
theorem checkFiles_of_fails (d : Driver) (w : World) (files : List Str) (f : Str)
    (hf : f ∈ files) (hfail : d.fileFailsB w f = true) :
    (∀ fuel code, d.checkFiles w fuel files = .done code → code = 1) ∧
    (w.readable files = true → d.checkFiles w (w.readBound files) files = .done 1) := by
  have hany : files.any (d.fileFailsB w) = true := by
    rw [List.any_eq_true]; exact ⟨f, hf, hfail⟩
  constructor
  · intro fuel code h
    rw [checkFiles_code d w fuel files code h, if_pos hany]
  · intro hr
    rw [checkFiles_returns d w files hr, if_pos hany]

theorem readable_mem (w : World) (files : List Str) (hr : w.readable files = true) (f : Str)
    (hf : f ∈ files) (c : Str) : w.openFile f ≠ .unreadable c := by
  intro ho
  have := List.all_eq_true.1 hr f hf
  simp [ho] at this

/-- Over readable manifests, some manifest fails exactly when one of the six
events of the exit-code policy occurs. -/
theorem fileFailsB_iff_events (d : Driver) (w : World) (files : List Str)
    (hr : w.readable files = true) :
    files.any (d.fileFailsB w) = true ↔
      ManifestOpenFailure d w files ∨ (d.Strict = true ∧ MalformedLine d w files) ∨
      TargetOpenFailure d w files ∨ DigestMismatch d w files ∨
      (d.Check = true ∧ NoValidLine d w files) ∨
      (d.Check = true ∧ d.IgnoreMissing = true ∧ NoVerifiedTarget d w files) := by
  rw [List.any_eq_true]
  constructor
  · rintro ⟨f, hf, hfail⟩
    unfold Driver.fileFailsB at hfail
    cases ho : w.openFile f with
    | failed ne msg =>
      rw [ho] at hfail
      refine Or.inl ⟨f, hf, ne, msg, ho, ?_⟩
      cases ne <;> cases hi : d.IgnoreMissing <;> simp_all
    | unreadable c => exact absurd ho (readable_mem w files hr f hf c)
    | opened c =>
      rw [ho] at hfail
      simp only [Bool.or_eq_true, Bool.and_eq_true, decide_eq_true_eq, List.any_eq_true] at hfail
      rcases hfail with (⟨o, ho', hfo⟩ | ⟨⟨hc, hi⟩, hz⟩) | ⟨hc, hz⟩
      · simp only [Driver.fileOutcomes, List.mem_map] at ho'
        obtain ⟨⟨n, l⟩, hnl, rfl⟩ := ho'
        rcases (outcomeFails_iff d _).1 hfo with ⟨hs, hm⟩ | hm | hm
        · obtain ⟨msg, hmsg⟩ := (isMalformed_outcomeOf d w f n l).1 hm
          exact Or.inr (Or.inl ⟨hs, f, hf, c, ho, n, l, hnl, msg, hmsg⟩)
        · obtain ⟨e, p, ne, msg, h1, h2, h3⟩ := (openFailed_outcomeOf d w f n l).1 hm
          exact Or.inr (Or.inr (Or.inl ⟨f, hf, c, ho, n, l, hnl, e, p, ne, msg, h1, h2, h3⟩))
        · obtain ⟨e, p, got, h1, h2, h3⟩ := (isMismatch_outcomeOf d w f n l).1 hm
          exact Or.inr (Or.inr (Or.inr (Or.inl ⟨f, hf, c, ho, n, l, hnl, e, p, got, h1, h2, h3⟩)))
      · refine Or.inr (Or.inr (Or.inr (Or.inr (Or.inr ⟨hc, hi, f, hf, c, ho, ?_⟩))))
        intro n l hnl e p hv
        have hnv := (countP_outcomes_zero d w f c _).1 hz n l hnl
        cases hts : d.targetSum (w.openFile p) with
        | none => rfl
        | some got => exact absurd ((isVerified_outcomeOf d w f n l).2 ⟨e, p, got, hv, hts⟩) hnv
      · refine Or.inr (Or.inr (Or.inr (Or.inr (Or.inl ⟨hc, f, hf, c, ho, ?_⟩))))
        intro n l hnl e p hv
        exact (countP_outcomes_zero d w f c _).1 hz n l hnl
          ((isValid_outcomeOf d w f n l).2 ⟨e, p, hv⟩)
  · rintro (⟨f, hf, ne, msg, ho, h⟩ | ⟨hs, f, hf, c, ho, n, l, hm, msg, hv⟩ |
      ⟨f, hf, c, ho, n, l, hm, e, p, ne, msg, hv, h2, h3⟩ |
      ⟨f, hf, c, ho, n, l, hm, e, p, got, hv, h2, h3⟩ | ⟨hc, f, hf, c, ho, hall⟩ |
      ⟨hc, hi, f, hf, c, ho, hall⟩)
    · refine ⟨f, hf, ?_⟩
      unfold Driver.fileFailsB
      rw [ho]
      cases ne <;> cases hi : d.IgnoreMissing <;> simp_all
    · exact ⟨f, hf, fileFailsB_of_line d w f c (n, l) ho hm
        ((outcomeFails_iff d _).2 (Or.inl ⟨hs, (isMalformed_outcomeOf d w f n l).2 ⟨msg, hv⟩⟩))⟩
    · exact ⟨f, hf, fileFailsB_of_line d w f c (n, l) ho hm
        ((outcomeFails_iff d _).2 (Or.inr (Or.inl
          ((openFailed_outcomeOf d w f n l).2 ⟨e, p, ne, msg, hv, h2, h3⟩))))⟩
    · exact ⟨f, hf, fileFailsB_of_line d w f c (n, l) ho hm
        ((outcomeFails_iff d _).2 (Or.inr (Or.inr
          ((isMismatch_outcomeOf d w f n l).2 ⟨e, p, got, hv, h2, h3⟩))))⟩
    · refine ⟨f, hf, ?_⟩
      have hz : (d.fileOutcomes w f c).countP LineOutcome.isValid = 0 :=
        (countP_outcomes_zero d w f c _).2 (fun n l hnl hv => by
          obtain ⟨e, p, hv'⟩ := (isValid_outcomeOf d w f n l).1 hv
          exact hall n l hnl e p hv')
      simp [Driver.fileFailsB, ho, hc, hz]
    · refine ⟨f, hf, ?_⟩
      have hz : (d.fileOutcomes w f c).countP LineOutcome.isVerified = 0 :=
        (countP_outcomes_zero d w f c _).2 (fun n l hnl hv => by
          obtain ⟨e, p, got, hv', hts⟩ := (isVerified_outcomeOf d w f n l).1 hv
          rw [hall n l hnl e p hv'] at hts
          cases hts)
      simp [Driver.fileFailsB, ho, hc, hi, hz]
theorem count_valid_malformed (os : List LineOutcome) :
    os.countP LineOutcome.isValid + os.countP LineOutcome.isMalformed = os.length := by
  induction os with
  | nil => rfl
  | cons o os ih =>
    simp only [List.countP_cons, List.length_cons]
    cases o <;> simp [LineOutcome.isValid, LineOutcome.isMalformed] <;> omega

theorem count_verified_le_valid (os : List LineOutcome) :
    os.countP LineOutcome.isVerified ≤ os.countP LineOutcome.isValid := by
  apply List.countP_mono_left
  intro o _ h
  cases o <;> simp_all [LineOutcome.isValid, LineOutcome.isVerified]

theorem count_mismatch_le_verified (os : List LineOutcome) :
    os.countP LineOutcome.isMismatch ≤ os.countP LineOutcome.isVerified := by
  apply List.countP_mono_left
  intro o _ h
  cases o <;> simp_all [LineOutcome.isMismatch, LineOutcome.isVerified]

/-- The counter invariant holds after any sequence of line outcomes applied to
the state in which a manifest file is opened. -/
theorem counterInv_fold (d : Driver) (prog : Str) (st : RunState) (os : List LineOutcome) :
    CounterInv st (os.foldl (d.applyOutcome prog) ⟨st, 0, 0, 0⟩) := by
  obtain ⟨b1, b2, b3, b4, b5, _, _, _, _⟩ := applyOutcomes_fields d prog os ⟨st, 0, 0, 0⟩
  have h1 := count_valid_malformed os
  have h2 := count_verified_le_valid os
  have h3 := count_mismatch_le_verified os
  have c1 : (os.foldl (d.applyOutcome prog) ⟨st, 0, 0, 0⟩).lineno = os.length := by
    rw [b1]; exact Nat.zero_add _
  have c2 : (os.foldl (d.applyOutcome prog) ⟨st, 0, 0, 0⟩).valid =
      os.countP LineOutcome.isValid := by rw [b2]; exact Nat.zero_add _
  have c3 : (os.foldl (d.applyOutcome prog) ⟨st, 0, 0, 0⟩).verified =
      os.countP LineOutcome.isVerified := by rw [b3]; exact Nat.zero_add _
  have c4 : (os.foldl (d.applyOutcome prog) ⟨st, 0, 0, 0⟩).run.malformed =
      st.malformed + os.countP LineOutcome.isMalformed := b4
  have c5 : (os.foldl (d.applyOutcome prog) ⟨st, 0, 0, 0⟩).run.mismatches =
      st.mismatches + os.countP LineOutcome.isMismatch := b5
  unfold CounterInv
  rw [c1, c2, c3, c4, c5]
  refine ⟨by omega, by omega, by omega, h2, by omega⟩

theorem numberFrom_length (k : Nat) (ls : List Str) : (numberFrom k ls).length = ls.length := by
  induction ls generalizing k with
  | nil => rfl
  | cons l ls ih => simp [numberFrom, ih]

/-- The state after the lines `ls`, read from the state in which a manifest file
is opened, satisfies the counter invariant, and `lineno` is the number of
non-blank lines among them. -/
theorem counterInv_afterLines (d : Driver) (w : World) (prog f : Str) (ls : List Str)
    (st : RunState) :
    CounterInv st (d.afterLines w prog f ls ⟨st, 0, 0, 0⟩) ∧
    (d.afterLines w prog f ls ⟨st, 0, 0, 0⟩).lineno =
      (ls.filter (fun l => !isBlank l)).length := by
  unfold Driver.afterLines
  refine ⟨counterInv_fold d prog st _, ?_⟩
  obtain ⟨b1, _⟩ := applyOutcomes_fields d prog
    ((numberFrom 0 (ls.filter (fun l => !isBlank l))).map (d.outcomeOf w f)) ⟨st, 0, 0, 0⟩
  rw [b1]
  simp [numberFrom_length]

/-- At every point inside an iteration of the line loop that starts in a state
with the counter invariant, the point invariant holds. -/
theorem linePoints_inv (d : Driver) (w : World) (f l : Str) (eof : Bool) (st0 : RunState)
    (fs : FileState) (hinv : CounterInv st0 fs) :
    ∀ p ∈ d.linePoints w f l eof fs, PointInv st0 (fs.lineno + 1) p := by
  obtain ⟨i1, i2, i3, i4, i5⟩ := hinv
  intro p hp
  unfold Driver.linePoints at hp
  split_ifs at hp with h1 h2
  · cases hp
  · cases hp
  · simp only [] at hp
    cases hv : d.verifyLine l f ((fs.lineno + 1 : Nat) : Int) with
    | none =>
      rw [hv] at hp
      simp only [List.mem_singleton] at hp
      subst hp
      exact ⟨i1, i2, rfl, Or.inr (by simp only []; omega), i4, i5⟩
    | some r =>
      rw [hv] at hp
      rcases r with msg | ⟨e, path⟩
      · simp only [List.mem_cons, List.mem_singleton, List.mem_nil_iff, or_false] at hp
        rcases hp with rfl | rfl
        · exact ⟨i1, i2, rfl, Or.inr (by simp only []; omega), i4, i5⟩
        · exact ⟨by simp only []; omega, i2, rfl, Or.inl (by simp only []; omega), i4, i5⟩
      · simp only [] at hp
        cases hts : d.targetSum (w.openFile path) with
        | none =>
          rw [hts] at hp
          simp only [List.mem_cons, List.mem_singleton, List.mem_nil_iff, or_false] at hp
          rcases hp with rfl | rfl
          · exact ⟨i1, i2, rfl, Or.inr (by simp only []; omega), i4, i5⟩
          · exact ⟨i1, i2, rfl, Or.inl (by simp only []; omega), by simp only []; omega, i5⟩
        | some got =>
          rw [hts] at hp
          simp only [] at hp
          split_ifs at hp with hm
          · simp only [List.mem_cons, List.mem_singleton, List.mem_nil_iff, or_false] at hp
            rcases hp with rfl | rfl | rfl | rfl
            · exact ⟨i1, i2, rfl, Or.inr (by simp only []; omega), i4, i5⟩
            · exact ⟨i1, i2, rfl, Or.inl (by simp only []; omega), by simp only []; omega, i5⟩
            · exact ⟨i1, i2, rfl, Or.inl (by simp only []; omega), by simp only []; omega,
                by simp only []; omega⟩
            · exact ⟨i1, by simp only []; omega, rfl, Or.inl (by simp only []; omega),
                by simp only []; omega, by simp only []; omega⟩
          · simp only [List.mem_cons, List.mem_singleton, List.mem_nil_iff, or_false] at hp
            rcases hp with rfl | rfl | rfl
            · exact ⟨i1, i2, rfl, Or.inr (by simp only []; omega), i4, i5⟩
            · exact ⟨i1, i2, rfl, Or.inl (by simp only []; omega), by simp only []; omega, i5⟩
            · exact ⟨i1, i2, rfl, Or.inl (by simp only []; omega), by simp only []; omega,
                by simp only []; omega⟩

theorem runCount_mono (d : Driver) (w : World) (p q : LineOutcome → Bool) (files : List Str)
    (h : ∀ os : List LineOutcome, os.countP p ≤ os.countP q) :
    d.runCount w p files ≤ d.runCount w q files := by
  induction files with
  | nil => simp [Driver.runCount]
  | cons f more ih =>
    simp only [Driver.runCount, List.map_cons, List.sum_cons] at ih ⊢
    have : d.fileCount w p f ≤ d.fileCount w q f := by
      unfold Driver.fileCount
      cases w.openFile f with
      | opened c => exact h _
      | unreadable c => exact h _
      | failed _ _ => exact le_refl _
    omega

/-- The points inside an iteration lead to the state the iteration ends in: on
a non-blank line the list of points is not empty and the counters of its last
point are the counters of the result of `lineStep`. -/
theorem linePoints_last (d : Driver) (w : World) (prog f l : Str) (eof : Bool) (st : FileState)
    (hb : isBlank l = false) :
    ∃ s1 b p, d.lineStep w prog f l eof st = some (s1, b) ∧
      (d.linePoints w f l eof st).getLast? = some p ∧
      p.lineno = s1.lineno ∧ p.valid = s1.valid ∧ p.verified = s1.verified ∧
      p.run.malformed = s1.run.malformed ∧ p.run.mismatches = s1.run.mismatches := by
  have h2 : ¬ trimRight l (lit "\r\n\x00") = [] := by simpa [isBlank] using hb
  have h1 : ¬ (l = [] ∧ eof = true) := by
    rintro ⟨rfl, _⟩
    exact h2 rfl
  obtain ⟨r, hr⟩ := verifyLine_total d l f ((st.lineno + 1 : Nat) : Int)
  unfold Driver.lineStep Driver.linePoints
  rw [if_neg h1, if_neg h2, if_neg h1, if_neg h2]
  simp only [hr]
  rcases r with msg | ⟨expect, path⟩
  · refine ⟨_, _, _, rfl, rfl, ?_⟩
    cases hs : d.Strict <;> cases hw : d.Warn <;> simp
  · cases ho : w.openFile path with
    | failed ne msg =>
      simp only [ho, Driver.targetSum]
      by_cases hc : ne = true ∧ d.IgnoreMissing = true
      · rw [if_pos hc]
        exact ⟨_, _, _, rfl, rfl, rfl, rfl, rfl, rfl, rfl⟩
      · rw [if_neg hc]
        exact ⟨_, _, _, rfl, rfl, rfl, rfl, rfl, rfl, rfl⟩
    | opened data =>
      simp only [ho, Driver.targetSum, Driver.compareSum]
      by_cases hm : computeSum d data = expect
      · simp only [hm, ne_eq, not_true_eq_false, if_false]
        refine ⟨_, _, _, rfl, rfl, ?_⟩
        cases hq : d.Quiet <;> cases hs : d.Status <;> simp
      · simp only [hm, ne_eq, not_false_eq_true, if_true]
        refine ⟨_, _, _, rfl, rfl, ?_⟩
        cases hs : d.Status <;> simp
    | unreadable data =>
      simp only [ho, Driver.targetSum, Driver.compareSum]
      by_cases hm : ([] : Str) = expect
      · simp only [hm, ne_eq, not_true_eq_false, if_false]
        refine ⟨_, _, _, rfl, rfl, ?_⟩
        cases hq : d.Quiet <;> cases hs : d.Status <;> simp
      · simp only [hm, ne_eq, not_false_eq_true, if_true]
        refine ⟨_, _, _, rfl, rfl, ?_⟩
        cases hs : d.Status <;> simp
theorem flatMap_ne_nil_of_mem {α : Type} (l : List α) (g : α → Str) (x : α) (hx : x ∈ l)
    (hg : g x ≠ []) : l.flatMap g ≠ [] := by
  intro h
  rw [List.flatMap_eq_nil_iff] at h
  exact hg (h x hx)

theorem sum_pos_of_mem (l : List Nat) (x : Nat) (hx : x ∈ l) (hp : 0 < x) : 0 < l.sum := by
  induction l with
  | nil => cases hx
  | cons y ys ih =>
    rw [List.sum_cons]
    rcases List.mem_cons.1 hx with rfl | h
    · omega
    · have := ih h
      omega

/-- A line of an opened manifest whose outcome satisfies `p` makes the count of
such lines over the run positive. -/
theorem runCount_pos (d : Driver) (w : World) (p : LineOutcome → Bool) (files : List Str)
    (f c : Str) (nl : Nat × Str) (hf : f ∈ files) (ho : w.openFile f = .opened c)
    (hm : nl ∈ manifestLines c) (hp : p (d.outcomeOf w f nl) = true) :
    0 < d.runCount w p files := by
  unfold Driver.runCount
  refine sum_pos_of_mem _ (d.fileCount w p f) (List.mem_map_of_mem _ hf) ?_
  unfold Driver.fileCount
  rw [ho]
  exact List.countP_pos_iff.2 ⟨_, List.mem_map_of_mem _ hm, hp⟩

/-- With `status` unset, each event that makes `checkFiles` fail, apart from a
target that fails to open and a manifest that fails to open without `warn`,
leaves a diagnostic on standard error. -/
theorem stderr_of_events (d : Driver) (w : World) (files : List Str) (st : RunState)
    (hs : d.Status = false)
    (herr : st.stderr = files.flatMap (d.fileErr w (w.toLower d.Name ++ lit "sum")) ++
        d.malformedSummary (w.toLower d.Name ++ lit "sum")
          (d.runCount w LineOutcome.isMalformed files) (d.runCount w LineOutcome.isValid files) ++
        d.mismatchSummary (w.toLower d.Name ++ lit "sum")
          (d.runCount w LineOutcome.isMismatch files))
    (hev : (d.Warn = true ∧ ManifestOpenFailure d w files) ∨
      (d.Strict = true ∧ MalformedLine d w files) ∨ DigestMismatch d w files ∨
      (d.Check = true ∧ NoValidLine d w files) ∨
      (d.Check = true ∧ d.IgnoreMissing = true ∧ NoVerifiedTarget d w files)) :
    st.stderr ≠ [] := by
  have hfile : ∀ f ∈ files, d.fileErr w (w.toLower d.Name ++ lit "sum") f ≠ [] →
      st.stderr ≠ [] := by
    intro f hf hne h
    rw [herr] at h
    simp only [List.append_eq_nil] at h
    exact flatMap_ne_nil_of_mem _ _ f hf hne h.1.1
  rcases hev with ⟨hw, f, hf, ne, msg, ho, hni⟩ | ⟨hst, f, hf, c, ho, n, l, hnl, hmal⟩ |
    ⟨f, hf, c, ho, n, l, hnl, hmis⟩ | ⟨hc, f, hf, c, ho, hall⟩ | ⟨hc, him, f, hf, c, ho, hall⟩
  · apply hfile f hf
    unfold Driver.fileErr
    rw [ho]
    simp only
    rw [if_neg hni, if_pos hw]
    simp [lit]
  · have hpos := runCount_pos d w LineOutcome.isMalformed files f c (n, l) hf ho hnl
      ((isMalformed_outcomeOf d w f n l).2 hmal)
    intro h
    rw [herr] at h
    simp only [List.append_eq_nil] at h
    have h2 := h.1.2
    unfold Driver.malformedSummary at h2
    rw [if_pos ⟨hs, hpos, Or.inr (Or.inl hst)⟩] at h2
    split_ifs at h2 <;> simp [lit] at h2
  · have hpos := runCount_pos d w LineOutcome.isMismatch files f c (n, l) hf ho hnl
      ((isMismatch_outcomeOf d w f n l).2 hmis)
    intro h
    rw [herr] at h
    simp only [List.append_eq_nil] at h
    have h2 := h.2
    unfold Driver.mismatchSummary at h2
    rw [if_pos ⟨hs, hpos⟩] at h2
    split_ifs at h2 <;> simp [lit] at h2
  · apply hfile f hf
    unfold Driver.fileErr
    rw [ho]
    simp only
    have hz : (d.fileOutcomes w f c).countP LineOutcome.isValid = 0 :=
      (countP_outcomes_zero d w f c _).2 (fun n l hnl hv => by
        obtain ⟨e, p, hv'⟩ := (isValid_outcomeOf d w f n l).1 hv
        exact hall n l hnl e p hv')
    rw [if_pos hz]
    simp [lit]
  · apply hfile f hf
    unfold Driver.fileErr
    rw [ho]
    simp only
    have hz : (d.fileOutcomes w f c).countP LineOutcome.isVerified = 0 :=
      (countP_outcomes_zero d w f c _).2 (fun n l hnl hv => by
        obtain ⟨e, p, got, hv', hts⟩ := (isVerified_outcomeOf d w f n l).1 hv
        rw [hall n l hnl e p hv'] at hts
        cases hts)
    rw [if_pos ⟨hc, him, hz⟩]
    simp [lit]

theorem flatMap_congr_mem {α : Type} (l : List α) (g h : α → Str)
    (hgh : ∀ x ∈ l, g x = h x) : l.flatMap g = l.flatMap h := by
  induction l with
  | nil => rfl
  | cons x xs ih =>
    rw [List.flatMap_cons, List.flatMap_cons, hgh x (List.mem_cons_self _ _),
      ih (fun y hy => hgh y (List.mem_cons_of_mem _ hy))]

/-- With `status` and `quiet` unset, what a line writes to standard output is
its verdict line. -/
theorem outText_verdict (d : Driver) (w : World) (f : Str) (nl : Nat × Str)
    (hs : d.Status = false) (hq : d.Quiet = false) :
    d.outText (d.outcomeOf w f nl) = d.verdictLine w f nl := by
  obtain ⟨r, hr⟩ := verifyLine_total d nl.2 f nl.1
  unfold Driver.outcomeOf Driver.verdictLine
  rw [hr]
  rcases r with msg | ⟨e, p⟩
  · simp [Driver.classify, Driver.outText]
  · cases ho : w.openFile p with
    | failed ne m =>
      by_cases hc : ne = true ∧ d.IgnoreMissing = true <;>
        simp [Driver.classify, ho, hc, Driver.outText]
    | opened data =>
      by_cases hm : computeSum d data = e <;>
        simp [Driver.classify, ho, hm, Driver.outText, hs, hq]
    | unreadable data =>
      by_cases hm : ([] : Str) = e <;>
        simp [Driver.classify, ho, hm, Driver.outText, hs, hq]

/-- With `status` and `quiet` unset, what a manifest writes to standard output
is its report. -/
theorem fileOut_report (d : Driver) (w : World) (f : Str)
    (hs : d.Status = false) (hq : d.Quiet = false) : d.fileOut w f = d.report w f := by
  unfold Driver.fileOut Driver.report
  cases w.openFile f with
  | failed _ _ => rfl
  | opened c =>
    simp only [Driver.fileOutcomes, List.flatMap_map]
    exact flatMap_congr_mem _ _ _ (fun nl _ => outText_verdict d w f nl hs hq)
  | unreadable c =>
    simp only [Driver.fileOutcomes, List.flatMap_map]
    exact flatMap_congr_mem _ _ _ (fun nl _ => outText_verdict d w f nl hs hq)

/-- With `status` set, a run of `checkFiles` that returns has written nothing
to standard output and no summary warning. -/
theorem status_stdout_empty (d : Driver) (w : World) (fuel : Nat) (files : List Str)
    (st : RunState) (hs : d.Status = true) (h : d.checkFilesRun w fuel files = .done st) :
    st.stdout = [] ∧
      st.stderr = files.flatMap (d.fileErr w (w.toLower d.Name ++ lit "sum")) := by
  obtain ⟨_, hout, herr, _⟩ := run_done d w fuel files st h
  refine ⟨?_, ?_⟩
  · rw [hout, List.flatMap_eq_nil_iff]
    intro f _
    unfold Driver.fileOut
    cases w.openFile f with
    | failed _ _ => rfl
    | opened c =>
      simp only
      rw [List.flatMap_eq_nil_iff]
      intro o _
      cases o <;> simp [Driver.outText, hs]
    | unreadable c =>
      simp only
      rw [List.flatMap_eq_nil_iff]
      intro o _
      cases o <;> simp [Driver.outText, hs]
  · rw [herr]
    simp [Driver.malformedSummary, Driver.mismatchSummary, hs]

/-- Whether a manifest raises the failure flag does not depend on `quiet`,
`status` and `warn`. -/
theorem fileFailsB_flags (d : Driver) (w : World) (q s v : Bool) (f : Str) :
    ({ d with Quiet := q, Status := s, Warn := v } : Driver).fileFailsB w f = d.fileFailsB w f :=
  rfl

theorem flatMap_filter_of_nil {α : Type} (l : List α) (q : α → Bool) (g : α → Str)
    (h : ∀ x, q x = false → g x = []) : (l.filter q).flatMap g = l.flatMap g := by
  induction l with
  | nil => rfl
  | cons x xs ih =>
    cases hq : q x
    · rw [List.filter_cons_of_neg (by simp [hq]), List.flatMap_cons, h x hq, ih]
      rfl
    · rw [List.filter_cons_of_pos hq, List.flatMap_cons, List.flatMap_cons, ih]

theorem any_filter_of_false {α : Type} (l : List α) (q h : α → Bool)
    (hq : ∀ x, q x = false → h x = false) : (l.filter q).any h = l.any h := by
  induction l with
  | nil => rfl
  | cons x xs ih =>
    cases hx : q x
    · rw [List.filter_cons_of_neg (by simp [hx]), List.any_cons, hq x hx, ih]
      rfl
    · rw [List.filter_cons_of_pos hx, List.any_cons, List.any_cons, ih]

theorem any_map_fun {α β : Type} (l : List α) (k : α → β) (h : β → Bool) :
    (l.map k).any h = l.any (fun x => h (k x)) := by
  induction l with
  | nil => rfl
  | cons x xs ih => rw [List.map_cons, List.any_cons, List.any_cons, ih]

/-- Under `ignoreMissing`, a line that names a missing target has the outcome
`skipped`, whatever the manifest and the line number. -/
theorem missing_skipped (d : Driver) (w : World) (l : Str) (him : d.IgnoreMissing = true)
    (hm : d.missingTarget w l = true) : d.outcomeOf w [] (0, l) = .skipped := by
  obtain ⟨r, hr⟩ := verifyLine_total d l [] 0
  unfold Driver.missingTarget at hm
  rw [hr] at hm
  have hr' : d.verifyLine l [] ((0 : Nat) : Int) = some r := hr
  rw [outcomeOf_eq d w [] 0 l r hr']
  rcases r with msg | ⟨e, p⟩
  · simp at hm
  · cases ho : w.openFile p with
    | failed ne m =>
      simp only [ho] at hm
      simp [Driver.classify, ho, hm, him]
    | opened data =>
      simp [ho] at hm
    | unreadable data =>
      simp [ho] at hm

/-- The outcome of an accepted line does not depend on the manifest name and
the line number. -/
theorem outcomeOf_canonical (d : Driver) (w : World) (f : Str) (nl : Nat × Str) (x : Str × Str)
    (h : d.verifyLine nl.2 f nl.1 = some (.ok x)) :
    d.outcomeOf w f nl = d.outcomeOf w [] (0, nl.2) := by
  have h0 : d.verifyLine nl.2 [] ((0 : Nat) : Int) = some (.ok x) :=
    verifyLine_ok_indep d nl.2 f [] nl.1 _ x h
  rw [outcomeOf_eq d w [] 0 nl.2 _ h0]
  obtain ⟨n, l⟩ := nl
  exact outcomeOf_eq d w f n l _ h

/-- The outcomes of a manifest of accepted lines, from the text of the lines
alone. -/
theorem fileOutcomes_canonical (d : Driver) (w : World) (f c : Str)
    (hwell : ∀ nl ∈ manifestLines c, ∃ x, d.verifyLine nl.2 f nl.1 = some (.ok x)) :
    d.fileOutcomes w f c =
      ((manifestLines c).map Prod.snd).map (fun l => d.outcomeOf w [] (0, l)) := by
  unfold Driver.fileOutcomes
  rw [List.map_map]
  apply List.map_congr_left
  intro nl hnl
  obtain ⟨x, hx⟩ := hwell nl hnl
  exact outcomeOf_canonical d w f nl x hx

/-- A manifest with a verified target fails exactly when the outcome of one of
its lines fails. -/
theorem fileFailsB_of_verified (d : Driver) (w : World) (f c : Str)
    (ho : w.openFile f = .opened c)
    (hv : ∃ o ∈ d.fileOutcomes w f c, o.isVerified = true) :
    d.fileFailsB w f = (d.fileOutcomes w f c).any d.outcomeFails := by
  have h1 : 0 < (d.fileOutcomes w f c).countP LineOutcome.isVerified :=
    List.countP_pos_iff.2 hv
  have h2 := count_verified_le_valid (d.fileOutcomes w f c)
  have e1 : decide ((d.fileOutcomes w f c).countP LineOutcome.isVerified = 0) = false :=
    decide_eq_false (by omega)
  have e2 : decide ((d.fileOutcomes w f c).countP LineOutcome.isValid = 0) = false :=
    decide_eq_false (by omega)
  unfold Driver.fileFailsB
  rw [ho]
  simp only [e1, e2, Bool.and_false, Bool.or_false]

theorem readable_opened (w : World) (f c : Str) (ho : w.openFile f = .opened c) :
    w.readable [f] = true := by
  simp [World.readable, ho]

/-- What a run over one manifest of accepted lines with a verified target
leaves: it returns, with the standard output and the exit code given by the text
of the lines. -/
theorem run_single_canonical (d : Driver) (w : World) (f c : Str) (ls : List Str)
    (ho : w.openFile f = .opened c)
    (hos : d.fileOutcomes w f c = ls.map (fun l => d.outcomeOf w [] (0, l)))
    (hv : ∃ l ∈ ls, (d.outcomeOf w [] (0, l)).isVerified = true) :
    ∃ st, (∀ fuel, w.readBound [f] ≤ fuel → d.checkFilesRun w fuel [f] = .done st) ∧
      st.stdout = ls.flatMap (fun l => d.outText (d.outcomeOf w [] (0, l))) ∧
      st.code = if ls.any (fun l => d.outcomeFails (d.outcomeOf w [] (0, l))) then 1 else 0 := by
  rcases run_cases d w [f] with ⟨hr, _⟩ | ⟨_, st, _, hrun, hout, _, _, _, _, hcode⟩
  · rw [readable_opened w f c ho] at hr; cases hr
  refine ⟨st, hrun, ?_, ?_⟩
  · rw [hout]
    simp only [List.flatMap_cons, List.flatMap_nil, List.append_nil]
    unfold Driver.fileOut
    rw [ho]
    simp only
    rw [hos, List.flatMap_map]
  · rw [hcode]
    have hv' : ∃ o ∈ d.fileOutcomes w f c, o.isVerified = true := by
      obtain ⟨l, hl, hlv⟩ := hv
      rw [hos]
      exact ⟨_, List.mem_map_of_mem _ hl, hlv⟩
    simp only [List.any_cons, List.any_nil, Bool.or_false]
    rw [fileFailsB_of_verified d w f c ho hv', hos, any_map_fun]
/-- The error message of the legacy parser is the message of the generic parser
configured with the name `MD5`. -/
theorem legacy_msg (d : Driver) (hname : d.Name = lit "MD5") (f : Str) (n : Int) :
    f ++ lit ": " ++ decimal n ++ lit ": improperly formatted MD5 checksum line" =
      malformedMsg d f n := by
  unfold malformedMsg
  rw [hname]
  have e : lit ": improperly formatted MD5 checksum line" =
      lit ": improperly formatted " ++ (lit "MD5" ++ lit " checksum line") := by decide
  rw [e]
  simp only [List.append_assoc]

/-- The hexadecimal test of the legacy parser is the test of the generic one. -/
theorem legacy_hex (s : Str) :
    (runes s).all (fun r =>
      decide ((0x30 ≤ r ∧ r ≤ 0x39) ∨ (0x61 ≤ r ∧ r ≤ 0x66) ∨ (0x41 ≤ r ∧ r ≤ 0x46))) =
      s.all isHexByte := by
  rw [← runes_all_hex]
  congr 1
  funext r
  rw [hexChars_iff]
  rfl

/-- The GNU branch of the legacy parser, in closed form. -/
theorem legacy_gnu (d : Driver) (hname : d.Name = lit "MD5") (hsize : d.Size = 16)
    (line f : Str) (n : Int)
    (hpre : hasPrefix (trimRight line (lit "\r\n\x00")) (lit "MD5") = false) :
    (gnuAccepts d (trimRight line (lit "\r\n\x00")) →
      legacyVerifyLine line f n =
        some (.ok ((trimRight line (lit "\r\n\x00")).take (d.Size * 2),
          (trimRight line (lit "\r\n\x00")).drop (namePos d (trimRight line (lit "\r\n\x00")))))) ∧
    (¬ gnuAccepts d (trimRight line (lit "\r\n\x00")) →
      legacyVerifyLine line f n = some (.error (malformedMsg d f n))) := by
  generalize hL : trimRight line (lit "\r\n\x00") = L at hpre
  have e32 : d.Size * 2 = 32 := by omega
  have hN : namePos d L = if L.getD 34 0 = 0x20 then 35 else 34 := by
    unfold namePos
    simp only [hsize, Nat.reduceMul, Nat.reduceAdd]
  have hG : gnuAccepts d L ↔ (35 ≤ L.length ∧ (∀ b ∈ L.take 32, isHexByte b = true) ∧
      L.getD 32 0 = 0x20 ∧ (L.getD 33 0 = 0x20 ∨ L.getD 33 0 = 0x2A) ∧
      L.drop (if L.getD 34 0 = 0x20 then 35 else 34) ≠ []) := by
    unfold gnuAccepts
    rw [hN]
    simp only [hsize, Nat.reduceMul, Nat.reduceAdd]
  rw [e32, hN]
  generalize gnuAccepts d L = P at hG
  unfold legacyVerifyLine
  simp only [hL, hpre, Bool.false_eq_true, if_false, Option.bind_eq_bind, Option.pure_def,
    legacy_msg d hname, Nat.reduceAdd]
  by_cases hlen : L.length < 34
  · simp only [hlen, if_true]
    refine ⟨fun h => absurd (hG.1 h).1 (by omega), fun _ => trivial⟩
  · simp only [hlen, if_false]
    have h1 : sliceTo L 32 = some (L.take 32) := by
      simp [sliceTo]; omega
    have h2 : index L 32 = some (L.getD 32 0) := index_lt L _ (by omega)
    have h3 : index L 33 = some (L.getD 33 0) := index_lt L _ (by omega)
    simp only [h1, h2, h3, Option.some_bind]
    by_cases c1 : L.getD 32 0 = 0x20
    · by_cases c2 : L.getD 33 0 = 0x20 ∨ L.getD 33 0 = 0x2A
      · have c2' : ¬ (L.getD 33 0 ≠ 0x20 ∧ L.getD 33 0 ≠ 0x2A) := by tauto
        have hpos : (if 34 < L.length ∧ L.getD 34 0 = 0x20 then 35 else 34) =
            (if L.getD 34 0 = 0x20 then 35 else 34) := by
          by_cases c3 : L.getD 34 0 = 0x20
          · have : 34 < L.length := by
              by_contra hge
              exact getD_ne_of_ge L _ 0x20 (by omega) (by decide) c3
            rw [if_pos ⟨this, c3⟩, if_pos c3]
          · rw [if_neg (fun h => c3 h.2), if_neg c3]
        have hpl : (if L.getD 34 0 = 0x20 then 35 else 34) ≤ L.length := by
          by_cases c3 : L.getD 34 0 = 0x20
          · have : 34 < L.length := by
              by_contra hge
              exact getD_ne_of_ge L _ 0x20 (by omega) (by decide) c3
            rw [if_pos c3]
            omega
          · rw [if_neg c3]
            omega
        have h4 : sliceFrom L (if L.getD 34 0 = 0x20 then 35 else 34) =
            some (L.drop (if L.getD 34 0 = 0x20 then 35 else 34)) := by
          simp only [sliceFrom, hpl, if_true]
        simp only [c1, c2', ne_eq, not_true_eq_false, if_false, hpos, h4, Option.some_bind]
        by_cases c4 : L.drop (if L.getD 34 0 = 0x20 then 35 else 34) = []
        · simp only [c4, if_true]
          exact ⟨fun h => absurd c4 (hG.1 h).2.2.2.2, fun _ => trivial⟩
        · have h35 : 35 ≤ L.length := by
            have : (if L.getD 34 0 = 0x20 then 35 else 34) < L.length := by
              by_contra hge
              exact c4 (List.drop_eq_nil_of_le (by omega))
            split_ifs at this <;> omega
          simp only [c4, if_false, legacy_hex]
          by_cases c5 : (L.take 32).all isHexByte = true
          · simp only [c5, if_true]
            refine ⟨fun _ => trivial, fun h => absurd (hG.2 ⟨h35, ?_, c1, c2, c4⟩) h⟩
            simpa using c5
          · simp only [c5, Bool.false_eq_true, if_false]
            refine ⟨fun h => absurd ?_ c5, fun _ => trivial⟩
            simpa using (hG.1 h).2.1
      · have c2' : L.getD 33 0 ≠ 0x20 ∧ L.getD 33 0 ≠ 0x2A := by tauto
        simp only [c1, ne_eq, not_true_eq_false, if_false, c2', not_false_eq_true, and_self, if_true]
        exact ⟨fun h => absurd (hG.1 h).2.2.2.1 c2, fun _ => trivial⟩
    · simp only [c1, ne_eq, not_false_eq_true, if_true]
      exact ⟨fun h => absurd (hG.1 h).2.2.1 c1, fun _ => trivial⟩

/-- The Tag branch of the legacy parser computes `tagDecode` when the remainder
starts with `(` or holds no `)`. -/
theorem legacy_tag (d : Driver) (hname : d.Name = lit "MD5") (hsize : d.Size = 16)
    (line f : Str) (n : Int)
    (hpre : hasPrefix (trimRight line (lit "\r\n\x00")) (lit "MD5") = true)
    (hcond : hasPrefix (trimSpace ((trimRight line (lit "\r\n\x00")).drop 3)) (lit "(") = true ∨
      indexByte (trimSpace ((trimRight line (lit "\r\n\x00")).drop 3)) 0x29 = none) :
    legacyVerifyLine line f n = some (tagDecode d (trimRight line (lit "\r\n\x00")) f n) := by
  generalize hL : trimRight line (lit "\r\n\x00") = L at hpre hcond
  have e32 : d.Size * 2 = 32 := by omega
  have e3 : d.Name.length = 3 := by rw [hname]; rfl
  unfold legacyVerifyLine tagDecode
  have h0 : sliceFrom L 3 = some (L.drop 3) := by
    have := hasPrefix_length L _ hpre
    have h3 : 3 ≤ L.length := by simpa [lit] using this
    simp only [sliceFrom, h3, if_true]
  simp only [hL, hpre, if_true, h0, Option.bind_eq_bind, Option.some_bind, Option.pure_def,
    legacy_msg d hname, e3, e32]
  generalize trimSpace (L.drop 3) = rest at hcond
  cases hidx : indexByte rest 0x29 with
  | none => rfl
  | some idx =>
    simp only []
    have p1 : hasPrefix rest (lit "(") = true := by
      rcases hcond with h | h
      · exact h
      · rw [hidx] at h; cases h
    have hlt := indexByte_lt rest 0x29 idx hidx
    have h1 : sliceFrom rest (idx + 1) = some (rest.drop (idx + 1)) := by
      simp [sliceFrom]; omega
    have hpost : ∀ post : Str, hasPrefix post (lit "=") = true →
        sliceFrom post 1 = some (post.drop 1) := by
      intro post hp
      have := hasPrefix_length post _ hp
      have h1 : 1 ≤ post.length := by simpa [lit] using this
      simp only [sliceFrom, h1, if_true]
    simp only [p1, if_true]
    rcases rest with _ | ⟨b, r⟩
    · simp [hasPrefix, lit] at p1
    · have hb : 0x28 = b := by simpa [hasPrefix, lit] using p1
      obtain ⟨j, hj, _⟩ := indexByte_pos b 0x29 idx r (by omega) hidx
      have hs : slice (b :: r) 1 idx = some (((b :: r).take idx).drop 1) := by
        simp only [slice, List.length_cons] at hlt ⊢
        rw [if_pos ⟨by omega, by omega⟩]
      rw [hs, Option.some_bind]
      simp only [h1, Option.some_bind]
      by_cases p3 : hasPrefix (trimSpace ((b :: r).drop (idx + 1))) (lit "=") = true
      · simp only [p3, if_true, hpost _ p3, Option.some_bind]
        split_ifs <;> rfl
      · simp only [p3, Bool.false_eq_true, if_false]

/-- What `trimLeftSpaceAux` returns does not start with a white-space rune. -/
theorem trimLeftSpaceAux_head (s : Str) : ∀ k : Nat,
    trimLeftSpaceAux k s = [] ∨ ∃ b r, trimLeftSpaceAux k s = b :: r ∧
      isSpace (decodeRune (b :: r)).1 = false := by
  induction s with
  | nil => intro k; left; cases k <;> rfl
  | cons b rest ih =>
    intro k
    cases k with
    | succ k => simpa [trimLeftSpaceAux] using ih k
    | zero =>
      simp only [trimLeftSpaceAux]
      cases hsp : isSpace (decodeRune (b :: rest)).1
      · right
        exact ⟨b, rest, by simp, hsp⟩
      · simpa using ih _

/-- What `trimRightSpaceAux` returns is a suffix of its argument. -/
theorem trimRightSpaceAux_suffix (s : Str) : ∀ k : Nat, ∃ x, s = x ++ trimRightSpaceAux k s := by
  induction s with
  | nil => intro k; exact ⟨[], by cases k <;> rfl⟩
  | cons b rest ih =>
    intro k
    cases k with
    | succ k =>
      obtain ⟨x, hx⟩ := ih k
      refine ⟨b :: x, ?_⟩
      simp only [trimRightSpaceAux, List.cons_append]
      rw [← hx]
    | zero =>
      simp only [trimRightSpaceAux]
      split_ifs
      · obtain ⟨x, hx⟩ := ih ((decodeLastRune (b :: rest).reverse).2 - 1)
        refine ⟨b :: x, ?_⟩
        rw [List.cons_append, ← hx]
      · exact ⟨[], rfl⟩

/-- The result of `strings.TrimSpace` does not start with a space. -/
theorem trimSpace_no_space (s t : Str) : trimSpace s ≠ 0x20 :: t := by
  intro h
  unfold trimSpace at h
  obtain ⟨x, hx⟩ := trimRightSpaceAux_suffix (trimLeftSpaceAux 0 s).reverse 0
  have h2 : trimLeftSpaceAux 0 s = (0x20 :: t) ++ x.reverse := by
    have := congrArg List.reverse hx
    rw [List.reverse_reverse, List.reverse_append, h] at this
    exact this
  rcases trimLeftSpaceAux_head s 0 with h0 | ⟨b, r, h1, hsp⟩
  · rw [h0] at h2; cases h2
  · rw [h1] at h2
    simp only [List.cons_append, List.cons.injEq] at h2
    obtain ⟨rfl, _⟩ := h2
    have : (decodeRune (0x20 :: r)).1 = 0x20 := by
      simp [decodeRune]
    rw [this] at hsp
    exact absurd hsp (by decide)

/-- A manifest of blank lines has no manifest line. -/
theorem manifestLines_of_blank (c : Str)
    (hblank : ∀ l ∈ (readStrings c).map Prod.fst, isBlank l = true) : manifestLines c = [] := by
  have : ((readStrings c).map Prod.fst).filter (fun l => !isBlank l) = [] := by
    rw [List.filter_eq_nil_iff]
    intro l hl
    simp [hblank l hl]
  simp [manifestLines, this, numberFrom]

/-- The numbered lines of the manifest `two`. -/
theorem manifestLines_two :
    manifestLines (lit
      "d41d8cd98f00b204e9800998ecf8427e  empty.txt\n00000000000000000000000000000000  empty.txt\n")
    = [(1, lit "d41d8cd98f00b204e9800998ecf8427e  empty.txt\n"),
       (2, lit "00000000000000000000000000000000  empty.txt\n")] := by
  decide

/-- The numbered lines of the manifest `miss`. -/
theorem manifestLines_miss :
    manifestLines (lit
      "d41d8cd98f00b204e9800998ecf8427e  empty.txt\nd41d8cd98f00b204e9800998ecf8427e  nosuch\n")
    = [(1, lit "d41d8cd98f00b204e9800998ecf8427e  empty.txt\n"),
       (2, lit "d41d8cd98f00b204e9800998ecf8427e  nosuch\n")] := by
  decide

/-! ## The claims -/

/-- C1, counterexample: the name `a\b` has no control character, yet the line
`printSum` writes for it in GNU text mode, which starts with the escape marker,
is rejected by `verifyLine`. -/
theorem backslash_name_rejected :
    (lit "d41d8cd98f00b204e9800998ecf8427e").length = exampleDriver.Size * 2 ∧
    (∀ b ∈ lit "d41d8cd98f00b204e9800998ecf8427e", isHexByte b = true) ∧
    (∀ b ∈ lit "a\\b", 32 ≤ b ∧ b ≠ 127) ∧
    exampleDriver.printSum (lit "d41d8cd98f00b204e9800998ecf8427e") (lit "a\\b") =
      lit "\\d41d8cd98f00b204e9800998ecf8427e  a\\\\b\n" ∧
    exampleDriver.verifyLine
        (exampleDriver.printSum (lit "d41d8cd98f00b204e9800998ecf8427e") (lit "a\\b"))
        (lit "sums") 1 =
      some (.error (lit "sums: 1: improperly formatted MD5 checksum line")) := by
  refine ⟨by decide, by decide, by decide, by rfl, by rfl⟩

/-- Why the amended round trip asks for a name that does not start with a space:
`verifyLine` skips one further space after the mode marker. -/
theorem leading_space_name_shortened :
    exampleDriver.verifyLine
        (exampleDriver.printSum (lit "d41d8cd98f00b204e9800998ecf8427e") (lit " a"))
        (lit "sums") 1 =
      some (.ok (lit "d41d8cd98f00b204e9800998ecf8427e", lit "a")) := by
  rfl

/-- Why the amended round trip asks for a non-empty name. -/
theorem empty_name_rejected :
    exampleDriver.verifyLine
        (exampleDriver.printSum (lit "d41d8cd98f00b204e9800998ecf8427e") [])
        (lit "sums") 1 =
      some (.error (lit "sums: 1: improperly formatted MD5 checksum line")) := by
  rfl

/-- Why the amended round trip asks for a valid UTF-8 name: `escapeName` rewrites
an invalid byte, and the line then carries the escape marker. -/
theorem invalid_utf8_name_rejected :
    exampleDriver.printSum (lit "d41d8cd98f00b204e9800998ecf8427e") [0xFF] =
      lit "\\d41d8cd98f00b204e9800998ecf8427e  " ++ [0xEF, 0xBF, 0xBD, 0x0A] ∧
    exampleDriver.verifyLine
        (exampleDriver.printSum (lit "d41d8cd98f00b204e9800998ecf8427e") [0xFF])
        (lit "sums") 1 =
      some (.error (lit "sums: 1: improperly formatted MD5 checksum line")) := by
  refine ⟨by rfl, by rfl⟩

/-- Why the amended round trip asks that the line not start with the algorithm
name: under a driver whose name is made of hexadecimal digits a digest can
start with it, and the line is then read as a Tag-dialect line. -/
theorem algorithm_name_prefix_rejected :
    Driver.verifyLine { exampleDriver with Name := lit "d41d" }
        (Driver.printSum { exampleDriver with Name := lit "d41d" }
          (lit "d41d8cd98f00b204e9800998ecf8427e") (lit "empty.txt"))
        (lit "sums") 1 =
      some (.error (lit "sums: 1: improperly formatted d41d checksum line")) := by
  rfl

/-- C1, amended: for a digest of exactly `Size * 2` hexadecimal characters and a
name that is non-empty, valid UTF-8, free of control bytes and of backslashes
and not starting with a space, `verifyLine` applied to the line `printSum`
writes in GNU text mode with newline termination returns `(digest, name)`,
provided the line does not start with the algorithm name. -/
theorem gnu_roundtrip (d : Driver) (digest name fname : Str) (lineno : Int)
    (htag : d.Tag = false) (hzero : d.Zero = false) (hbin : d.Binary = false)
    (hlen : digest.length = d.Size * 2) (hhex : ∀ b ∈ digest, isHexByte b = true)
    (hctl : ∀ b ∈ name, 32 ≤ b ∧ b ≠ 127) (hbs : 0x5C ∉ name)
    (hvalid : validString name = true) (hne : name ≠ []) (hsp : name.head? ≠ some 0x20)
    (halg : hasPrefix (digest ++ lit "  " ++ name) d.Name = false) :
    d.verifyLine (d.printSum digest name) fname lineno = some (.ok (digest, name)) := by
  have hout : d.printSum digest name = (digest ++ lit "  " ++ name) ++ [0x0A] := by
    simp [Driver.printSum, htag, hzero, hbin, escapeName_plain name hvalid hctl hbs]
  have htrim : trimRight (d.printSum digest name) (lit "\r\n\x00") =
      digest ++ lit "  " ++ name := by
    rw [hout]
    rcases List.eq_nil_or_concat name with h | ⟨s, c, h⟩
    · exact absurd h hne
    · rw [List.concat_eq_append] at h
      have hc := hctl c (by rw [h]; simp)
      have e : digest ++ lit "  " ++ name = (digest ++ lit "  " ++ s) ++ [c] := by
        rw [h]; simp
      rw [e]
      apply trimRight_keep
      · intro b hb
        have : b = c := by simpa using hb.symm
        subst this
        simp [cutset_eq]; omega
      · intro b hb
        have : b = 0x0A := by simpa using hb
        subst this; decide
  obtain ⟨hacc, htake, hdrop⟩ := gnu_line_accepts d digest name hlen hhex hne hsp
  have := (verifyLine_gnu d (d.printSum digest name) fname lineno (by rw [htrim]; exact halg)).1
    (by rw [htrim]; exact hacc)
  rw [this, htrim, htake, hdrop]

/-- C1, witness: the line for `empty.txt` under the MD5 driver. -/
theorem gnu_roundtrip_witness :
    exampleDriver.verifyLine
      (exampleDriver.printSum (lit "d41d8cd98f00b204e9800998ecf8427e") (lit "empty.txt"))
      (lit "sums") 1 =
    some (.ok (lit "d41d8cd98f00b204e9800998ecf8427e", lit "empty.txt")) :=
  gnu_roundtrip exampleDriver (lit "d41d8cd98f00b204e9800998ecf8427e") (lit "empty.txt")
    (lit "sums") 1 rfl rfl rfl (by decide) (by decide) (by decide) (by decide) (by decide)
    (by decide) (by decide) (by decide)
/-- C2: for every algorithm name, every non-empty name without `)` and every
digest `D` of exactly `Size * 2` hexadecimal characters, `verifyLine` applied to
`ALG (name) = D`, bare or followed by a newline or a NUL, returns `(D, name)`;
so it does on the line `printSum` writes in Tag dialect. -/
theorem tag_line_decodes (d : Driver) (name D fname : Str) (lineno : Int)
    (hne : name ≠ []) (hparen : 0x29 ∉ name) (hlen : D.length = d.Size * 2)
    (hhex : ∀ b ∈ D, isHexByte b = true) :
    (∀ term ∈ [[], [0x0A], [0x00]],
      d.verifyLine (d.Name ++ lit " (" ++ name ++ lit ") = " ++ D ++ term) fname lineno =
        some (.ok (D, name))) ∧
    (d.Tag = true → d.verifyLine (d.printSum D name) fname lineno = some (.ok (D, name))) := by
  have key : ∀ term : Str, (∀ b ∈ term, b ∈ lit "\r\n\x00") →
      d.verifyLine (d.Name ++ lit " (" ++ name ++ lit ") = " ++ D ++ term) fname lineno =
        some (.ok (D, name)) := fun term hterm =>
    verifyLine_tag_core d _ name D fname lineno
      (trimRight_tag_line d.Name name D term hhex hterm) hne hparen hlen hhex
  constructor
  · intro term hterm
    apply key
    simp only [List.mem_cons, List.mem_singleton, List.mem_nil_iff, or_false] at hterm
    rcases hterm with rfl | rfl | rfl <;> decide
  · intro htag
    have hout : d.printSum D name =
        d.Name ++ lit " (" ++ name ++ lit ") = " ++ D ++ (if d.Zero then [0] else [0x0A]) := by
      simp [Driver.printSum, htag]
    rw [hout]
    apply key
    cases d.Zero <;> decide

/-- C2, witness: the Tag-dialect example of the specification, and the line
`printSum` writes for it with `--tag`. -/
theorem tag_line_decodes_witness :
    exampleDriver.verifyLine (lit "MD5 (empty.txt) = d41d8cd98f00b204e9800998ecf8427e")
        (lit "sums") 1 =
      some (.ok (lit "d41d8cd98f00b204e9800998ecf8427e", lit "empty.txt")) ∧
    Driver.verifyLine { exampleDriver with Tag := true }
        (Driver.printSum { exampleDriver with Tag := true }
          (lit "d41d8cd98f00b204e9800998ecf8427e") (lit "empty.txt"))
        (lit "sums") 1 =
      some (.ok (lit "d41d8cd98f00b204e9800998ecf8427e", lit "empty.txt")) :=
  ⟨(tag_line_decodes exampleDriver (lit "empty.txt") (lit "d41d8cd98f00b204e9800998ecf8427e")
      (lit "sums") 1 (by decide) (by decide) (by decide) (by decide)).1 [] (by decide),
    (tag_line_decodes { exampleDriver with Tag := true } (lit "empty.txt")
      (lit "d41d8cd98f00b204e9800998ecf8427e") (lit "sums") 1 (by decide) (by decide)
      (by decide) (by decide)).2 rfl⟩

/-- C3, counterexample: a Tag-dialect line whose digest field is 33 letters `g`
is accepted, and the digest it returns is neither hexadecimal nor of length
`Size * 2`. -/
theorem tag_accepts_non_hex_digest :
    exampleDriver.verifyLine (lit "MD5 (empty.txt) = ggggggggggggggggggggggggggggggggg")
      (lit "sums") 1 =
      some (.ok (lit "ggggggggggggggggggggggggggggggggg", lit "empty.txt")) ∧
    ¬ (∀ b ∈ lit "ggggggggggggggggggggggggggggggggg", isHexByte b = true) ∧
    (lit "ggggggggggggggggggggggggggggggggg").length ≠ exampleDriver.Size * 2 := by
  refine ⟨by rfl, by decide, by decide⟩

/-- C3, amended: whenever `verifyLine` succeeds the returned name is non-empty
and the returned digest has at least `Size * 2` bytes; for a GNU-dialect line
(one that, trimmed, does not start with the algorithm name) the digest moreover
has exactly `Size * 2` bytes, all of them in `0-9a-fA-F`. -/
theorem decode_invariant (d : Driver) (line fname : Str) (lineno : Int) (h n : Str)
    (hok : d.verifyLine line fname lineno = some (.ok (h, n))) :
    n ≠ [] ∧ d.Size * 2 ≤ h.length ∧
      (hasPrefix (trimRight line (lit "\r\n\x00")) d.Name = false →
        h.length = d.Size * 2 ∧ ∀ b ∈ h, isHexByte b = true) := by
  by_cases hpre : hasPrefix (trimRight line (lit "\r\n\x00")) d.Name = true
  · rw [verifyLine_tag d line fname lineno hpre] at hok
    have hok' : tagDecode d (trimRight line (lit "\r\n\x00")) fname lineno = .ok (h, n) := by
      simpa using hok
    obtain ⟨h1, h2⟩ := tagDecode_ok d _ fname lineno h n hok'
    exact ⟨h1, h2, fun hf => by rw [hpre] at hf; cases hf⟩
  · have hpre' : hasPrefix (trimRight line (lit "\r\n\x00")) d.Name = false := by
      simpa using hpre
    by_cases hacc : gnuAccepts d (trimRight line (lit "\r\n\x00"))
    · rw [(verifyLine_gnu d line fname lineno hpre').1 hacc] at hok
      simp only [Option.some.injEq, Except.ok.injEq, Prod.mk.injEq] at hok
      obtain ⟨rfl, rfl⟩ := hok
      obtain ⟨a1, a2, _, _, a5⟩ := hacc
      have hl : ((trimRight line (lit "\r\n\x00")).take (d.Size * 2)).length = d.Size * 2 := by
        rw [List.length_take]; omega
      exact ⟨a5, by omega, fun _ => ⟨hl, a2⟩⟩
    · rw [(verifyLine_gnu d line fname lineno hpre').2 hacc] at hok
      simp at hok

/-- C3, witness: a GNU binary-mode line ending in CR LF. -/
theorem decode_invariant_witness :
    lit "empty.txt" ≠ [] ∧
      exampleDriver.Size * 2 ≤ (lit "d41d8cd98f00b204e9800998ecf8427e").length ∧
      (lit "d41d8cd98f00b204e9800998ecf8427e").length = exampleDriver.Size * 2 ∧
      ∀ b ∈ lit "d41d8cd98f00b204e9800998ecf8427e", isHexByte b = true :=
  have h := decode_invariant exampleDriver
    (lit "d41d8cd98f00b204e9800998ecf8427e *empty.txt\r\n") (lit "sums") 1
    (lit "d41d8cd98f00b204e9800998ecf8427e") (lit "empty.txt") (by rfl)
  ⟨h.1, h.2.1, h.2.2 (by decide)⟩

/-- C4: a line that does not start with the algorithm name and whose length
after stripping trailing CR, LF and NUL is below `Size * 2 + 3` gets the
malformed-line error. -/
theorem gnu_short_line_malformed (d : Driver) (line fname : Str) (lineno : Int)
    (hpre : hasPrefix line d.Name = false)
    (hshort : (trimRight line (lit "\r\n\x00")).length < d.Size * 2 + 3) :
    d.verifyLine line fname lineno = some (.error (malformedMsg d fname lineno)) := by
  have hpre' : hasPrefix (trimRight line (lit "\r\n\x00")) d.Name = false := by
    cases hh : hasPrefix (trimRight line (lit "\r\n\x00")) d.Name
    · rfl
    · rw [hasPrefix_of_trimRight line _ d.Name hh] at hpre; cases hpre
  exact (verifyLine_gnu d line fname lineno hpre').2 (fun hacc => by have := hacc.1; omega)

/-- C4, witness: a digest followed by two spaces and no name. -/
theorem gnu_short_line_malformed_witness :
    exampleDriver.verifyLine (lit "d41d8cd98f00b204e9800998ecf8427e  \n") (lit "sums") 7 =
      some (.error (lit "sums: 7: improperly formatted MD5 checksum line")) :=
  gnu_short_line_malformed exampleDriver (lit "d41d8cd98f00b204e9800998ecf8427e  \n")
    (lit "sums") 7 (by decide) (by decide)

/-- C5: for a line whose trimmed form `L` does not start with the algorithm name,
`verifyLine` succeeds exactly when `L` has at least `Size * 2 + 3` bytes, its
first `Size * 2` bytes are in `0-9a-fA-F`, the next byte is a space, the one
after it a space or `*`, and what remains after one further optional space is
non-empty (`gnuAccepts`); it then returns those first bytes and that remainder,
and otherwise the malformed-line error. -/
theorem gnu_decode_characterisation (d : Driver) (line fname : Str) (lineno : Int)
    (hpre : hasPrefix (trimRight line (lit "\r\n\x00")) d.Name = false) :
    ((∃ r, d.verifyLine line fname lineno = some (.ok r)) ↔
      gnuAccepts d (trimRight line (lit "\r\n\x00"))) ∧
    (∀ r, d.verifyLine line fname lineno = some (.ok r) →
      r = ((trimRight line (lit "\r\n\x00")).take (d.Size * 2),
        (trimRight line (lit "\r\n\x00")).drop (namePos d (trimRight line (lit "\r\n\x00"))))) ∧
    (¬ gnuAccepts d (trimRight line (lit "\r\n\x00")) →
      d.verifyLine line fname lineno = some (.error (malformedMsg d fname lineno))) := by
  obtain ⟨hyes, hno⟩ := verifyLine_gnu d line fname lineno hpre
  refine ⟨⟨?_, fun hacc => ⟨_, hyes hacc⟩⟩, ?_, hno⟩
  · rintro ⟨r, hr⟩
    by_contra hacc
    rw [hno hacc] at hr
    simp at hr
  · intro r hr
    by_cases hacc : gnuAccepts d (trimRight line (lit "\r\n\x00"))
    · rw [hyes hacc] at hr
      simpa using hr.symm
    · rw [hno hacc] at hr
      simp at hr

/-- C5, witness: a GNU binary-mode line under the MD5 driver is accepted. -/
theorem gnu_decode_characterisation_witness :
    gnuAccepts exampleDriver
      (trimRight (lit "d41d8cd98f00b204e9800998ecf8427e *empty.txt\n") (lit "\r\n\x00")) ∧
    ∃ r, exampleDriver.verifyLine (lit "d41d8cd98f00b204e9800998ecf8427e *empty.txt\n")
      (lit "sums") 1 = some (.ok r) :=
  ⟨by decide, (gnu_decode_characterisation exampleDriver
    (lit "d41d8cd98f00b204e9800998ecf8427e *empty.txt\n") (lit "sums") 1 (by decide)).1.mpr
    (by decide)⟩

/-- C6, counterexample: the one-byte name `0xFF` contains none of the bytes the
escaping singles out, and the byte-wise escaping of the claim returns it
unchanged, but `escapeName` returns the three bytes of U+FFFD; it does the same
to a lone high byte inside an otherwise plain name. -/
theorem escapeName_replaces_invalid_byte :
    escapeSpec [0xFF] = [0xFF] ∧ escapeName [0xFF] = [0xEF, 0xBF, 0xBD] ∧
    escapeSpec (lit "a" ++ [0xE9] ++ lit "b") = lit "a" ++ [0xE9] ++ lit "b" ∧
    escapeName (lit "a" ++ [0xE9] ++ lit "b") = lit "a" ++ [0xEF, 0xBF, 0xBD] ++ lit "b" := by
  refine ⟨by decide, by decide, by decide, by decide⟩

/-- C6, amended: for every name that is valid UTF-8, `escapeName` returns the
concatenation over its bytes of `\n` for newline, `\r` for carriage return,
`\\` for backslash, `\xHH` for any other byte below 32 or equal to 127, and
the byte itself otherwise (`escapeSpec`); in particular a valid UTF-8 name with
none of those bytes, non-ASCII text included, is returned byte for byte. -/
theorem escapeName_bytewise_on_utf8 (name : Str) (hvalid : validString name = true) :
    escapeName name = escapeSpec name ∧
    ((∀ b ∈ name, 32 ≤ b ∧ b ≠ 127) → 0x5C ∉ name → escapeName name = name) :=
  ⟨escapeName_valid name hvalid,
    fun hctl hbs => by rw [escapeName_valid name hvalid, escapeSpec_plain name hctl hbs]⟩

/-- C6, witness: a name with the two-byte character U+00E9, a newline, a
backslash and the control byte 1, and the plain non-ASCII name U+00E9 U+4E2D. -/
theorem escapeName_bytewise_on_utf8_witness :
    escapeName ([0xC3, 0xA9] ++ lit "\n\\\x01") = escapeSpec ([0xC3, 0xA9] ++ lit "\n\\\x01") ∧
    escapeSpec ([0xC3, 0xA9] ++ lit "\n\\\x01") = [0xC3, 0xA9] ++ lit "\\n\\\\\\x01" ∧
    escapeName [0xC3, 0xA9, 0xE4, 0xB8, 0xAD] = [0xC3, 0xA9, 0xE4, 0xB8, 0xAD] :=
  ⟨(escapeName_bytewise_on_utf8 ([0xC3, 0xA9] ++ lit "\n\\\x01") (by decide)).1, by decide,
    (escapeName_bytewise_on_utf8 [0xC3, 0xA9, 0xE4, 0xB8, 0xAD] (by decide)).2 (by decide)
      (by decide)⟩

/-- C7, counterexample: the distinct names `0xFF` and `0xEF 0xBF 0xBD` have the
same escaped form. -/
theorem escapeName_collision :
    ([0xFF] : Str) ≠ [0xEF, 0xBF, 0xBD] ∧ escapeName [0xFF] = escapeName [0xEF, 0xBF, 0xBD] := by
  refine ⟨by decide, by decide⟩

/-- C7, amended: on valid UTF-8 names `escapeName` is injective: two valid names
with the same escaped form are equal. -/
theorem escapeName_reversible_on_utf8 (a b : Str) (ha : validString a = true)
    (hb : validString b = true) (h : escapeName a = escapeName b) : a = b :=
  escapeName_injective_of_valid a b ha hb h

/-- C7, witness: the valid name `a`, newline, `b` and its escaped form. -/
theorem escapeName_reversible_on_utf8_witness :
    validString (lit "a\nb") = true ∧ escapeName (lit "a\nb") = lit "a\\nb" ∧
    lit "a\nb" = lit "a\nb" :=
  ⟨by decide, by decide,
    escapeName_reversible_on_utf8 (lit "a\nb") (lit "a\nb") (by decide) (by decide) rfl⟩

/-- C8: for a name containing a newline byte and a hexadecimal digest, the line
`printSum` writes in GNU dialect with newline termination is one backslash, the
digest, the separator, the escaped name and the newline; its second byte is not
a backslash, the escaped name holds no newline byte, and no byte before the
final terminator is a newline. -/
theorem newline_name_line (d : Driver) (sum name : Str) (htag : d.Tag = false)
    (hzero : d.Zero = false) (hnl : 0x0A ∈ name) (hhex : ∀ b ∈ sum, isHexByte b = true) :
    d.printSum sum name =
      0x5C :: (sum ++ (if d.Binary then lit " *" else lit "  ") ++ escapeName name) ++ [0x0A] ∧
    (sum ++ (if d.Binary then lit " *" else lit "  ") ++ escapeName name ++ [0x0A]).head? ≠
      some 0x5C ∧
    0x0A ∉ escapeName name ∧
    0x0A ∉ 0x5C :: (sum ++ (if d.Binary then lit " *" else lit "  ") ++ escapeName name) := by
  have hesc := newline_not_mem_escapeName name
  have hne : escapeName name ≠ name := fun e => hesc (by rw [e]; exact hnl)
  have hsum : 0x0A ∉ sum := fun h => by have := hhex _ h; revert this; decide
  refine ⟨?_, ?_, hesc, ?_⟩
  · cases hb : d.Binary <;> simp [Driver.printSum, htag, hzero, hb, hne, lit]
  · cases sum with
    | nil => cases d.Binary <;> simp [lit]
    | cons b r =>
      have hb := hhex b (List.mem_cons_self _ _)
      simp only [List.cons_append, List.head?_cons, ne_eq, Option.some.injEq]
      rintro rfl
      revert hb; decide
  · cases d.Binary <;> simp [lit, hsum, hesc]

/-- C8, witness: the name `a`, newline, `b` under the MD5 driver. -/
theorem newline_name_line_witness :
    exampleDriver.printSum (lit "d41d8cd98f00b204e9800998ecf8427e") (lit "a\nb") =
      0x5C :: (lit "d41d8cd98f00b204e9800998ecf8427e" ++
        (if exampleDriver.Binary then lit " *" else lit "  ") ++ escapeName (lit "a\nb")) ++
        [0x0A] :=
  (newline_name_line exampleDriver (lit "d41d8cd98f00b204e9800998ecf8427e") (lit "a\nb")
    rfl rfl (by decide) (by decide)).1

/-- C9: the bytes `printSum` writes: in Tag dialect the algorithm name, ` (`, the
raw name, `) = ` and the digest, with no backslash before them; in GNU dialect a
backslash exactly when the output is not zero-terminated and escaping changes
the name, then the digest, ` *` in binary mode and two spaces otherwise, and the
escaped name (the raw name when zero-terminated); in both a final NUL when
zero-terminated and a newline otherwise. -/
theorem printSum_format (d : Driver) (sum name : Str) :
    d.printSum sum name =
      (if d.Tag then d.Name ++ lit " (" ++ name ++ lit ") = " ++ sum
       else
        (if d.Zero = false ∧ escapeName name ≠ name then lit "\\" else []) ++ sum ++
          (if d.Binary then lit " *" else lit "  ") ++
          (if d.Zero then name else escapeName name)) ++
      (if d.Zero then [0x00] else [0x0A]) := by
  cases ht : d.Tag <;> cases hz : d.Zero <;> cases hb : d.Binary <;>
    by_cases he : escapeName name = name <;>
    simp [Driver.printSum, ht, hz, hb, he]

/-- The exit-code policy of `checkFiles`.  Over manifests none of which is a
file whose read fails, `checkFiles` returns; whenever it returns, its exit code
is 0 or 1, and it is 1 exactly when during the run a manifest failed to open and
was not ignored as missing, a line was malformed under `strict`, the target of a
valid line failed to open and was not ignored as missing, a verified target's
digest differed from the expected one, an opened manifest had no valid line in
check mode, or an opened manifest had no verified target with `check` and
`ignoreMissing` both set.  When a manifest is a file whose read fails,
`checkFiles` never returns. -/
theorem exit_code_policy (d : Driver) (w : World) (files : List Str) :
    (w.readable files = true → ∃ code, d.checkFiles w (w.readBound files) files = .done code) ∧
    (∀ fuel code, d.checkFiles w fuel files = .done code →
      (code = 0 ∨ code = 1) ∧
      (code = 1 ↔
        ManifestOpenFailure d w files ∨ (d.Strict = true ∧ MalformedLine d w files) ∨
        TargetOpenFailure d w files ∨ DigestMismatch d w files ∨
        (d.Check = true ∧ NoValidLine d w files) ∨
        (d.Check = true ∧ d.IgnoreMissing = true ∧ NoVerifiedTarget d w files))) ∧
    (w.readable files = false → ∀ fuel, d.checkFiles w fuel files = .unfinished) := by
  refine ⟨fun hr => ⟨_, checkFiles_returns d w files hr⟩, ?_, ?_⟩
  · intro fuel code h
    obtain ⟨st, hst, _⟩ := (checkFiles_done d w fuel files code).1 h
    have hr := (run_done d w fuel files st hst).1
    have hc := checkFiles_code d w fuel files code h
    rw [← fileFailsB_iff_events d w files hr]
    by_cases ha : files.any (d.fileFailsB w) = true
    · rw [if_pos ha] at hc
      exact ⟨Or.inr hc, fun _ => ha, fun _ => hc⟩
    · rw [if_neg ha] at hc
      exact ⟨Or.inl hc, fun h1 => by omega, fun h1 => absurd h1 ha⟩
  · intro hr fuel
    simp only [Driver.checkFiles, run_unreadable d w files hr fuel]
    rfl

/-- A concrete run of the example of the specification: the manifest line for the
empty file `empty.txt` matches, `empty.txt: OK` is printed and the exit code
is 0; a manifest that does not exist gives exit code 1. -/
theorem checkFiles_example_run :
    Driver.checkFilesRun { exampleDriver with Check := true } exampleWorld 3 [lit "sums"] =
      .done ⟨0, 1, 0, 0, lit "empty.txt: OK\n", []⟩ ∧
    Driver.checkFiles { exampleDriver with Check := true } exampleWorld 3 [lit "nosuch"] =
      .done 1 := by
  refine ⟨by rfl, by rfl⟩

/-- C10: with a directory as its manifest, which `os.Open` opens and whose
every read fails with an error that is not `io.EOF`, `checkFiles` never
returns, whatever the flags, the algorithm and the bound on the iterations of
its line loop: every `ReadString` result is the empty string without `io.EOF`,
which the loop takes for a blank line and skips. -/
theorem directory_manifest_never_returns (d : Driver) (fuel : Nat) :
    d.checkFiles exampleWorld2 fuel [lit "dir"] = .unfinished ∧
    exampleWorld2.openFile (lit "dir") = .unreadable [] ∧
    (∀ n, readCalls [] false n = List.replicate n ([], false)) := by
  refine ⟨?_, rfl, ?_⟩
  · have hr : exampleWorld2.readable [lit "dir"] = false := by decide
    simp only [Driver.checkFiles, run_unreadable d exampleWorld2 [lit "dir"] hr fuel]
    rfl
  · intro n
    have e : readCalls [] false n =
        ((([], false) : Str × Bool) :: List.replicate n ([], false)).take n := rfl
    rw [e]
    cases n with
    | zero => rfl
    | succ k =>
      rw [List.take_succ_cons, List.take_replicate, List.replicate_succ]
      simp
/-- C11: with `status` and `quiet` unset, for manifests whose non-blank lines
all parse and whose targets all open, `checkFiles` writes to standard output
the reports of the manifests in order, a report being one verdict line per
non-blank manifest line in manifest order; the verdict line of a line is
`<name>: OK` when the computed digest equals the expected one and
`<name>: FAILED` otherwise; and the exit code is 1 when some line is
`FAILED`. -/
theorem ok_failed_report (d : Driver) (w : World) (files : List Str)
    (hs : d.Status = false) (hq : d.Quiet = false)
    (hgood : ∀ f ∈ files, ∃ c, w.openFile f = .opened c ∧ ∀ nl ∈ manifestLines c,
      ∃ e p data, d.verifyLine nl.2 f nl.1 = some (.ok (e, p)) ∧ w.openFile p = .opened data) :
    ∃ fuel st, d.checkFilesRun w fuel files = .done st ∧
      st.stdout = files.flatMap (d.report w) ∧
      (∀ f ∈ files, ∀ c, w.openFile f = .opened c → ∀ nl ∈ manifestLines c,
        ∃ e p data, d.verifyLine nl.2 f nl.1 = some (.ok (e, p)) ∧ w.openFile p = .opened data ∧
          d.verdictLine w f nl =
            if computeSum d data = e then p ++ lit ": OK\n" else p ++ lit ": FAILED\n") ∧
      (DigestMismatch d w files → st.code = 1) := by
  have hr : w.readable files = true := by
    rw [World.readable, List.all_eq_true]
    intro f hf
    obtain ⟨c, hc, _⟩ := hgood f hf
    rw [hc]
  obtain ⟨st, hrun⟩ := run_returns d w files hr
  obtain ⟨_, a1, _, _, _, _, hcode⟩ := run_done d w _ files st hrun
  refine ⟨_, st, hrun, ?_, ?_, ?_⟩
  · rw [a1]
    exact flatMap_congr_mem _ _ _ (fun f _ => fileOut_report d w f hs hq)
  · intro f hf c hc nl hnl
    obtain ⟨c', hc', hall⟩ := hgood f hf
    rw [hc] at hc'
    cases hc'
    obtain ⟨e, p, data, hv, ho⟩ := hall nl hnl
    refine ⟨e, p, data, hv, ho, ?_⟩
    unfold Driver.verdictLine
    rw [hv]
    simp only [ho]
  · intro hmis
    rw [hcode, if_pos ((fileFailsB_iff_events d w files hr).2
      (Or.inr (Or.inr (Or.inr (Or.inl hmis)))))]

/-- C11, witness: the manifest `two` names `empty.txt` twice, once with the
correct digest and once with an incorrect one: exactly one `OK` line and one
`FAILED` line are written, in that order, and the exit code is 1. -/
theorem ok_failed_report_witness :
    ∃ fuel st,
      Driver.checkFilesRun { exampleDriver with Check := true } exampleWorld2 fuel [lit "two"] =
        .done st ∧
      st.stdout = lit "empty.txt: OK\nempty.txt: FAILED\n" ∧ st.code = 1 := by
  obtain ⟨fuel, st, hrun, hout, _, hcode⟩ :=
    ok_failed_report { exampleDriver with Check := true } exampleWorld2 [lit "two"] rfl rfl
      (by
        intro f hf
        have hf' : f = lit "two" := by simpa using hf
        subst hf'
        refine ⟨_, rfl, ?_⟩
        intro nl hnl
        rw [manifestLines_two] at hnl
        simp only [List.mem_cons, List.mem_singleton, List.mem_nil_iff, or_false] at hnl
        rcases hnl with rfl | rfl
        · exact ⟨_, _, _, by rfl, by rfl⟩
        · exact ⟨_, _, _, by rfl, by rfl⟩)
  refine ⟨fuel, st, hrun, ?_, ?_⟩
  · rw [hout]; rfl
  · apply hcode
    refine ⟨lit "two", by simp, _, rfl, 2, lit "00000000000000000000000000000000  empty.txt\n",
      by rw [manifestLines_two]; simp, _, _, _, by rfl, by rfl, by decide⟩

/-- C12: with `ignoreMissing` set (and `check` set or not), let the manifest
`f` be made of well-formed lines, at least one of which names a target that
opens, and let the manifest `f'` have the non-blank lines of `f` without those
that name a missing target.  Then the runs of `checkFiles` over `f` and over
`f'` write the same standard output and return the same exit code; the standard
output holds nothing for a line that names a missing target; and the exit code
is 1 exactly when some target has a digest mismatch or exists but fails to open,
and 0 otherwise. -/
theorem ignore_missing_skips (d : Driver) (w : World) (f f' c c' : Str)
    (him : d.IgnoreMissing = true)
    (ho : w.openFile f = .opened c) (ho' : w.openFile f' = .opened c')
    (hwell : ∀ nl ∈ manifestLines c, ∃ x, d.verifyLine nl.2 f nl.1 = some (.ok x))
    (hex : ∃ nl ∈ manifestLines c, ∃ e p data,
      d.verifyLine nl.2 f nl.1 = some (.ok (e, p)) ∧ w.openFile p = .opened data)
    (hrem : (manifestLines c').map Prod.snd =
      ((manifestLines c).map Prod.snd).filter (fun l => !d.missingTarget w l)) :
    ∃ fuel st st', d.checkFilesRun w fuel [f] = .done st ∧
      d.checkFilesRun w fuel [f'] = .done st' ∧
      st.stdout = st'.stdout ∧ st.code = st'.code ∧
      st.stdout = (manifestLines c).flatMap (fun nl =>
        if d.missingTarget w nl.2 then [] else d.outText (d.outcomeOf w f nl)) ∧
      (st.code = 1 ↔ DigestMismatch d w [f] ∨ TargetOpenFailure d w [f]) ∧
      (st.code = 0 ∨ st.code = 1) := by
  have hskip : ∀ l, (!d.missingTarget w l) = false → d.outcomeOf w [] (0, l) = .skipped := by
    intro l hl
    exact missing_skipped d w l him (by simpa using hl)
  -- the outcomes of both manifests from the text of the lines
  have hos := fileOutcomes_canonical d w f c hwell
  have hwell' : ∀ nl ∈ manifestLines c', ∃ x, d.verifyLine nl.2 f' nl.1 = some (.ok x) := by
    intro nl hnl
    have h1 : nl.2 ∈ (manifestLines c').map Prod.snd := List.mem_map_of_mem _ hnl
    rw [hrem] at h1
    obtain ⟨ml, hml, hml2⟩ := List.mem_map.1 (List.mem_filter.1 h1).1
    obtain ⟨x, hx⟩ := hwell ml hml
    rw [hml2] at hx
    exact ⟨x, verifyLine_ok_indep d nl.2 f f' ml.1 nl.1 x hx⟩
  have hos' := fileOutcomes_canonical d w f' c' hwell'
  rw [hrem] at hos'
  -- a verified line, kept in the second manifest
  obtain ⟨nl, hnl, e, p, data, hver, hop⟩ := hex
  have hverif : (d.outcomeOf w [] (0, nl.2)).isVerified = true := by
    rw [← outcomeOf_canonical d w f nl _ hver]
    obtain ⟨n, l⟩ := nl
    exact (isVerified_outcomeOf d w f n l).2 ⟨e, p, _, hver, by rw [hop]; rfl⟩
  have hkept : (!d.missingTarget w nl.2) = true := by
    cases hq : (!d.missingTarget w nl.2)
    · rw [hskip nl.2 hq] at hverif
      simp [LineOutcome.isVerified] at hverif
    · rfl
  have hmem : nl.2 ∈ (manifestLines c).map Prod.snd := List.mem_map_of_mem _ hnl
  obtain ⟨st, hrun, hout, hcode⟩ :=
    run_single_canonical d w f c _ ho hos ⟨nl.2, hmem, hverif⟩
  obtain ⟨st', hrun', hout', hcode'⟩ :=
    run_single_canonical d w f' c' _ ho' hos'
      ⟨nl.2, List.mem_filter.2 ⟨hmem, hkept⟩, hverif⟩
  rw [flatMap_filter_of_nil _ _ _ (fun l hl => by rw [hskip l hl]; rfl)] at hout'
  rw [any_filter_of_false _ _ _ (fun l hl => by rw [hskip l hl]; rfl)] at hcode'
  refine ⟨w.readBound [f] + w.readBound [f'], st, st', hrun _ (by omega), hrun' _ (by omega),
    by rw [hout, hout'], by rw [hcode, hcode'], ?_, ?_, ?_⟩
  · rw [hout, List.flatMap_map]
    apply flatMap_congr_mem
    intro ml hml
    obtain ⟨x, hx⟩ := hwell ml hml
    rw [← outcomeOf_canonical d w f ml x hx]
    cases hq : d.missingTarget w ml.2
    · simp
    · have hs := missing_skipped d w ml.2 him hq
      rw [← outcomeOf_canonical d w f ml x hx] at hs
      rw [hs]
      rfl
  · have hr := readable_opened w f c ho
    obtain ⟨_, _, _, _, _, _, hcode2⟩ := run_done d w _ [f] st (hrun _ (le_refl _))
    have hiff : st.code = 1 ↔ [f].any (d.fileFailsB w) = true := by
      rw [hcode2]
      by_cases ha : [f].any (d.fileFailsB w) = true
      · simp [ha]
      · simp [ha]
    rw [hiff, fileFailsB_iff_events d w [f] hr]
    constructor
    · rintro (h | h | h | h | h | h)
      · obtain ⟨f0, hf0, ne, msg, hfail, _⟩ := h
        rw [List.mem_singleton.1 hf0, ho] at hfail
        cases hfail
      · obtain ⟨_, f0, hf0, c0, ho0, n, l, hnl0, msg, hmal⟩ := h
        rw [List.mem_singleton.1 hf0, ho] at ho0
        cases ho0
        obtain ⟨x, hx⟩ := hwell (n, l) hnl0
        rw [List.mem_singleton.1 hf0] at hmal
        rw [hmal] at hx
        cases hx
      · exact Or.inr h
      · exact Or.inl h
      · obtain ⟨_, f0, hf0, c0, ho0, hall⟩ := h
        rw [List.mem_singleton.1 hf0, ho] at ho0
        cases ho0
        rw [List.mem_singleton.1 hf0] at hall
        exact absurd hver (hall nl.1 nl.2 hnl e p)
      · obtain ⟨_, _, f0, hf0, c0, ho0, hall⟩ := h
        rw [List.mem_singleton.1 hf0, ho] at ho0
        cases ho0
        rw [List.mem_singleton.1 hf0] at hall
        have hn := hall nl.1 nl.2 hnl e p hver
        rw [hop] at hn
        cases hn
    · rintro (h | h)
      · exact Or.inr (Or.inr (Or.inr (Or.inl h)))
      · exact Or.inr (Or.inr (Or.inl h))
  · rw [hcode]
    split_ifs
    · exact Or.inr rfl
    · exact Or.inl rfl

/-- C12, witness: the manifest `miss` has a line for `empty.txt` and a line for
the missing `nosuch`, the manifest `kept` only the line for `empty.txt`: both
runs write `empty.txt: OK` and return 0. -/
theorem ignore_missing_skips_witness :
    ∃ fuel st st',
      Driver.checkFilesRun { exampleDriver with Check := true, IgnoreMissing := true }
        exampleWorld2 fuel [lit "miss"] = .done st ∧
      Driver.checkFilesRun { exampleDriver with Check := true, IgnoreMissing := true }
        exampleWorld2 fuel [lit "kept"] = .done st' ∧
      st.stdout = st'.stdout ∧ st.code = st'.code ∧
      st.stdout = lit "empty.txt: OK\n" ∧ st.code = 0 := by
  obtain ⟨fuel, st, st', hrun, hrun', hout, hcode, hlines, _, hzero⟩ :=
    ignore_missing_skips { exampleDriver with Check := true, IgnoreMissing := true }
      exampleWorld2 (lit "miss") (lit "kept")
      (lit
        "d41d8cd98f00b204e9800998ecf8427e  empty.txt\nd41d8cd98f00b204e9800998ecf8427e  nosuch\n")
      (lit "d41d8cd98f00b204e9800998ecf8427e  empty.txt\n")
      rfl rfl rfl
      (by
        intro nl hnl
        rw [manifestLines_miss] at hnl
        simp only [List.mem_cons, List.mem_singleton, List.mem_nil_iff, or_false] at hnl
        rcases hnl with rfl | rfl
        · exact ⟨_, by rfl⟩
        · exact ⟨_, by rfl⟩)
      ⟨(1, lit "d41d8cd98f00b204e9800998ecf8427e  empty.txt\n"),
        by rw [manifestLines_miss]; simp, _, _, _, by rfl, by rfl⟩
      (by rfl)
  refine ⟨fuel, st, st', hrun, hrun', hout, hcode, ?_, ?_⟩
  · rw [hlines, manifestLines_miss]
    rfl
  · obtain ⟨_, _, _, _, _, _, hc⟩ := run_done _ _ _ _ st hrun
    rw [hc]
    rfl
/-- C13: a well-formed line whose expected digest has an upper-case hexadecimal
letter and whose target opens is a mismatch whatever the target holds: the
iteration of `checkFiles` on it adds one to the mismatch counter, prints
`<name>: FAILED` unless `status` is set and sets the exit code to 1, and a run
over a manifest with such a line returns 1. -/
theorem uppercase_digest_mismatch (d : Driver) (w : World) (prog f l : Str) (eof : Bool)
    (st : FileState) (expect path data : Str)
    (hv : d.verifyLine l f ((st.lineno + 1 : Nat) : Int) = some (.ok (expect, path)))
    (hup : ∃ b ∈ expect, 0x41 ≤ b ∧ b ≤ 0x46) (ho : w.openFile path = .opened data) :
    computeSum d data ≠ expect ∧
    (∃ st1, d.lineStep w prog f l eof st = some (st1, eof) ∧
      st1.run.mismatches = st.run.mismatches + 1 ∧
      st1.run.stdout = st.run.stdout ++ (if d.Status then [] else path ++ lit ": FAILED\n") ∧
      st1.run.code = 1) ∧
    (∀ files c, f ∈ files → w.openFile f = .opened c → (st.lineno + 1, l) ∈ manifestLines c →
      (∀ fuel code, d.checkFiles w fuel files = .done code → code = 1) ∧
      (w.readable files = true → ∃ fuel, d.checkFiles w fuel files = .done 1)) := by
  have hm : computeSum d data ≠ expect := by
    intro e
    obtain ⟨b, hb, hr⟩ := hup
    rw [← e] at hb
    exact computeSum_no_upper d data b hb hr
  have hb := not_blank_of_ok d l f _ _ hv
  have h2 : ¬ trimRight l (lit "\r\n\x00") = [] := by simpa [isBlank] using hb
  have h1 : ¬ (l = [] ∧ eof = true) := by
    rintro ⟨rfl, _⟩
    exact h2 rfl
  refine ⟨hm, ?_, ?_⟩
  · unfold Driver.lineStep
    rw [if_neg h1, if_neg h2]
    simp only [hv, ho, Driver.compareSum]
    cases hs : d.Status <;> simp [hm]
  · intro files c hf hfo hmem
    have hfail : d.fileFailsB w f = true := by
      apply fileFailsB_of_line d w f c (st.lineno + 1, l) hfo hmem
      rw [outcomeOf_eq d w f _ l _ hv]
      simp [Driver.classify, ho, hm, Driver.outcomeFails]
    obtain ⟨h1, h2⟩ := checkFiles_of_fails d w files f hf hfail
    exact ⟨h1, fun hr => ⟨_, h2 hr⟩⟩

/-- C13, witness: the manifest `upper` holds the correct digest of `empty.txt`
in upper case; the run prints `empty.txt: FAILED` and returns 1. -/
theorem uppercase_digest_mismatch_witness :
    computeSum exampleDriver [] ≠ lit "D41D8CD98F00B204E9800998ECF8427E" ∧
    (∃ fuel, Driver.checkFiles { exampleDriver with Check := true } exampleWorld2 fuel
      [lit "upper"] = .done 1) ∧
    Driver.checkFilesRun { exampleDriver with Check := true } exampleWorld2 3 [lit "upper"] =
      .done ⟨1, 1, 0, 1, lit "empty.txt: FAILED\n",
        lit "md5sum: WARNING: 1 computed checksum did NOT match\n"⟩ :=
  have h := uppercase_digest_mismatch { exampleDriver with Check := true } exampleWorld2
    (lit "md5sum") (lit "upper") (lit "D41D8CD98F00B204E9800998ECF8427E  empty.txt\n") false
    ⟨⟨0, 0, 0, 0, [], []⟩, 0, 0, 0⟩ (lit "D41D8CD98F00B204E9800998ECF8427E") (lit "empty.txt") []
    (by rfl) ⟨0x44, by decide, by decide, by decide⟩ (by rfl)
  ⟨h.1, (h.2.2 [lit "upper"] _ (by decide) (by rfl) (by decide)).2 (by decide), by rfl⟩
/-- C14: for a manifest file made of blank lines only (the empty file included)
the line loop ends, with no line counted: `lineno`, `valid` and `verified` are 0
and the run state, the malformed counter with it, is as it was; the file adds
nothing to the totals of valid and malformed lines; and in check mode the body
of the file loop sets the exit code to 1 and every run over a list with this
manifest returns 1 when it returns, which it does when the other manifests are
readable. -/
theorem blank_manifest (d : Driver) (w : World) (prog f c : Str) (st : RunState)
    (ho : w.openFile f = .opened c)
    (hblank : ∀ l ∈ (readStrings c).map Prod.fst, isBlank l = true) :
    (∀ fuel, (readStrings c).length + 1 ≤ fuel →
      d.lineLoop w prog f c true fuel ⟨st, 0, 0, 0⟩ = .done ⟨st, 0, 0, 0⟩) ∧
    (∃ st1, (∀ fuel, (readStrings c).length + 1 ≤ fuel →
        d.fileStep w prog fuel st f = .done st1) ∧
      st1.malformed = st.malformed ∧ st1.total = st.total ∧ (d.Check = true → st1.code = 1)) ∧
    (d.Check = true → ∀ files, f ∈ files →
      (∀ fuel code, d.checkFiles w fuel files = .done code → code = 1) ∧
      (w.readable files = true → ∃ fuel, d.checkFiles w fuel files = .done 1)) := by
  have hml := manifestLines_of_blank c hblank
  have hos : d.fileOutcomes w f c = [] := by simp [Driver.fileOutcomes, hml]
  have hfail : d.Check = true → d.fileFailsB w f = true := by
    intro hc
    simp [Driver.fileFailsB, ho, hos, hc]
  have hb : w.readBound [f] = (readStrings c).length + 1 := by simp [World.readBound, ho]
  refine ⟨?_, ?_, ?_⟩
  · intro fuel hfuel
    rw [lineLoop_enough d w prog f c fuel _ hfuel, afterLines_file, hos]
    rfl
  · rcases fileStep_cases d w prog st f with ⟨hr, _⟩ | ⟨_, s1, _, e1, _, _, a3, a4, _, a6⟩
    · rw [readable_opened w f c ho] at hr; cases hr
    refine ⟨s1, fun fuel hfuel => e1 fuel (by omega), ?_, ?_, ?_⟩
    · rw [a3]; simp [Driver.fileCount, ho, hos]
    · rw [a4]; simp [Driver.fileCount, ho, hos]
    · intro hck
      rw [a6, hfail hck]; rfl
  · intro hc files hf
    obtain ⟨h1, h2⟩ := checkFiles_of_fails d w files f hf (hfail hc)
    exact ⟨h1, fun hr => ⟨_, h2 hr⟩⟩

/-- C14, witness: the manifest `blank` holds an empty line, a CR LF line, a NUL
line and a final CR; the run in check mode returns 1 with no valid and no
malformed line. -/
theorem blank_manifest_witness :
    (∃ fuel, Driver.checkFiles { exampleDriver with Check := true } exampleWorld2 fuel
      [lit "blank"] = .done 1) ∧
    Driver.checkFilesRun { exampleDriver with Check := true } exampleWorld2 6 [lit "blank"] =
      .done ⟨1, 0, 0, 0, [],
        lit "md5sum: blank: no properly formatted checksum lines found\n"⟩ :=
  ⟨((blank_manifest { exampleDriver with Check := true } exampleWorld2 (lit "md5sum")
      (lit "blank") (lit "\n\r\n\x00\n\r") ⟨0, 0, 0, 0, [], []⟩ (by rfl) (by decide)).2.2 rfl
      [lit "blank"] (by decide)).2 (by decide),
    by rfl⟩
/-- The summary about improperly formatted lines.  When the loop over the
manifest files ends, its state holds the number of malformed lines and the
number of valid lines of all manifests, `checkFiles` returns, and it has
appended to standard error the summary about improperly formatted lines followed
by the summary about mismatches; the first is written (is not empty) exactly
when `status` is not set, the number of malformed lines is positive, and `warn`
or `strict` is set or the number of valid lines is positive; it is written once,
in the singular wording for one malformed line and in the plural wording with
the count otherwise.  The loop over the manifest files ends when no manifest is
a file whose read fails. -/
theorem malformed_summary (d : Driver) (w : World) (files : List Str) :
    (w.readable files = true → ∃ st0,
      d.fileLoop w (w.toLower d.Name ++ lit "sum") (w.readBound files) files
        ⟨0, 0, 0, 0, [], []⟩ = .done st0) ∧
    (∀ fuel st0,
      d.fileLoop w (w.toLower d.Name ++ lit "sum") fuel files ⟨0, 0, 0, 0, [], []⟩ = .done st0 →
      ∃ st, d.checkFilesRun w fuel files = .done st ∧
      st0.malformed = d.runCount w LineOutcome.isMalformed files ∧
      st0.total = d.runCount w LineOutcome.isValid files ∧
      st.stderr = st0.stderr ++
        d.malformedSummary (w.toLower d.Name ++ lit "sum") st0.malformed st0.total ++
        d.mismatchSummary (w.toLower d.Name ++ lit "sum") st0.mismatches ∧
      (d.malformedSummary (w.toLower d.Name ++ lit "sum") st0.malformed st0.total ≠ [] ↔
        d.Status = false ∧ st0.malformed > 0 ∧
          (d.Warn = true ∨ d.Strict = true ∨ st0.total > 0)) ∧
      (d.Status = false ∧ st0.malformed > 0 ∧
          (d.Warn = true ∨ d.Strict = true ∨ st0.total > 0) →
        d.malformedSummary (w.toLower d.Name ++ lit "sum") st0.malformed st0.total =
          if st0.malformed = 1 then
            w.toLower d.Name ++ lit "sum" ++ lit ": WARNING: 1 line is improperly formatted\n"
          else
            w.toLower d.Name ++ lit "sum" ++ lit ": WARNING: " ++ decimalNat st0.malformed ++
              lit " lines are improperly formatted\n")) := by
  constructor
  · intro hr
    rcases fileLoop_cases d w (w.toLower d.Name ++ lit "sum") files ⟨0, 0, 0, 0, [], []⟩ with
      ⟨hr', _⟩ | ⟨_, s0, _, e0, _⟩
    · rw [hr] at hr'; cases hr'
    · exact ⟨s0, e0 _ (le_refl _)⟩
  · intro fuel st0 h0
    rcases fileLoop_cases d w (w.toLower d.Name ++ lit "sum") files ⟨0, 0, 0, 0, [], []⟩ with
      ⟨_, hun⟩ | ⟨_, s0, hcases, _, _, _, a3, a4, _, _⟩
    · rw [hun fuel] at h0; cases h0
    have hs : s0 = st0 := by
      rcases hcases fuel with h | h
      · rw [h] at h0; cases h0; rfl
      · rw [h] at h0; cases h0
    subst hs
    obtain ⟨_, c2, _, _, _⟩ := summary_fields d w s0
    simp only [Nat.zero_add] at a3 a4
    refine ⟨d.summary w s0, by simp only [Driver.checkFilesRun, h0]; rfl, a3, a4, c2, ?_, ?_⟩
    · unfold Driver.malformedSummary
      constructor
      · intro h
        by_contra hc
        rw [if_neg hc] at h
        exact h rfl
      · intro hc
        rw [if_pos hc]
        split_ifs <;> simp [lit]
    · intro hc
      unfold Driver.malformedSummary
      rw [if_pos hc]

/-- A run with one malformed and one valid line: the singular summary is
written once, after the diagnostics of the manifests; with two malformed lines
and `warn` the plural wording carries the count. -/
theorem malformed_summary_example :
    Driver.checkFilesRun { exampleDriver with Check := true } exampleWorld2 3
        [lit "bad", lit "kept"] =
      .done ⟨1, 1, 1, 0, lit "empty.txt: OK\n",
        lit "md5sum: bad: no properly formatted checksum lines found\n" ++
        lit "md5sum: WARNING: 1 line is improperly formatted\n"⟩ ∧
    Driver.checkFilesRun { exampleDriver with Check := true } exampleWorld2 3 [lit "bad"] =
      .done ⟨1, 0, 1, 0, [],
        lit "md5sum: bad: no properly formatted checksum lines found\n"⟩ ∧
    Driver.checkFilesRun { exampleDriver with Check := true, Warn := true } exampleWorld2 3
        [lit "bad", lit "bad"] =
      .done ⟨1, 0, 2, 0, [],
        lit "md5sum: bad: 1: improperly formatted MD5 checksum line\n" ++
        lit "md5sum: bad: no properly formatted checksum lines found\n" ++
        lit "md5sum: bad: 1: improperly formatted MD5 checksum line\n" ++
        lit "md5sum: bad: no properly formatted checksum lines found\n" ++
        lit "md5sum: WARNING: 2 lines are improperly formatted\n"⟩ := by
  refine ⟨by rfl, by rfl, by rfl⟩

/-- C15: the run of `checkFiles` with `check` and `warn` set over the manifest
`bad`, which has one malformed line, followed by the directory `dir`: `status`
is not set, the number of malformed lines over the manifests is 1 and `warn` is
set, so the summary about improperly formatted lines is due; the body of the
file loop on `bad` ends with the warning of the line written and the malformed
counter at 1; but the run never returns, whatever the bound on the iterations
of the line loop on `dir`, and never writes the summary: the line loop on `dir`
does not end. -/
theorem summary_never_written (fuel : Nat) :
    ({ exampleDriver with Check := true, Warn := true } : Driver).Status = false ∧
    ({ exampleDriver with Check := true, Warn := true } : Driver).Warn = true ∧
    Driver.runCount { exampleDriver with Check := true, Warn := true } exampleWorld2
      LineOutcome.isMalformed [lit "bad", lit "dir"] = 1 ∧
    Driver.fileStep { exampleDriver with Check := true, Warn := true } exampleWorld2
        (lit "md5sum") 3 ⟨0, 0, 0, 0, [], []⟩ (lit "bad") =
      .done ⟨1, 0, 1, 0, [],
        lit "md5sum: bad: 1: improperly formatted MD5 checksum line\n" ++
        lit "md5sum: bad: no properly formatted checksum lines found\n"⟩ ∧
    Driver.lineLoop { exampleDriver with Check := true, Warn := true } exampleWorld2
        (lit "md5sum") (lit "dir") [] false fuel
        ⟨⟨1, 0, 1, 0, [],
          lit "md5sum: bad: 1: improperly formatted MD5 checksum line\n" ++
          lit "md5sum: bad: no properly formatted checksum lines found\n"⟩, 0, 0, 0⟩ =
      .unfinished ∧
    Driver.checkFilesRun { exampleDriver with Check := true, Warn := true } exampleWorld2 fuel
      [lit "bad", lit "dir"] = .unfinished :=
  ⟨rfl, rfl, by rfl, by rfl, lineLoop_unreadable _ _ _ _ _ _ _,
    run_unreadable _ _ _ (by decide) fuel⟩
/-- C16: with `status` and `check` set, the run over the empty manifest
`empty.txt` returns 1 and writes nothing to standard output, but writes the
diagnostic "no properly formatted checksum lines found" to standard error; with
`ignoreMissing` also set, the run over the manifest `gone` writes "no file was
verified"; with `warn` also set, the run over the manifest `bad` writes the
warning of the malformed line and the run over a manifest that does not exist
writes the open error. -/
theorem status_not_silent :
    Driver.checkFilesRun { exampleDriver with Check := true, Status := true } exampleWorld2 3
        [lit "empty.txt"] =
      .done ⟨1, 0, 0, 0, [],
        lit "md5sum: empty.txt: no properly formatted checksum lines found\n"⟩ ∧
    Driver.checkFilesRun
        { exampleDriver with Check := true, Status := true, IgnoreMissing := true }
        exampleWorld2 3 [lit "gone"] =
      .done ⟨1, 1, 0, 0, [], lit "md5sum: gone: no file was verified\n"⟩ ∧
    Driver.checkFilesRun { exampleDriver with Check := true, Status := true, Warn := true }
        exampleWorld2 3 [lit "bad"] =
      .done ⟨1, 0, 1, 0, [],
        lit "md5sum: bad: 1: improperly formatted MD5 checksum line\n" ++
        lit "md5sum: bad: no properly formatted checksum lines found\n"⟩ ∧
    Driver.checkFilesRun { exampleDriver with Check := true, Status := true, Warn := true }
        exampleWorld2 3 [lit "nomanifest"] =
      .done ⟨1, 0, 0, 0, [],
        lit "md5sum: nomanifest: open nomanifest: no such file or directory\n"⟩ :=
  ⟨by rfl, by rfl, by rfl, by rfl⟩

/-- C17, counterexample: with `status` unset, a run over a manifest whose only
line names a target that does not exist returns 1 and writes nothing at all, and
so does a run over a manifest that does not exist. -/
theorem silent_failure :
    ({ exampleDriver with Check := true } : Driver).Status = false ∧
    Driver.checkFilesRun { exampleDriver with Check := true } exampleWorld2 3 [lit "gone"] =
      .done ⟨1, 1, 0, 0, [], []⟩ ∧
    Driver.checkFilesRun { exampleDriver with Check := true } exampleWorld2 3 [lit "nomanifest"] =
      .done ⟨1, 0, 0, 0, [], []⟩ :=
  ⟨rfl, by rfl, by rfl⟩

/-- C17, amended: with `status` unset, a run of `checkFiles` that returns 1
has written at least one diagnostic to standard error, unless the target of a
valid line failed to open (and was not skipped as missing under
`ignoreMissing`), or a manifest failed to open and `warn` is unset.  Such runs
exist: over manifests none of which is a file whose read fails, `checkFiles`
returns. -/
theorem failure_diagnosed (d : Driver) (w : World) (files : List Str)
    (hs : d.Status = false) :
    (w.readable files = true → ∃ fuel st, d.checkFilesRun w fuel files = .done st) ∧
    (∀ fuel st, d.checkFilesRun w fuel files = .done st → st.code = 1 →
      st.stderr ≠ [] ∨ TargetOpenFailure d w files ∨
        (d.Warn = false ∧ ManifestOpenFailure d w files)) := by
  refine ⟨fun hr => ⟨_, run_returns d w files hr⟩, ?_⟩
  intro fuel st hrun h1
  obtain ⟨hr, _, herr, _, _, _, hcode⟩ := run_done d w fuel files st hrun
  have hany : files.any (d.fileFailsB w) = true := by
    by_contra hn
    rw [hcode, if_neg hn] at h1
    cases h1
  rcases (fileFailsB_iff_events d w files hr).1 hany with h | h | h | h | h | h
  · cases hw : d.Warn
    · exact Or.inr (Or.inr ⟨rfl, h⟩)
    · exact Or.inl (stderr_of_events d w files st hs herr (Or.inl ⟨hw, h⟩))
  · exact Or.inl (stderr_of_events d w files st hs herr (Or.inr (Or.inl h)))
  · exact Or.inr (Or.inl h)
  · exact Or.inl (stderr_of_events d w files st hs herr (Or.inr (Or.inr (Or.inl h))))
  · exact Or.inl (stderr_of_events d w files st hs herr (Or.inr (Or.inr (Or.inr (Or.inl h)))))
  · exact Or.inl (stderr_of_events d w files st hs herr (Or.inr (Or.inr (Or.inr (Or.inr h)))))

/-- C17, witness: the run over the manifest `two` returns 1 and is diagnosed on
standard error. -/
theorem failure_diagnosed_witness :
    Driver.checkFilesRun { exampleDriver with Check := true } exampleWorld2 3 [lit "two"] =
      .done ⟨1, 2, 0, 1, lit "empty.txt: OK\nempty.txt: FAILED\n",
        lit "md5sum: WARNING: 1 computed checksum did NOT match\n"⟩ ∧
    (lit "md5sum: WARNING: 1 computed checksum did NOT match\n" ≠ [] ∨
      TargetOpenFailure { exampleDriver with Check := true } exampleWorld2 [lit "two"] ∨
      (({ exampleDriver with Check := true } : Driver).Warn = false ∧
        ManifestOpenFailure { exampleDriver with Check := true } exampleWorld2 [lit "two"])) :=
  ⟨by rfl,
    (failure_diagnosed { exampleDriver with Check := true } exampleWorld2 [lit "two"] rfl).2 3
      ⟨1, 2, 0, 1, lit "empty.txt: OK\nempty.txt: FAILED\n",
        lit "md5sum: WARNING: 1 computed checksum did NOT match\n"⟩ (by rfl) rfl⟩
/-- C18: `verifyLine` is total with a single error kind: for every line, file
name, line number, algorithm name and digest size it does not panic and returns
either a pair or the error whose message is exactly
`<fileName>: <lineNumber>: improperly formatted <ALGNAME> checksum line`. -/
theorem verifyLine_single_error (d : Driver) (line fname : Str) (lineno : Int) :
    (∃ digest name, d.verifyLine line fname lineno = some (.ok (digest, name))) ∨
    d.verifyLine line fname lineno =
      some (.error (fname ++ lit ": " ++ decimal lineno ++ lit ": improperly formatted " ++
        d.Name ++ lit " checksum line")) := by
  obtain ⟨o, ho⟩ := verifyLine_parse d line
  rw [ho fname lineno]
  cases o with
  | none => exact Or.inr rfl
  | some x => exact Or.inl ⟨x.1, x.2, rfl⟩

/-- The single error of `verifyLine` at concrete inputs: a Tag-dialect line
without a name, a short GNU line, a digest with a non-hexadecimal character and
a negative line number all give the same message format. -/
theorem verifyLine_error_examples :
    exampleDriver.verifyLine (lit "MD5 () = d41d8cd98f00b204e9800998ecf8427e") (lit "sums") 3 =
      some (.error (lit "sums: 3: improperly formatted MD5 checksum line")) ∧
    exampleDriver.verifyLine (lit "MD5)") (lit "sums") 12 =
      some (.error (lit "sums: 12: improperly formatted MD5 checksum line")) ∧
    exampleDriver.verifyLine (lit "d41d  x") (lit "sums") 4 =
      some (.error (lit "sums: 4: improperly formatted MD5 checksum line")) ∧
    exampleDriver.verifyLine (lit "g41d8cd98f00b204e9800998ecf8427e  x") (lit "a b") (-5) =
      some (.error (lit "a b: -5: improperly formatted MD5 checksum line")) := by
  refine ⟨by rfl, by rfl, by rfl, by rfl⟩

/-- C19, counterexample: on the line `MD5)` the legacy parser panics (the slice
`rest[1:0]`) while the generic parser returns the malformed-line error; on the
line `MD5 xy) = d41d8cd98f00b204e9800998ecf8427e` the legacy parser returns the
digest with the name `y` while the generic parser returns the malformed-line
error. -/
theorem legacy_differs :
    legacyVerifyLine (lit "MD5)") (lit "sums") 1 = none ∧
    exampleDriver.verifyLine (lit "MD5)") (lit "sums") 1 =
      some (.error (lit "sums: 1: improperly formatted MD5 checksum line")) ∧
    legacyVerifyLine (lit "MD5 xy) = d41d8cd98f00b204e9800998ecf8427e") (lit "sums") 1 =
      some (.ok (lit "d41d8cd98f00b204e9800998ecf8427e", lit "y")) ∧
    exampleDriver.verifyLine (lit "MD5 xy) = d41d8cd98f00b204e9800998ecf8427e") (lit "sums") 1 =
      some (.error (lit "sums: 1: improperly formatted MD5 checksum line")) :=
  ⟨by rfl, by rfl, by rfl, by rfl⟩

/-- C19, amended: the legacy md5-only `verifyLine` and `Driver.verifyLine`
configured with the name `MD5` and a 16-byte digest return the same result (the
same pair, or the malformed-line error with the same message, and no panic) for
every file name and line number on every line which, once its trailing CR, LF
and NUL are stripped, does not start with `MD5`, or whose remainder after `MD5`,
trimmed of white space, starts with `(` or holds no `)`.  On every other line
the generic parser returns the malformed-line error. -/
theorem legacy_agrees (d : Driver) (hname : d.Name = lit "MD5") (hsize : d.Size = 16)
    (line f : Str) (n : Int) :
    (hasPrefix (trimRight line (lit "\r\n\x00")) (lit "MD5") = false ∨
      hasPrefix (trimSpace ((trimRight line (lit "\r\n\x00")).drop 3)) (lit "(") = true ∨
      indexByte (trimSpace ((trimRight line (lit "\r\n\x00")).drop 3)) 0x29 = none →
        ∃ r, legacyVerifyLine line f n = some r ∧ d.verifyLine line f n = some r) ∧
    (¬ (hasPrefix (trimRight line (lit "\r\n\x00")) (lit "MD5") = false ∨
      hasPrefix (trimSpace ((trimRight line (lit "\r\n\x00")).drop 3)) (lit "(") = true ∨
      indexByte (trimSpace ((trimRight line (lit "\r\n\x00")).drop 3)) 0x29 = none) →
        d.verifyLine line f n = some (.error
          (f ++ lit ": " ++ decimal n ++ lit ": improperly formatted MD5 checksum line"))) := by
  constructor
  · intro hcond
    cases hpre : hasPrefix (trimRight line (lit "\r\n\x00")) (lit "MD5") with
    | false =>
      have hpre' : hasPrefix (trimRight line (lit "\r\n\x00")) d.Name = false := by
        rw [hname]; exact hpre
      by_cases hacc : gnuAccepts d (trimRight line (lit "\r\n\x00"))
      · exact ⟨_, (legacy_gnu d hname hsize line f n hpre).1 hacc,
          (verifyLine_gnu d line f n hpre').1 hacc⟩
      · exact ⟨_, (legacy_gnu d hname hsize line f n hpre).2 hacc,
          (verifyLine_gnu d line f n hpre').2 hacc⟩
    | true =>
      have hpre' : hasPrefix (trimRight line (lit "\r\n\x00")) d.Name = true := by
        rw [hname]; exact hpre
      have hc : hasPrefix (trimSpace ((trimRight line (lit "\r\n\x00")).drop 3)) (lit "(") = true ∨
          indexByte (trimSpace ((trimRight line (lit "\r\n\x00")).drop 3)) 0x29 = none := by
        rcases hcond with h | h
        · rw [hpre] at h; cases h
        · exact h
      exact ⟨_, legacy_tag d hname hsize line f n hpre hc, verifyLine_tag d line f n hpre'⟩
  · intro hcond
    rw [not_or, not_or] at hcond
    obtain ⟨h1, h2, h3⟩ := hcond
    have hpre : hasPrefix (trimRight line (lit "\r\n\x00")) d.Name = true := by
      rw [hname]; simpa using h1
    have p1 : hasPrefix (trimSpace ((trimRight line (lit "\r\n\x00")).drop 3)) (lit "(") =
        false := by simpa using h2
    rw [verifyLine_tag d line f n hpre, legacy_msg d hname]
    have e3 : d.Name.length = 3 := by rw [hname]; rfl
    unfold tagDecode
    simp only [e3]
    have p2 : hasPrefix (trimSpace ((trimRight line (lit "\r\n\x00")).drop 3)) (lit " (") =
        false := by
      cases hr : trimSpace ((trimRight line (lit "\r\n\x00")).drop 3) with
      | nil => rfl
      | cons b r =>
        cases hp : hasPrefix (b :: r) (lit " (")
        · rfl
        · exfalso
          have hb : 0x20 = b := by
            have := hp
            simp only [hasPrefix, lit] at this
            rcases r with _ | ⟨b', r'⟩ <;> simp_all
          rw [← hb] at hr
          exact trimSpace_no_space _ _ hr
    cases hidx : indexByte (trimSpace ((trimRight line (lit "\r\n\x00")).drop 3)) 0x29 with
    | none => exact absurd hidx h3
    | some idx =>
      simp only [p1, p2, Bool.false_eq_true, if_false, ne_eq, not_true_eq_false, false_and]
      split_ifs <;> rfl

/-- C19, witness: the two parsers agree on a Tag-dialect line and on a
GNU-dialect line of the MD5 driver. -/
theorem legacy_agrees_witness :
    (∃ r, legacyVerifyLine (lit "MD5 (a.txt) = d41d8cd98f00b204e9800998ecf8427e\n")
        (lit "sums") 1 = some r ∧
      exampleDriver.verifyLine (lit "MD5 (a.txt) = d41d8cd98f00b204e9800998ecf8427e\n")
        (lit "sums") 1 = some r) ∧
    (∃ r, legacyVerifyLine (lit "d41d8cd98f00b204e9800998ecf8427e  a.txt\n")
        (lit "sums") 2 = some r ∧
      exampleDriver.verifyLine (lit "d41d8cd98f00b204e9800998ecf8427e  a.txt\n")
        (lit "sums") 2 = some r) :=
  ⟨(legacy_agrees exampleDriver rfl rfl
      (lit "MD5 (a.txt) = d41d8cd98f00b204e9800998ecf8427e\n") (lit "sums") 1).1
      (Or.inr (Or.inl (by decide))),
    (legacy_agrees exampleDriver rfl rfl
      (lit "d41d8cd98f00b204e9800998ecf8427e  a.txt\n") (lit "sums") 2).1
      (Or.inl (by decide))⟩

/-- C20, counterexample: inside the first iteration of the line loop on the
manifest `kept`, whose one line is valid, right after `lineno++` one non-blank
line has been read and `lineno` is 1 while there is no valid and no malformed
line yet: the number of non-blank lines read is not the valid lines plus the
malformed lines at that point. -/
theorem lineno_ahead_of_counters :
    Driver.linePoints { exampleDriver with Check := true } exampleWorld2 (lit "kept")
        (lit "d41d8cd98f00b204e9800998ecf8427e  empty.txt\n") false
        ⟨⟨0, 0, 0, 0, [], []⟩, 0, 0, 0⟩ =
      [⟨⟨0, 0, 0, 0, [], []⟩, 1, 0, 0⟩, ⟨⟨0, 0, 0, 0, [], []⟩, 1, 1, 0⟩,
        ⟨⟨0, 0, 0, 0, [], []⟩, 1, 1, 1⟩] ∧
    readCalls (lit "d41d8cd98f00b204e9800998ecf8427e  empty.txt\n") true 1 =
      [(lit "d41d8cd98f00b204e9800998ecf8427e  empty.txt\n", false)] ∧
    linesRead (lit "d41d8cd98f00b204e9800998ecf8427e  empty.txt\n") true 1 = 1 ∧
    (⟨⟨0, 0, 0, 0, [], []⟩, 1, 0, 0⟩ : FileState).lineno ≠
      (⟨⟨0, 0, 0, 0, [], []⟩, 1, 0, 0⟩ : FileState).valid +
        (⟨⟨0, 0, 0, 0, [], []⟩, 1, 0, 0⟩ : FileState).run.malformed :=
  ⟨by rfl, by decide, by decide, by decide⟩

/-- C20, amended: while `checkFiles` processes a manifest file, readable or
not, at the start of every iteration of its line loop, that is after any number
`k` of `ReadString` results, and at the end of the loop, `lineno` is the number
of non-blank lines read and equals the valid lines plus the malformed lines of
this file, the verified targets are at most the valid lines and the mismatches
of this file are at most its verified targets.  At the points inside an
iteration, where `lineno` already counts the line being processed, `lineno` is
the valid lines plus the malformed lines of this file or one more, and the two
inequalities hold.  Whenever a run returns, its mismatch count is at most its
total of valid lines; a run over manifests none of which is a file whose read
fails returns. -/
theorem counter_invariant (d : Driver) (w : World) (prog f c : Str) (readable : Bool)
    (st : RunState) (files : List Str) :
    (∀ k, ∃ fs b, d.lineIter w prog f (readCalls c readable k) ⟨st, 0, 0, 0⟩ = some (fs, b) ∧
      fs.lineno = linesRead c readable k ∧ CounterInv st fs ∧
      ∀ l eof, ∀ p ∈ d.linePoints w f l eof fs, PointInv st (fs.lineno + 1) p) ∧
    (∀ fuel fs, d.lineLoop w prog f c readable fuel ⟨st, 0, 0, 0⟩ = .done fs →
      fs.lineno = (manifestLines c).length ∧ CounterInv st fs) ∧
    (∀ fuel r, d.checkFilesRun w fuel files = .done r → r.mismatches ≤ r.total) ∧
    (w.readable files = true → ∃ fuel r, d.checkFilesRun w fuel files = .done r) := by
  refine ⟨?_, ?_, ?_, fun hr => ⟨_, run_returns d w files hr⟩⟩
  · intro k
    obtain ⟨b, hb, _⟩ := lineIter_readCalls d w prog f c readable k ⟨st, 0, 0, 0⟩
    obtain ⟨hinv, hln⟩ :=
      counterInv_afterLines d w prog f ((readCalls c readable k).map Prod.fst) st
    exact ⟨_, b, hb, hln, hinv, fun l eof => linePoints_inv d w f l eof st _ hinv⟩
  · intro fuel fs h
    cases readable
    · rw [lineLoop_unreadable] at h; cases h
    · obtain ⟨hinv, hln⟩ := counterInv_afterLines d w prog f ((readStrings c).map Prod.fst) st
      rcases lineLoop_readable d w prog f c fuel ⟨st, 0, 0, 0⟩ with h1 | h1
      · rw [h1] at h
        cases h
        refine ⟨?_, hinv⟩
        rw [hln, manifestLines, numberFrom_length]
      · rw [h1] at h; cases h
  · intro fuel r h
    obtain ⟨_, _, _, _, a4, a5, _⟩ := run_done d w fuel files r h
    rw [a4, a5]
    exact runCount_mono d w _ _ files
      (fun os => (count_mismatch_le_verified os).trans (count_verified_le_valid os))

/-- C20, witness: the line loop on the manifest `two`, whose two lines are
valid with one mismatch: after one `ReadString` result one line is read and
counted valid and verified; the loop ends with two valid lines, two verified
targets and one mismatch. -/
theorem counter_invariant_witness :
    Driver.lineIter { exampleDriver with Check := true } exampleWorld2 (lit "md5sum") (lit "two")
        (readCalls (lit
          "d41d8cd98f00b204e9800998ecf8427e  empty.txt\n00000000000000000000000000000000  empty.txt\n")
          true 1) ⟨⟨0, 0, 0, 0, [], []⟩, 0, 0, 0⟩ =
      some (⟨⟨0, 0, 0, 0, lit "empty.txt: OK\n", []⟩, 1, 1, 1⟩, false) ∧
    Driver.lineLoop { exampleDriver with Check := true } exampleWorld2 (lit "md5sum") (lit "two")
        (lit
          "d41d8cd98f00b204e9800998ecf8427e  empty.txt\n00000000000000000000000000000000  empty.txt\n")
        true 4 ⟨⟨0, 0, 0, 0, [], []⟩, 0, 0, 0⟩ =
      .done ⟨⟨1, 0, 0, 1, lit "empty.txt: OK\nempty.txt: FAILED\n", []⟩, 2, 2, 2⟩ ∧
    (2 = (manifestLines (lit
        "d41d8cd98f00b204e9800998ecf8427e  empty.txt\n00000000000000000000000000000000  empty.txt\n")).length ∧
      CounterInv ⟨0, 0, 0, 0, [], []⟩
        ⟨⟨1, 0, 0, 1, lit "empty.txt: OK\nempty.txt: FAILED\n", []⟩, 2, 2, 2⟩) :=
  ⟨by rfl, by rfl,
    (counter_invariant { exampleDriver with Check := true } exampleWorld2 (lit "md5sum")
      (lit "two") (lit
        "d41d8cd98f00b204e9800998ecf8427e  empty.txt\n00000000000000000000000000000000  empty.txt\n")
      true ⟨0, 0, 0, 0, [], []⟩ []).2.1 4
      ⟨⟨1, 0, 0, 1, lit "empty.txt: OK\nempty.txt: FAILED\n", []⟩, 2, 2, 2⟩ (by rfl)⟩

/-- The states of the counters inside an iteration end in the counters of the
state the iteration ends in: the list of points of an iteration on a non-blank
line is not empty, and the counters of its last point are those of the result
of `lineStep`. -/
theorem linePoints_last_example :
    Driver.lineStep { exampleDriver with Check := true } exampleWorld2 (lit "md5sum") (lit "two")
        (lit "00000000000000000000000000000000  empty.txt\n") false
        ⟨⟨0, 0, 0, 0, lit "empty.txt: OK\n", []⟩, 1, 1, 1⟩ =
      some (⟨⟨1, 0, 0, 1, lit "empty.txt: OK\nempty.txt: FAILED\n", []⟩, 2, 2, 2⟩, false) ∧
    Driver.linePoints { exampleDriver with Check := true } exampleWorld2 (lit "two")
        (lit "00000000000000000000000000000000  empty.txt\n") false
        ⟨⟨0, 0, 0, 0, lit "empty.txt: OK\n", []⟩, 1, 1, 1⟩ =
      [⟨⟨0, 0, 0, 0, lit "empty.txt: OK\n", []⟩, 2, 1, 1⟩,
        ⟨⟨0, 0, 0, 0, lit "empty.txt: OK\n", []⟩, 2, 2, 1⟩,
        ⟨⟨0, 0, 0, 0, lit "empty.txt: OK\n", []⟩, 2, 2, 2⟩,
        ⟨⟨0, 0, 0, 1, lit "empty.txt: OK\n", []⟩, 2, 2, 2⟩] :=
  ⟨by rfl, by rfl⟩
/-- The output-only flags and the exit code.  Over manifests none of which is a
file whose read fails, `checkFiles` returns the same exit code under all eight
settings of `quiet`, `status` and `warn`; when a manifest is a file whose read
fails, it returns under none of them. -/
theorem exit_code_output_flags (d : Driver) (w : World) (files : List Str) :
    (w.readable files = true → ∃ code, ∀ q s v : Bool,
      ({ d with Quiet := q, Status := s, Warn := v } : Driver).checkFiles w (w.readBound files)
        files = .done code) ∧
    (∀ (q s v : Bool) (fuel code : Nat),
      ({ d with Quiet := q, Status := s, Warn := v } : Driver).checkFiles w fuel files =
        .done code → code = if files.any (d.fileFailsB w) then 1 else 0) ∧
    (w.readable files = false → ∀ (q s v : Bool) (fuel : Nat),
      ({ d with Quiet := q, Status := s, Warn := v } : Driver).checkFiles w fuel files =
        .unfinished) := by
  have e : ∀ q s v : Bool,
      files.any (({ d with Quiet := q, Status := s, Warn := v } : Driver).fileFailsB w) =
        files.any (d.fileFailsB w) :=
    fun q s v => congrArg (fun g => files.any g) (funext (fileFailsB_flags d w q s v))
  refine ⟨fun hr => ⟨if files.any (d.fileFailsB w) then 1 else 0, fun q s v => ?_⟩, ?_, ?_⟩
  · rw [checkFiles_returns _ w files hr, e]
  · intro q s v fuel code h
    rw [checkFiles_code _ w fuel files code h, e]
  · intro hr q s v fuel
    simp only [Driver.checkFiles, run_unreadable _ w files hr fuel]
    rfl

/-- The exit code of concrete runs under all eight settings of the output
flags: 1 for the manifest `two` (a mismatch), 0 for the manifest `kept`. -/
theorem exit_code_output_flags_example :
    (∀ q s v : Bool, Driver.checkFiles
      { exampleDriver with Check := true, Quiet := q, Status := s, Warn := v }
      exampleWorld2 3 [lit "two"] = .done 1) ∧
    (∀ q s v : Bool, Driver.checkFiles
      { exampleDriver with Check := true, Quiet := q, Status := s, Warn := v }
      exampleWorld2 3 [lit "kept"] = .done 0) := by
  constructor <;> intro q s v <;> cases q <;> cases s <;> cases v <;> rfl

end Checksum
